import Mathlib

/-!
Verification of the HTML API-extraction and caching subsystem of the
spartan-ui-mcp repository.

The development shallowly embeds the JavaScript source:

* `src/tools/utils.js` — `htmlToText`, `fetchContent`, `extractCodeBlocks`,
  `extractAPIInfo`, `extractAPIComponents`, `extractPropsFromTable`,
  `detectLanguage`;
* `src/tools/cache.js` — the `CacheManager` class (`getComponent`,
  `setComponent`, `getDocs`, `setDocs`);
* `src/tools/cache-warmup.js` — `warmComponent`, `warmCache`.

Strings are embedded as `List Char`.  The JavaScript regular-expression
scans are embedded as deterministic left-to-right scanners that follow the
semantics of `String.replace`/`RegExp.exec` with the `g` flag: at each
position the engine tries the (deterministic, for the patterns occurring in
the source) pattern and, on failure, advances one character; on success it
continues after the match.  Case-insensitive (`i` flag) literal matching is
embedded via ASCII lower-casing.
-/

namespace Spartan

/-- ASCII lower-case code of a character, as used by the `i` regex flag. -/
def lcn (c : Char) : Nat := if 65 ≤ c.toNat && c.toNat ≤ 90 then c.toNat + 32 else c.toNat

/-- Case-insensitive character comparison (ASCII, as the `i` regex flag). -/
def eqCI (a b : Char) : Bool := lcn a == lcn b

/-- Case-insensitive "the pattern matches at the start of `s`". -/
def isPrefixCI : List Char → List Char → Bool
  | [], _ => true
  | _ :: _, [] => false
  | p :: ps, c :: cs => eqCI p c && isPrefixCI ps cs

/-- Case-sensitive "the pattern matches at the start of `s`". -/
def isPrefixCS : List Char → List Char → Bool
  | [], _ => true
  | _ :: _, [] => false
  | p :: ps, c :: cs => (p == c) && isPrefixCS ps cs

/-- Case-insensitive substring occurrence (somewhere in `s`). -/
def containsCIb (pat : List Char) : List Char → Bool
  | [] => isPrefixCI pat []
  | c :: t => isPrefixCI pat (c :: t) || containsCIb pat t

/-- Case-sensitive substring occurrence, modelling JavaScript `String.includes`. -/
def containsCSb (pat : List Char) : List Char → Bool
  | [] => isPrefixCS pat []
  | c :: t => isPrefixCS pat (c :: t) || containsCSb pat t

/-- `s` has no `<` character. -/
def noLt (s : List Char) : Bool := s.all (fun c => !(c == '<'))

/-- `s` has no `:` character. -/
def noColon (s : List Char) : Bool := s.all (fun c => !(c == ':'))

/-- Drop characters up to and including the first `>` (the regex `[^>]*>`).
`none` when there is no `>`. -/
def dropThroughGt : List Char → Option (List Char)
  | [] => none
  | c :: t => if c == '>' then some t else dropThroughGt t

/-- Strip a case-insensitive literal prefix. -/
def stripPrefixCI (pat s : List Char) : Option (List Char) :=
  if isPrefixCI pat s then some (s.drop pat.length) else none

/-- Split at the earliest position where `p` fires (a lazy `[\s\S]*?` followed
by a pattern of length `len`): returns the part before the match and the part
after it.  `p` is assumed to never fire on `[]`. -/
def splitAfterP (p : List Char → Bool) (len : Nat) : List Char → Option (List Char × List Char)
  | [] => none
  | c :: t =>
    if p (c :: t) then some ([], (c :: t).drop len)
    else match splitAfterP p len t with
         | some (b, r) => some (c :: b, r)
         | none => none

/-- Split after the earliest case-insensitive occurrence of `pat`. -/
def splitAfterCI (pat : List Char) (s : List Char) : Option (List Char × List Char) :=
  splitAfterP (isPrefixCI pat) pat.length s

/-- The characters before the earliest position where `stop` fires
(a lazy capture group bounded by a look-ahead). -/
def captureUntil (stop : List Char → Bool) : List Char → List Char
  | [] => []
  | c :: t => if stop (c :: t) then [] else c :: captureUntil stop t

/-- The remainder from the earliest position where `stop` fires. -/
def dropUntil (stop : List Char → Bool) : List Char → List Char
  | [] => []
  | c :: t => if stop (c :: t) then c :: t else dropUntil stop t

theorem splitAfterP_length_le (p : List Char → Bool) (len : Nat) :
    ∀ s b r, splitAfterP p len s = some (b, r) → r.length ≤ s.length := by
  intro s
  induction s with
  | nil => intro b r h; simp [splitAfterP] at h
  | cons c t ih =>
    intro b r h
    by_cases hp : p (c :: t)
    · simp [splitAfterP, hp] at h
      rcases h with ⟨_, hr⟩
      subst hr
      simp [List.length_drop]
    · simp [splitAfterP, hp] at h
      rcases hmatch : splitAfterP p len t with _ | ⟨b', r'⟩
      · rw [hmatch] at h; simp at h
      · rw [hmatch] at h
        simp at h
        rcases h with ⟨_, hr⟩
        subst hr
        have := ih b' r' hmatch
        simp; omega

theorem dropThroughGt_length_lt :
    ∀ s r, dropThroughGt s = some r → r.length < s.length := by
  intro s
  induction s with
  | nil => intro r h; simp [dropThroughGt] at h
  | cons c t ih =>
    intro r h
    by_cases hc : c == '>'
    · simp [dropThroughGt, hc] at h; subst h; simp
    · simp [dropThroughGt, hc] at h
      have := ih r h
      simp; omega

theorem stripPrefixCI_length_le (pat s r : List Char) (h : stripPrefixCI pat s = some r) :
    r.length ≤ s.length := by
  unfold stripPrefixCI at h
  split at h
  · cases h; simp [List.length_drop]
  · cases h

theorem stripPrefixCI_cons_length_lt (c : Char) (pat s r : List Char)
    (h : stripPrefixCI (c :: pat) s = some r) : r.length < s.length := by
  unfold stripPrefixCI at h
  split at h <;> rename_i hp
  · cases h
    cases s with
    | nil => simp [isPrefixCI] at hp
    | cons d t => have := List.length_drop pat.length t; simp; omega
  · cases h

/-- Fueled worker for `scanWith`.  The fuel only serves structural recursion;
`scanWith` supplies `s.length`, which always suffices because every match
consumes at least one character. -/
def scanWithF {α : Type} (try? : List Char → Option (α × List Char)) :
    Nat → List Char → List α
  | _, [] => []
  | 0, _ :: _ => []
  | fuel + 1, c :: t =>
    match try? (c :: t) with
    | some (a, r) => a :: scanWithF try? fuel r
    | none => scanWithF try? fuel t

/-- Generic global-scan collector: the `while (m = re.exec(s))` loop.  `try?`
returns the parsed match and the remainder of the input after the match; the
proof `hlt` that matches consume input makes the fuel irrelevant. -/
def scanWith {α : Type} (try? : List Char → Option (α × List Char))
    (_hlt : ∀ s a r, try? s = some (a, r) → r.length < s.length)
    (s : List Char) : List α :=
  scanWithF try? s.length s

/-- Fueled worker for `replaceWith`. -/
def replaceWithF (try? : List Char → Option (List Char × List Char)) :
    Nat → List Char → List Char
  | _, [] => []
  | 0, s => s
  | fuel + 1, c :: t =>
    match try? (c :: t) with
    | some (rep, r) => rep ++ replaceWithF try? fuel r
    | none => c :: replaceWithF try? fuel t

/-- Generic global replace: `s.replace(re, rep)` with the `g` flag, where the
replacement may depend on the match. -/
def replaceWith (try? : List Char → Option (List Char × List Char))
    (_hlt : ∀ s a r, try? s = some (a, r) → r.length < s.length)
    (s : List Char) : List Char :=
  replaceWithF try? s.length s

theorem scanWithF_eq {α : Type} (try? : List Char → Option (α × List Char))
    (hlt : ∀ s a r, try? s = some (a, r) → r.length < s.length) :
    ∀ fuel s, s.length ≤ fuel → scanWithF try? fuel s = scanWithF try? s.length s := by
  intro fuel
  induction fuel using Nat.strong_induction_on with
  | _ fuel ih =>
    intro s hs
    rcases s with _ | ⟨c, t⟩
    · cases fuel <;> rfl
    · rcases fuel with _ | fuel'
      · simp at hs
      · show scanWithF try? (fuel' + 1) (c :: t) = scanWithF try? (c :: t).length (c :: t)
        rw [show (c :: t).length = t.length + 1 from rfl]
        rcases h : try? (c :: t) with _ | ⟨a, r⟩
        · simp only [scanWithF, h]
          have hlen : t.length ≤ fuel' := by simpa using hs
          rw [ih fuel' (by omega) t hlen]
        · simp only [scanWithF, h]
          have hr := hlt _ _ _ h
          simp only [List.length_cons] at hr hs
          rw [ih fuel' (by omega) r (by omega), ih t.length (by omega) r (by omega)]

theorem replaceWithF_eq (try? : List Char → Option (List Char × List Char))
    (hlt : ∀ s a r, try? s = some (a, r) → r.length < s.length) :
    ∀ fuel s, s.length ≤ fuel → replaceWithF try? fuel s = replaceWithF try? s.length s := by
  intro fuel
  induction fuel using Nat.strong_induction_on with
  | _ fuel ih =>
    intro s hs
    rcases s with _ | ⟨c, t⟩
    · cases fuel <;> rfl
    · rcases fuel with _ | fuel'
      · simp at hs
      · show replaceWithF try? (fuel' + 1) (c :: t) = replaceWithF try? (c :: t).length (c :: t)
        rw [show (c :: t).length = t.length + 1 from rfl]
        rcases h : try? (c :: t) with _ | ⟨rep, r⟩
        · simp only [replaceWithF, h]
          have hlen : t.length ≤ fuel' := by simpa using hs
          rw [ih fuel' (by omega) t hlen]
        · simp only [replaceWithF, h]
          have hr := hlt _ _ _ h
          simp only [List.length_cons] at hr hs
          rw [ih fuel' (by omega) r (by omega), ih t.length (by omega) r (by omega)]

/-- Generic first-match search: `s.match(re)` without the `g` flag. -/
def findWith {α : Type} (try? : List Char → Option α) : List Char → Option α
  | [] => none
  | c :: t =>
    match try? (c :: t) with
    | some a => some a
    | none => findWith try? t

/-! ### `htmlToText` (utils.js lines 66–81) -/

/-- JavaScript `\s` / `String.trim` whitespace (the ASCII part plus NBSP). -/
def jsWs (c : Char) : Bool :=
  c == ' ' || c == '\t' || c == '\n' || c == '\r' || c == '\x0b' || c == '\x0c' || c == ' '

/-- Matcher for the lazy block regexes `/<script[\s\S]*?<\/script>/gi` and
`/<style[\s\S]*?<\/style>/gi`: a case-insensitive `<`-led literal opener, then
the lazy gap, then the closing literal. -/
def tryBlock (opTail closePat : List Char) (s : List Char) : Option (List Char × List Char) :=
  match stripPrefixCI ('<' :: opTail) s with
  | some m =>
    match splitAfterCI closePat m with
    | some (_, r) => some (([] : List Char), r)
    | none => none
  | none => none

theorem splitAfterCI_length_le (pat s b r : List Char) (h : splitAfterCI pat s = some (b, r)) :
    r.length ≤ s.length :=
  splitAfterP_length_le _ _ _ _ _ h

theorem tryBlock_length (opTail closePat : List Char) :
    ∀ s a r, tryBlock opTail closePat s = some (a, r) → r.length < s.length := by
  intro s a r h
  unfold tryBlock at h
  split at h <;> rename_i hm
  · split at h <;> rename_i hsp
    · simp at h
      rcases h with ⟨_, hr⟩
      subst hr
      have h1 := stripPrefixCI_cons_length_lt _ _ _ _ hm
      have h2 := splitAfterCI_length_le _ _ _ _ hsp
      omega
    · simp at h
  · simp at h

/-- `html.replace(/<script[\s\S]*?<\/script>/gi, "")`. -/
def stripScripts : List Char → List Char :=
  replaceWith (tryBlock "script".data "</script>".data)
    (tryBlock_length "script".data "</script>".data)

/-- `.replace(/<style[\s\S]*?<\/style>/gi, "")`. -/
def stripStyles : List Char → List Char :=
  replaceWith (tryBlock "style".data "</style>".data)
    (tryBlock_length "style".data "</style>".data)

/-- Case-insensitive equality of two character lists. -/
def eqCIL : List Char → List Char → Bool
  | [], [] => true
  | _ :: _, [] => false
  | [], _ :: _ => false
  | p :: ps, c :: cs => eqCI p c && eqCIL ps cs

/-- The tag-name alternation of `/<\/(p|div|section|article|li|h[1-6]|br|pre)>/gi`. -/
def breakName (nm : List Char) : Bool :=
  eqCIL nm "p".data || eqCIL nm "div".data || eqCIL nm "section".data ||
  eqCIL nm "article".data || eqCIL nm "li".data ||
  eqCIL nm "h1".data || eqCIL nm "h2".data || eqCIL nm "h3".data ||
  eqCIL nm "h4".data || eqCIL nm "h5".data || eqCIL nm "h6".data ||
  eqCIL nm "br".data || eqCIL nm "pre".data

/-- Matcher for `/<\/(p|div|section|article|li|h[1-6]|br|pre)>/gi` (replaced by
a newline). -/
def tryCloseTag (s : List Char) : Option (List Char × List Char) :=
  match s with
  | a :: b :: rest =>
    if a == '<' && b == '/' then
      match rest.drop (rest.takeWhile (fun c => !(c == '>'))).length with
      | c :: r =>
        if c == '>' && breakName (rest.takeWhile (fun c => !(c == '>'))) then some (['\n'], r)
        else none
      | [] => none
    else none
  | _ => none

theorem tryCloseTag_length :
    ∀ s a r, tryCloseTag s = some (a, r) → r.length < s.length := by
  intro s a r h
  rcases s with _ | ⟨x, _ | ⟨y, rest⟩⟩
  · simp [tryCloseTag] at h
  · simp [tryCloseTag] at h
  · simp only [tryCloseTag] at h
    split at h <;> rename_i hif
    · split at h <;> rename_i hdrop
      · split at h <;> rename_i hgt
        · simp at h
          rcases h with ⟨_, hr⟩
          subst hr
          have hle : (rest.drop (rest.takeWhile (fun c => !(c == '>'))).length).length ≤
              rest.length := by
            simp [List.length_drop]
          rw [hdrop] at hle
          simp at hle ⊢
          omega
        · simp at h
      · simp at h
    · simp at h

/-- `.replace(/<\/(p|div|section|article|li|h[1-6]|br|pre)>/gi, "\n")`. -/
def breaksClose : List Char → List Char := replaceWith tryCloseTag tryCloseTag_length

/-- Matcher for `/<(br|hr)\s*\/>/gi` (replaced by a newline). -/
def tryBrHr (s : List Char) : Option (List Char × List Char) :=
  match s with
  | a :: b :: c :: t =>
    if a == '<' && (eqCI 'b' b || eqCI 'h' b) && eqCI 'r' c then
      match t.drop (t.takeWhile jsWs).length with
      | c1 :: c2 :: r => if c1 == '/' && c2 == '>' then some (['\n'], r) else none
      | _ => none
    else none
  | _ => none

theorem tryBrHr_length :
    ∀ s a r, tryBrHr s = some (a, r) → r.length < s.length := by
  intro s a r h
  rcases s with _ | ⟨x, _ | ⟨y, _ | ⟨z, t⟩⟩⟩
  · simp [tryBrHr] at h
  · simp [tryBrHr] at h
  · simp [tryBrHr] at h
  · simp only [tryBrHr] at h
    split at h <;> rename_i hif
    · split at h <;> rename_i hdrop
      · split at h <;> rename_i hsl
        · simp at h
          rcases h with ⟨_, hr⟩
          subst hr
          have hle : (t.drop (t.takeWhile jsWs).length).length ≤ t.length := by
            simp [List.length_drop]
          rw [hdrop] at hle
          simp at hle ⊢
          omega
        · simp at h
      · simp at h
    · simp at h

/-- `.replace(/<(br|hr)\s*\/>/gi, "\n")`. -/
def breaksBrHr : List Char → List Char := replaceWith tryBrHr tryBrHr_length

/-- Matcher for `/<[^>]+>/g` (any remaining tag, removed). -/
def tryTag (s : List Char) : Option (List Char × List Char) :=
  match s with
  | a :: b :: rest =>
    if a == '<' && !(b == '>') then
      match dropThroughGt (b :: rest) with
      | some r => some (([] : List Char), r)
      | none => none
    else none
  | _ => none

theorem tryTag_length :
    ∀ s a r, tryTag s = some (a, r) → r.length < s.length := by
  intro s a r h
  rcases s with _ | ⟨x, _ | ⟨y, rest⟩⟩
  · simp [tryTag] at h
  · simp [tryTag] at h
  · simp only [tryTag] at h
    split at h <;> rename_i hif
    · split at h <;> rename_i hdrop
      · simp at h
        rcases h with ⟨_, hr⟩
        subst hr
        have := dropThroughGt_length_lt _ _ hdrop
        simp at this ⊢
        omega
      · simp at h
    · simp at h

/-- `.replace(/<[^>]+>/g, "")`. -/
def stripTags : List Char → List Char := replaceWith tryTag tryTag_length

/-- Matcher for a case-sensitive literal global replacement (the entity
decoding steps). -/
def tryLit (p : Char) (pat rep : List Char) (s : List Char) : Option (List Char × List Char) :=
  if isPrefixCS (p :: pat) s then some (rep, s.drop (pat.length + 1)) else none

theorem tryLit_length (p : Char) (pat rep : List Char) :
    ∀ s a r, tryLit p pat rep s = some (a, r) → r.length < s.length := by
  intro s a r h
  unfold tryLit at h
  split at h <;> rename_i hp
  · simp at h
    rcases h with ⟨_, hr⟩
    subst hr
    cases s with
    | nil => simp [isPrefixCS] at hp
    | cons c t => have := List.length_drop pat.length t; simp; omega
  · simp at h

/-- `.replace(/LIT/g, rep)` for a case-sensitive literal. -/
def replaceLit (p : Char) (pat rep : List Char) : List Char → List Char :=
  replaceWith (tryLit p pat rep) (tryLit_length p pat rep)

/-- The six entity-decoding replacements of `htmlToText`, in source order. -/
def decodeEnts (s : List Char) : List Char :=
  replaceLit '&' "#39;".data "'".data
    (replaceLit '&' "quot;".data "\"".data
      (replaceLit '&' "gt;".data ">".data
        (replaceLit '&' "lt;".data "<".data
          (replaceLit '&' "amp;".data "&".data
            (replaceLit '&' "nbsp;".data " ".data s)))))

/-- Matcher for `/\n{3,}/g` (collapsed to two newlines). -/
def tryNlRun (s : List Char) : Option (List Char × List Char) :=
  match s with
  | c :: t =>
    if c == '\n' then
      if 2 ≤ (t.takeWhile (fun d => d == '\n')).length then
        some (['\n', '\n'], t.drop (t.takeWhile (fun d => d == '\n')).length)
      else none
    else none
  | [] => none

theorem tryNlRun_length :
    ∀ s a r, tryNlRun s = some (a, r) → r.length < s.length := by
  intro s a r h
  rcases s with _ | ⟨c, t⟩
  · simp [tryNlRun] at h
  · simp only [tryNlRun] at h
    split at h <;> rename_i hif
    · split at h <;> rename_i hrun
      · simp at h
        rcases h with ⟨_, hr⟩
        subst hr
        have := List.length_drop (t.takeWhile (fun d => d == '\n')).length t
        simp; omega
      · simp at h
    · simp at h

/-- `.replace(/\n{3,}/g, "\n\n")`. -/
def collapseNl : List Char → List Char := replaceWith tryNlRun tryNlRun_length

/-- JavaScript `String.trim`. -/
def trimJS (s : List Char) : List Char :=
  ((s.dropWhile jsWs).reverse.dropWhile jsWs).reverse

/-- `htmlToText` (utils.js lines 66–81): strip `<script>`/`<style>` blocks,
turn block-closing and `<br/>`/`<hr/>` tags into newlines, strip the remaining
tags, decode the six fixed entities, collapse runs of 3+ newlines to 2, trim. -/
def htmlToText (s : List Char) : List Char :=
  trimJS (collapseNl (decodeEnts (stripTags (breaksBrHr (breaksClose (stripStyles (stripScripts s)))))))

/-! ### `extractCodeBlocks` (utils.js lines 118–151) -/

/-- `<NAME[^>]*>`: a case-insensitive tag opener followed by anything up to the
first `>`. -/
def tagOpen (nameTail : List Char) (s : List Char) : Option (List Char) :=
  match stripPrefixCI ('<' :: nameTail) s with
  | some m => dropThroughGt m
  | none => none

theorem tagOpen_length (nameTail : List Char) :
    ∀ s r, tagOpen nameTail s = some r → r.length < s.length := by
  intro s r h
  unfold tagOpen at h
  split at h <;> rename_i hm
  · have h1 := stripPrefixCI_cons_length_lt _ _ _ _ hm
    have h2 := dropThroughGt_length_lt _ _ h
    omega
  · simp at h

/-- Matcher for `/<pre[^>]*><code[^>]*>[\s\S]*?<\/code><\/pre>/gi`; yields the
whole match text and the remainder. -/
def tryPre (s : List Char) : Option (List Char × List Char) :=
  match tagOpen "pre".data s with
  | some r1 =>
    match tagOpen "code".data r1 with
    | some r2 =>
      match splitAfterCI "</code></pre>".data r2 with
      | some (_, r3) => some (s.take (s.length - r3.length), r3)
      | none => none
    | none => none
  | none => none

theorem tryPre_length :
    ∀ s a r, tryPre s = some (a, r) → r.length < s.length := by
  intro s a r h
  unfold tryPre at h
  split at h <;> rename_i h1
  · split at h <;> rename_i h2
    · split at h <;> rename_i h3
      · simp at h
        rcases h with ⟨_, hr⟩
        subst hr
        have l1 := tagOpen_length _ _ _ h1
        have l2 := tagOpen_length _ _ _ h2
        have l3 := splitAfterCI_length_le _ _ _ _ h3
        omega
      · simp at h
    · simp at h
  · simp at h

/-- Matcher for `/<code[^>]*>[\s\S]*?<\/code>/gi`. -/
def tryCode (s : List Char) : Option (List Char × List Char) :=
  match tagOpen "code".data s with
  | some r1 =>
    match splitAfterCI "</code>".data r1 with
    | some (_, r2) => some (s.take (s.length - r2.length), r2)
    | none => none
  | none => none

theorem tryCode_length :
    ∀ s a r, tryCode s = some (a, r) → r.length < s.length := by
  intro s a r h
  unfold tryCode at h
  split at h <;> rename_i h1
  · split at h <;> rename_i h2
    · simp at h
      rcases h with ⟨_, hr⟩
      subst hr
      have l1 := tagOpen_length _ _ _ h1
      have l2 := splitAfterCI_length_le _ _ _ _ h2
      omega
    · simp at h
  · simp at h

/-- `s.replace(/^<[^>]+>/, "")`: strip one leading tag, if present. -/
def stripLeadingTag (s : List Char) : List Char :=
  match s with
  | a :: b :: rest =>
    if a == '<' && !(b == '>') then
      match dropThroughGt (b :: rest) with
      | some r => r
      | none => s
    else s
  | _ => s

/-- Helper for `stripTrailingTag`: scanning left to right, find the first `<`
whose whole remainder (within the input, which is the string minus its final
`>`) is non-empty and `>`-free; return the part before it. -/
def sttFind : List Char → Option (List Char)
  | [] => none
  | c :: t =>
    if c == '<' && !t.isEmpty && t.all (fun d => !(d == '>')) then some []
    else (sttFind t).map (c :: ·)

/-- `s.replace(/<[^>]+>$/, "")`: strip one trailing tag, if present. -/
def stripTrailingTag (s : List Char) : List Char :=
  match s.reverse with
  | c :: revInit =>
    if c == '>' then
      match sttFind revInit.reverse with
      | some u => u
      | none => s
    else s
  | [] => s

/-- The plain-text code of one regex match, as computed by `pushMatchText`:
strip the outer tag pair, then convert to text. -/
def codeOfMatch (m : List Char) : List Char :=
  htmlToText (stripTrailingTag (stripLeadingTag m))

/-- JavaScript `code.split("\n")`. -/
def splitNl : List Char → List (List Char)
  | [] => [[]]
  | c :: t =>
    match splitNl t with
    | [] => [[c]]
    | h :: r => if c == '\n' then [] :: h :: r else (c :: h) :: r

/-- The number of non-blank lines of a code block
(`code.split("\n").filter(l => l.trim().length > 0).length`). -/
def countNonBlank (code : List Char) : Nat :=
  ((splitNl code).filter (fun l => !(l.all jsWs))).length

/-- The body of `pushMatchText`: drop single-line import snippets, keep only
blocks with more than 2 non-blank lines. -/
def pushMatch (m : List Char) : Option (List Char) :=
  if countNonBlank (codeOfMatch m) == 1 && containsCSb "import".data (codeOfMatch m) then none
  else if 2 < countNonBlank (codeOfMatch m) then some (codeOfMatch m)
  else none

/-- All matches of the `<pre><code>` pass, in document order. -/
def scanPreBlocks : List Char → List (List Char) := scanWith tryPre tryPre_length

/-- All matches of the bare `<code>` pass, in document order. -/
def scanCodeBlocks : List Char → List (List Char) := scanWith tryCode tryCode_length

/-- The plain-text form of every match of both passes, before filtering. -/
def rawCodeTexts (html : List Char) : List (List Char) :=
  (scanPreBlocks html ++ scanCodeBlocks html).map codeOfMatch

/-- `extractCodeBlocks` (utils.js lines 118–151). -/
def extractCodeBlocks (html : List Char) : List (List Char) :=
  (scanPreBlocks html ++ scanCodeBlocks html).filterMap pushMatch

/-- `detectLanguage` (utils.js lines 336–354). -/
def detectLanguage (code : List Char) : List Char :=
  if containsCSb "import".data code && containsCSb "Component".data code then "typescript".data
  else if containsCSb "import".data code && containsCSb "from".data code then "javascript".data
  else if containsCSb "<".data code && containsCSb ">".data code && containsCSb "hlm".data code then
    "html".data
  else if containsCSb "npm".data code || containsCSb "npx".data code || containsCSb "ng ".data code then
    "bash".data
  else "typescript".data

/-! ### `extractAPIInfo` (utils.js lines 180–334) -/

/-- `<h[1-6][^>]*>`: heading opener; returns the remainder after its `>`. -/
def headOpen (s : List Char) : Option (List Char) :=
  match s with
  | a :: b :: c :: t =>
    if a == '<' && eqCI 'h' b && ('1' ≤ c && c ≤ '6') then dropThroughGt (c :: t) else none
  | _ => none

theorem headOpen_length : ∀ s r, headOpen s = some r → r.length < s.length := by
  intro s r h
  rcases s with _ | ⟨x, _ | ⟨y, _ | ⟨z, t⟩⟩⟩
  · simp [headOpen] at h
  · simp [headOpen] at h
  · simp [headOpen] at h
  · simp only [headOpen] at h
    split at h <;> rename_i hif
    · have := dropThroughGt_length_lt _ _ h
      simp at this ⊢
      omega
    · simp at h

/-- `<\/h[1-6]>`: heading closer. -/
def headClose (s : List Char) : Option (List Char) :=
  match s with
  | a :: b :: c :: d :: e :: t =>
    if a == '<' && b == '/' && eqCI 'h' c && ('1' ≤ d && d ≤ '6') && e == '>' then some t
    else none
  | _ => none

/-- A heading whose text is exactly `title`: `<h[1-6][^>]*>TITLE<\/h[1-6]>`;
returns the remainder after the closing tag. -/
def headingTitled (title : List Char) (s : List Char) : Option (List Char) :=
  match headOpen s with
  | some u =>
    match stripPrefixCI title u with
    | some v => headClose v
    | none => none
  | none => none

/-- The look-ahead ending the "Brain API" section:
`(?=<h[1-6][^>]*>(?:Helm API|On this page|$)|$)`. -/
def stopBrain (t : List Char) : Bool :=
  t.isEmpty ||
  (match headOpen t with
   | some u => isPrefixCI "Helm API".data u || isPrefixCI "On this page".data u || u.isEmpty
   | none => false)

/-- The look-ahead ending the "Helm API" section:
`(?=<h[1-6][^>]*>(?:On this page|$)|$)`. -/
def stopHelm (t : List Char) : Bool :=
  t.isEmpty ||
  (match headOpen t with
   | some u => isPrefixCI "On this page".data u || u.isEmpty
   | none => false)

/-- One attempted match of a section regex at the current position: the titled
heading, then the lazy capture up to the stop look-ahead. -/
def trySection (title : List Char) (stop : List Char → Bool) (s : List Char) : Option (List Char) :=
  match headingTitled title s with
  | some rest => some (captureUntil stop rest)
  | none => none

/-- `html.match(sectionRegex)`'s capture group (first match in the document). -/
def findSection (title : List Char) (stop : List Char → Bool) : List Char → Option (List Char) :=
  findWith (trySection title stop)

/-- JavaScript `\w` (`[A-Za-z0-9_]`). -/
def isWordChar (c : Char) : Bool := c.isAlpha || c.isDigit || c == '_'

/-- A component heading `<h[1-6][^>]*>((Brn|Hlm)\w+)<\/h[1-6]>` at the current
position; returns the captured name (original case) and the remainder. -/
def compHeadAt (s : List Char) : Option (List Char × List Char) :=
  match headOpen s with
  | some u =>
    if isPrefixCI "Brn".data u || isPrefixCI "Hlm".data u then
      if ((u.drop 3).takeWhile isWordChar).isEmpty then none
      else
        match headClose ((u.drop 3).dropWhile isWordChar) with
        | some r => some (u.take 3 ++ (u.drop 3).takeWhile isWordChar, r)
        | none => none
    else none
  | none => none

/-- The text of the component look-ahead `(?:Brn|Hlm)\w+<\/h[1-6]>` after a
heading opener. -/
def compNameCloseAt (u : List Char) : Bool :=
  (isPrefixCI "Brn".data u || isPrefixCI "Hlm".data u) &&
  !((u.drop 3).takeWhile isWordChar).isEmpty &&
  (headClose ((u.drop 3).dropWhile isWordChar)).isSome

/-- The look-ahead ending a component subsection:
`(?=<h[1-6][^>]*>(?:Brn|Hlm)\w+<\/h[1-6]>|$)`. -/
def stopComp (t : List Char) : Bool :=
  t.isEmpty || (match headOpen t with | some u => compNameCloseAt u | none => false)

/-- One match of the component regex: name plus lazily captured content; the
global scan resumes at the end of the content. -/
def tryComp (s : List Char) : Option ((List Char × List Char) × List Char) :=
  match compHeadAt s with
  | some (name, rest) => some ((name, captureUntil stopComp rest), dropUntil stopComp rest)
  | none => none

theorem dropUntil_length_le (stop : List Char → Bool) :
    ∀ s, (dropUntil stop s).length ≤ s.length := by
  intro s
  induction s with
  | nil => simp [dropUntil]
  | cons c t ih =>
    by_cases h : stop (c :: t)
    · simp [dropUntil, h]
    · simp [dropUntil, h]; omega

theorem headClose_length :
    ∀ s r, headClose s = some r → r.length + 5 = s.length := by
  intro s r h
  rcases s with _ | ⟨a, _ | ⟨b, _ | ⟨c, _ | ⟨d, _ | ⟨e, t⟩⟩⟩⟩⟩
  · simp [headClose] at h
  · simp [headClose] at h
  · simp [headClose] at h
  · simp [headClose] at h
  · simp [headClose] at h
  · simp [headClose] at h
    obtain ⟨_, ht⟩ := h
    subst ht
    simp

theorem compHeadAt_length :
    ∀ s a r, compHeadAt s = some (a, r) → r.length < s.length := by
  intro s a r h
  unfold compHeadAt at h
  split at h <;> rename_i u hu
  · split at h <;> rename_i hpre
    · split at h <;> rename_i hw
      · simp at h
      · split at h <;> rename_i r' hc
        · simp at h
          rcases h with ⟨_, hr⟩
          subst hr
          have l1 := headOpen_length _ _ hu
          have l2 := headClose_length _ _ hc
          have l3 : ((u.drop 3).dropWhile isWordChar).length ≤ u.length := by
            have h1 := (List.dropWhile_sublist (l := u.drop 3) isWordChar).length_le
            have h2 := List.length_drop 3 u
            omega
          omega
        · simp at h
    · simp at h
  · simp at h

/-- The `\s*([^\n<]+)` part of `/Selector:\s*([^\n<]+)/i`, including the
regex engine's backtracking from the greedy `\s*` into the capture class when
the character after the whitespace run is `<` or the end of input. -/
def selCapture (r : List Char) : Option (List Char) :=
  match (r.drop (r.takeWhile jsWs).length).head? with
  | some c0 =>
    if c0 == '<' then
      ((r.takeWhile jsWs).reverse.find? (fun c => !(c == '\n'))).map (fun c => [c])
    else some ((r.drop (r.takeWhile jsWs).length).takeWhile (fun c => !(c == '\n') && !(c == '<')))
  | none => ((r.takeWhile jsWs).reverse.find? (fun c => !(c == '\n'))).map (fun c => [c])

/-- One attempted match of `/Selector:\s*([^\n<]+)/i` at the current position. -/
def trySel (s : List Char) : Option (List Char) :=
  match stripPrefixCI "Selector:".data s with
  | some r => selCapture r
  | none => none

/-- `content.match(/Selector:\s*([^\n<]+)/i)`, trimmed, defaulting to `""`. -/
def selectorOf (content : List Char) : List Char :=
  match findWith trySel content with
  | some cap => trimJS cap
  | none => []

/-- The look-ahead `(?=<h[1-6]|$)` ending an Inputs/Outputs table section. -/
def stopHead3 (t : List Char) : Bool :=
  t.isEmpty ||
  (match t with
   | a :: b :: c :: _ => a == '<' && eqCI 'h' b && ('1' ≤ c && c ≤ '6')
   | _ => false)

/-- One attempted match of the table-section regex
`<h[1-6][^>]*>TYPE<\/h[1-6]>([\s\S]*?)(?=<h[1-6]|$)` at the current position. -/
def tryTableSection (tableType : List Char) (s : List Char) : Option (List Char) :=
  match headingTitled tableType s with
  | some rest => some (captureUntil stopHead3 rest)
  | none => none

/-- Matcher for `/<tr[^>]*>([\s\S]*?)<\/tr>/gi`; yields the row content. -/
def tryRow (s : List Char) : Option (List Char × List Char) :=
  match tagOpen "tr".data s with
  | some r1 =>
    match splitAfterCI "</tr>".data r1 with
    | some (row, r2) => some (row, r2)
    | none => none
  | none => none

theorem tryRow_length :
    ∀ s a r, tryRow s = some (a, r) → r.length < s.length := by
  intro s a r h
  unfold tryRow at h
  split at h <;> rename_i h1
  · split at h <;> rename_i h2
    · simp at h
      rcases h with ⟨_, hr⟩
      subst hr
      have l1 := tagOpen_length _ _ _ h1
      have l2 := splitAfterCI_length_le _ _ _ _ h2
      omega
    · simp at h
  · simp at h

/-- The closing alternation `<\/t[dh]>` of the cell regex. -/
def isTdThClose (u : List Char) : Bool :=
  match u with
  | a :: b :: c :: d :: e :: _ =>
    a == '<' && b == '/' && eqCI 't' c && (eqCI 'd' d || eqCI 'h' d) && e == '>'
  | _ => false

/-- Matcher for `/<t[dh][^>]*>([\s\S]*?)<\/t[dh]>/gi`; yields the cell content. -/
def tryCell (s : List Char) : Option (List Char × List Char) :=
  match s with
  | a :: b :: c :: t =>
    if a == '<' && eqCI 't' b && (eqCI 'd' c || eqCI 'h' c) then
      match dropThroughGt t with
      | some r1 =>
        match splitAfterP isTdThClose 5 r1 with
        | some (cell, r2) => some (cell, r2)
        | none => none
      | none => none
    else none
  | _ => none

theorem tryCell_length :
    ∀ s a r, tryCell s = some (a, r) → r.length < s.length := by
  intro s a r h
  rcases s with _ | ⟨x, _ | ⟨y, _ | ⟨z, t⟩⟩⟩
  · simp [tryCell] at h
  · simp [tryCell] at h
  · simp [tryCell] at h
  · simp only [tryCell] at h
    split at h <;> rename_i hif
    · split at h <;> rename_i h1
      · split at h <;> rename_i h2
        · simp at h
          rcases h with ⟨_, hr⟩
          subst hr
          have l1 := dropThroughGt_length_lt _ _ h1
          have l2 := splitAfterP_length_le _ _ _ _ _ h2
          simp at l1 ⊢
          omega
        · simp at h
      · simp at h
    · simp at h

/-- The text of one table cell: `htmlToText(cellMatch[1]).trim()`. -/
def cellText (c : List Char) : List Char := trimJS (htmlToText c)

/-- The cell texts of one row, in order. -/
def rowCells (row : List Char) : List (List Char) :=
  (scanWith tryCell tryCell_length row).map cellText

/-- One parsed row of an Inputs table. -/
structure InputRow where
  prop : List Char
  type : List Char
  default : List Char
  description : List Char
  deriving Repr, DecidableEq

/-- One parsed row of an Outputs table. -/
structure OutputRow where
  prop : List Char
  type : List Char
  description : List Char
  deriving Repr, DecidableEq

/-- The row loop of `extractPropsFromTable` for `tableType = "Inputs"`: skip
the header row, keep rows with at least 3 cells, default the 4th to `""`. -/
def inputRowsOf (rows : List (List Char)) : List InputRow :=
  (rows.drop 1).filterMap (fun row =>
    if 3 ≤ (rowCells row).length then
      some ⟨(rowCells row).getD 0 [], (rowCells row).getD 1 [], (rowCells row).getD 2 [],
            (rowCells row).getD 3 []⟩
    else none)

/-- The row loop of `extractPropsFromTable` for `tableType = "Outputs"`. -/
def outputRowsOf (rows : List (List Char)) : List OutputRow :=
  (rows.drop 1).filterMap (fun row =>
    if 3 ≤ (rowCells row).length then
      some ⟨(rowCells row).getD 0 [], (rowCells row).getD 1 [], (rowCells row).getD 2 []⟩
    else none)

/-- `extractPropsFromTable(html, "Inputs")` (utils.js lines 277–334). -/
def extractInputProps (content : List Char) : List InputRow :=
  match findWith (tryTableSection "Inputs".data) content with
  | some sec => inputRowsOf (scanWith tryRow tryRow_length sec)
  | none => []

/-- `extractPropsFromTable(html, "Outputs")` (utils.js lines 277–334). -/
def extractOutputProps (content : List Char) : List OutputRow :=
  match findWith (tryTableSection "Outputs".data) content with
  | some sec => outputRowsOf (scanWith tryRow tryRow_length sec)
  | none => []

theorem tryComp_length :
    ∀ s a r, tryComp s = some (a, r) → r.length < s.length := by
  intro s a r h
  unfold tryComp at h
  split at h
  · rename_i nm rest hc
    simp at h
    rcases h with ⟨_, hr⟩
    subst hr
    have h1 := compHeadAt_length _ _ _ hc
    have h2 := dropUntil_length_le stopComp rest
    omega
  · simp at h

/-- One component record of the Brain/Helm API (see `ComponentAPIRecord`). -/
structure APIComp where
  name : List Char
  selector : List Char
  inputs : List InputRow
  outputs : List OutputRow
  deriving Repr, DecidableEq

/-- The per-match body of the `extractAPIComponents` loop. -/
def mkComp (nc : List Char × List Char) : APIComp :=
  ⟨nc.1, selectorOf nc.2, extractInputProps nc.2, extractOutputProps nc.2⟩

/-- `extractAPIComponents` (utils.js lines 235–270). -/
def extractAPIComponents (html : List Char) : List APIComp :=
  (scanWith tryComp tryComp_length html).map mkComp

/-- One entry of `extractAPIInfo`'s `examples`. -/
structure CodeExample where
  title : List Char
  code : List Char
  language : List Char
  deriving Repr, DecidableEq

/-- The structured result of `extractAPIInfo`. -/
structure ExtractedAPIInfo where
  brainAPI : List APIComp
  helmAPI : List APIComp
  examples : List CodeExample
  deriving Repr, DecidableEq

/-- `codeBlocks.slice(0, 10).map((code, i) => ({title: "Example " + (i+1), ...}))`. -/
def mkExamples (blocks : List (List Char)) : List CodeExample :=
  (blocks.take 10).enum.map (fun ic =>
    ⟨"Example ".data ++ (Nat.repr (ic.1 + 1)).data, ic.2, detectLanguage ic.2⟩)

/-- `extractAPIInfo` (utils.js lines 180–233). -/
def extractAPIInfo (html : List Char) : ExtractedAPIInfo :=
  { brainAPI :=
      match findSection "Brain API".data stopBrain html with
      | some sec => extractAPIComponents sec
      | none => []
    helmAPI :=
      match findSection "Helm API".data stopHelm html with
      | some sec => extractAPIComponents sec
      | none => []
    examples := mkExamples (extractCodeBlocks html) }

/-! ### The version-partitioned disk cache (`cache.js`) -/

/-- JSON-like values, as stored in the cache files. -/
inductive JVal where
  | null : JVal
  | bool : Bool → JVal
  | num : Int → JVal
  | str : String → JVal
  | arr : List JVal → JVal
  | obj : List (String × JVal) → JVal

/-- JavaScript truthiness, for `componentData[dataType] || componentData`. -/
def JVal.truthy : JVal → Bool
  | .null => false
  | .bool b => b
  | .num n => !(n == 0)
  | .str s => !(s == "")
  | .arr _ => true
  | .obj _ => true

/-- First-match lookup in a string-keyed association list (object fields,
metadata maps). -/
def olook {α : Type} (fields : List (String × α)) (k : String) : Option α :=
  match fields with
  | [] => none
  | (a, v) :: t => if a == k then some v else olook t k

/-- Property lookup on an object (`none` for missing keys and non-objects). -/
def JVal.get : JVal → String → Option JVal
  | .obj fields, k => olook fields k
  | _, _ => none

/-- `{...o, k: v}` / `map[key] = value`: set (or override) one entry. -/
def objSet {α : Type} (fields : List (String × α)) (k : String) (v : α) : List (String × α) :=
  (fields.filter (fun f => !(f.1 == k))) ++ [(k, v)]

/-- A size measure standing in for `JSON.stringify(entry).length` (no claim
constrains its value, only that it is recorded). -/
def JVal.size : JVal → Nat
  | .null => 4
  | .bool _ => 5
  | .num _ => 8
  | .str s => s.length + 2
  | .arr [] => 2
  | .arr (x :: xs) => x.size + 1 + JVal.size (.arr xs)
  | .obj [] => 2
  | .obj ((k, v) :: fs) => k.length + 3 + v.size + JVal.size (.obj fs)

/-- Paths in the cache directory tree `cache/{version}/...`. -/
inductive CPath where
  | metadata : String → CPath
  | component : String → String → CPath
  | docTopic : String → String → CPath
  deriving DecidableEq, Repr

/-- The on-disk state: a mapping from paths to parsed JSON file contents. -/
def Disk := List (CPath × JVal)

/-- `fs.readFile` + `JSON.parse` (missing file: `none`). -/
def fsRead (d : Disk) (p : CPath) : Option JVal :=
  match d with
  | [] => none
  | (q, v) :: t => if q = p then some v else fsRead t p

/-- `fs.writeFile` with `JSON.stringify` (later writes shadow earlier ones). -/
def fsWrite (d : Disk) (p : CPath) (v : JVal) : Disk := (p, v) :: d

/-- One `{cachedAt, size}` entry of the version metadata. -/
structure MetaEntry where
  cachedAt : Int
  size : Nat
  deriving Repr, DecidableEq

/-- The `metadata.json` contents (`VersionMetadata`).  Timestamps are modelled
as epoch milliseconds (the code stores ISO strings and parses them back with
`new Date(...).getTime()`). -/
structure VersionMetadata where
  version : String
  createdAt : Int
  lastUpdated : Int
  components : List (String × MetaEntry)
  docs : List (String × MetaEntry)
  deriving Repr, DecidableEq

/-- The JSON encoding of the metadata, as persisted in `metadata.json`. -/
def encodeMeta (m : VersionMetadata) : JVal :=
  .obj [("version", .str m.version), ("createdAt", .num m.createdAt),
        ("lastUpdated", .num m.lastUpdated),
        ("components", .obj (m.components.map (fun f =>
          (f.1, .obj [("cachedAt", .num f.2.cachedAt), ("size", .num (Int.ofNat f.2.size))])))),
        ("docs", .obj (m.docs.map (fun f =>
          (f.1, .obj [("cachedAt", .num f.2.cachedAt), ("size", .num (Int.ofNat f.2.size))]))))]

/-- The in-memory `CacheManager` state (`currentVersion`, `cacheMetadata`). -/
structure CMState where
  currentVersion : String
  cacheMetadata : VersionMetadata
  deriving Repr, DecidableEq

/-- The result record of `getComponent`/`getDocs`. -/
structure GetResult where
  data : Option JVal
  cached : Bool
  stale : Bool
  cachedAt : Option JVal
  version : String

/-- The entry object written by `setComponent`:
`{...data, componentName, version, cachedAt}`. -/
def componentEntry (key : String) (version : String) (payload : List (String × JVal))
    (now : Int) : List (String × JVal) :=
  objSet (objSet (objSet payload "componentName" (.str key)) "version" (.str version))
    "cachedAt" (.num now)

/-- `CacheManager.setComponent` (cache.js lines 137–165): write the entry
file, then update the metadata (in memory and on disk). -/
def setComponent (st : CMState) (d : Disk) (key : String) (payload : List (String × JVal))
    (now : Int) : CMState × Disk :=
  let entry := componentEntry key st.currentVersion payload now
  let d1 := fsWrite d (CPath.component st.currentVersion key) (.obj entry)
  let meta :=
    { st.cacheMetadata with
      components := objSet st.cacheMetadata.components key ⟨now, (JVal.obj entry).size⟩
      lastUpdated := now }
  let d2 := fsWrite d1 (CPath.metadata st.currentVersion) (encodeMeta meta)
  (⟨st.currentVersion, meta⟩, d2)

/-- The entry object written by `setDocs`: `{topic, content, version, cachedAt}`. -/
def docsEntry (topic : String) (version : String) (content : String) (now : Int) :
    List (String × JVal) :=
  [("topic", .str topic), ("content", .str content), ("version", .str version),
   ("cachedAt", .num now)]

/-- `CacheManager.setDocs` (cache.js lines 205–234). -/
def setDocs (st : CMState) (d : Disk) (topic : String) (content : String) (now : Int) :
    CMState × Disk :=
  let entry := docsEntry topic st.currentVersion content now
  let d1 := fsWrite d (CPath.docTopic st.currentVersion topic) (.obj entry)
  let meta :=
    { st.cacheMetadata with
      docs := objSet st.cacheMetadata.docs topic ⟨now, (JVal.obj entry).size⟩
      lastUpdated := now }
  let d2 := fsWrite d1 (CPath.metadata st.currentVersion) (encodeMeta meta)
  (⟨st.currentVersion, meta⟩, d2)

/-- The `stale` computation shared by `getComponent`/`getDocs`:
`Date.now() - new Date(entry.cachedAt).getTime() > ttlHours * 60 * 60 * 1000`
(`false` when `cachedAt` is missing or not a time, as NaN comparisons are). -/
def staleOf (entry : JVal) (ttlHours now : Int) : Bool :=
  match entry.get "cachedAt" with
  | some (.num t) => decide (now - t > ttlHours * 3600000)
  | _ => false

/-- `CacheManager.getComponent` (cache.js lines 92–130).  `dataType` defaults
to `"full"`; a read failure is a miss (`cached = false`). -/
def getComponent (st : CMState) (d : Disk) (key : String) (ttlHours now : Int)
    (dataType : String := "full") : GetResult :=
  match fsRead d (CPath.component st.currentVersion key) with
  | some entry =>
    { data :=
        match entry.get dataType with
        | some v => if v.truthy then some v else some entry
        | none => some entry
      cached := true
      stale := staleOf entry ttlHours now
      cachedAt := entry.get "cachedAt"
      version := st.currentVersion }
  | none => ⟨none, false, false, none, st.currentVersion⟩

/-- `CacheManager.getDocs` (cache.js lines 167–203). -/
def getDocs (st : CMState) (d : Disk) (topic : String) (ttlHours now : Int) : GetResult :=
  match fsRead d (CPath.docTopic st.currentVersion topic) with
  | some entry =>
    { data :=
        match entry.get "content" with
        | some v => some v
        | none => none
      cached := true
      stale := staleOf entry ttlHours now
      cachedAt := entry.get "cachedAt"
      version := st.currentVersion }
  | none => ⟨none, false, false, none, st.currentVersion⟩

/-! ### `fetchContent` and its ephemeral cache (utils.js lines 83–116) -/

/-- Requested content format. -/
inductive FetchFmt where
  | html : FetchFmt
  | text : FetchFmt
  deriving DecidableEq, Repr

/-- The in-memory `responseCache` map: `(url, format) ↦ (content, timestampMs)`.
(The string key `url + "::" + format` is injective in `(url, format)`, since the
two format suffixes differ.) -/
def FetchCache := List ((String × FetchFmt) × (List Char × Int))

/-- Lookup in the ephemeral cache. -/
def fcGet (c : FetchCache) (k : String × FetchFmt) : Option (List Char × Int) :=
  match c with
  | [] => none
  | (q, v) :: t => if q = k then some v else fcGet t k

/-- Store in the ephemeral cache (overwriting). -/
def fcSet (c : FetchCache) (k : String × FetchFmt) (v : List Char × Int) : FetchCache :=
  (k, v) :: c

/-- The network, as an oracle: a successful body or a thrown error message
(`Failed to fetch ...`). -/
def Network := String → Except String (List Char)

/-- `fetchContent(url, format, noCache)` (utils.js lines 83–116).  Returns the
result (or the thrown error), the updated ephemeral cache, and the number of
network requests performed (0 or 1). -/
def fetchContent (net : Network) (cache : FetchCache) (url : String) (fmt : FetchFmt)
    (noCache : Bool) (ttlMs now : Int) : Except String (List Char) × FetchCache × Nat :=
  match
    if noCache then none
    else match fcGet cache (url, fmt) with
         | some (content, ts) => if now - ts < ttlMs then some content else none
         | none => none
  with
  | some content => (.ok content, cache, 0)
  | none =>
    match net url with
    | .error e => (.error e, cache, 1)
    | .ok html =>
      let result := match fmt with
                    | .text => htmlToText html
                    | .html => html
      if noCache then (.ok result, cache, 1)
      else (.ok result, fcSet cache (url, fmt) (result, now), 1)

/-! ### The cache warmer (`cache-warmup.js`) -/

/-- The JSON encoding of an extracted input row. -/
def encodeInput (i : InputRow) : JVal :=
  .obj [("prop", .str ⟨i.prop⟩), ("type", .str ⟨i.type⟩), ("default", .str ⟨i.default⟩),
        ("description", .str ⟨i.description⟩)]

/-- The JSON encoding of an extracted output row. -/
def encodeOutput (o : OutputRow) : JVal :=
  .obj [("prop", .str ⟨o.prop⟩), ("type", .str ⟨o.type⟩), ("description", .str ⟨o.description⟩)]

/-- The JSON encoding of a component API record. -/
def encodeComp (c : APIComp) : JVal :=
  .obj [("name", .str ⟨c.name⟩), ("selector", .str ⟨c.selector⟩),
        ("inputs", .arr (c.inputs.map encodeInput)), ("outputs", .arr (c.outputs.map encodeOutput))]

/-- The JSON encoding of an `ExtractedAPIInfo`. -/
def encodeAPIInfo (a : ExtractedAPIInfo) : JVal :=
  .obj [("brainAPI", .arr (a.brainAPI.map encodeComp)),
        ("helmAPI", .arr (a.helmAPI.map encodeComp)),
        ("examples", .arr (a.examples.map (fun e =>
          .obj [("title", .str ⟨e.title⟩), ("code", .str ⟨e.code⟩),
                ("language", .str ⟨e.language⟩)])))]

/-- `SPARTAN_COMPONENTS_BASE` (utils.js line 4). -/
def SPARTAN_COMPONENTS_BASE : String := "https://www.spartan.ng/components"

/-- `SPARTAN_DOCS_BASE` (utils.js line 3). -/
def SPARTAN_DOCS_BASE : String := "https://www.spartan.ng/documentation"

/-- The component page URL used by `warmComponent`. -/
def componentUrl (name : String) : String := SPARTAN_COMPONENTS_BASE ++ "/" ++ name

/-- The `{html, api, examples, full}` payload that `warmComponent` caches. -/
def warmPayload (name : String) (html : List Char) : List (String × JVal) :=
  [("html", .str ⟨html⟩),
   ("api", encodeAPIInfo (extractAPIInfo html)),
   ("examples", .arr ((extractCodeBlocks html).map (fun c => .str ⟨c⟩))),
   ("full", .obj [("html", .str ⟨html⟩),
                  ("api", encodeAPIInfo (extractAPIInfo html)),
                  ("examples", .arr ((extractCodeBlocks html).map (fun c => .str ⟨c⟩))),
                  ("url", .str (componentUrl name))])]

/-- `warmComponent` (cache-warmup.js lines 25–58): fetch fresh (cache
bypassed), extract, store; a thrown error becomes `{success:false, error}`. -/
def warmComponent (net : Network) (st : CMState) (d : Disk) (name : String) (now : Int) :
    (Bool × Option String) × CMState × Disk :=
  match (fetchContent net [] (componentUrl name) .html true 300000 now).1 with
  | .error e => ((false, some e), st, d)
  | .ok html =>
    let (st', d') := setComponent st d name (warmPayload name html) now
    ((true, none), st', d')

/-- `warmDocs` (cache-warmup.js lines 60–79). -/
def warmDocs (net : Network) (st : CMState) (d : Disk) (topic : String) (now : Int) :
    (Bool × Option String) × CMState × Disk :=
  match (fetchContent net [] (SPARTAN_DOCS_BASE ++ "/" ++ topic) .html true 300000 now).1 with
  | .error e => ((false, some e), st, d)
  | .ok html =>
    let (st', d') := setDocs st d topic ⟨html⟩ now
    ((true, none), st', d')

/-- `DOCUMENTATION_TOPICS` (cache-warmup.js lines 16–23). -/
def DOCUMENTATION_TOPICS : List String :=
  ["installation", "theming", "dark-mode", "typography", "health-checks", "update-guide"]

/-- Per-batch tallies of `warmCache` (`{total, success, failed, errors}`). -/
structure BatchStats where
  total : Nat
  success : Nat
  failed : Nat
  errors : List (String × String)
  deriving Repr, DecidableEq

/-- The `warmCache` result record. -/
structure WarmResult where
  version : String
  components : BatchStats
  docs : BatchStats
  duration : Int
  deriving Repr, DecidableEq

/-- The component loop of `warmCache`: per item, warm it, tally, and invoke
`onProgress(i + 1, total)`; the recorded progress calls are returned. -/
def warmLoop (net : Network) (now : Int) (total : Nat) :
    List String → Nat → CMState → Disk →
    (Nat × Nat × List (String × String)) × CMState × Disk × List (Nat × Nat)
  | [], _, st, d => ((0, 0, []), st, d, [])
  | c :: rest, i, st, d =>
    match warmComponent net st d c now with
    | ((true, _), st1, d1) =>
      match warmLoop net now total rest (i + 1) st1 d1 with
      | ((s, f, errs), st2, d2, prog) => ((s + 1, f, errs), st2, d2, (i + 1, total) :: prog)
    | ((false, err), st1, d1) =>
      match warmLoop net now total rest (i + 1) st1 d1 with
      | ((s, f, errs), st2, d2, prog) =>
        ((s, f + 1, (c, err.getD "") :: errs), st2, d2, (i + 1, total) :: prog)

/-- The docs loop of `warmCache` (no progress callback in the source). -/
def docsLoop (net : Network) (now : Int) :
    List String → CMState → Disk → (Nat × Nat × List (String × String)) × CMState × Disk
  | [], st, d => ((0, 0, []), st, d)
  | c :: rest, st, d =>
    match warmDocs net st d c now with
    | ((true, _), st1, d1) =>
      match docsLoop net now rest st1 d1 with
      | ((s, f, errs), st2, d2) => ((s + 1, f, errs), st2, d2)
    | ((false, err), st1, d1) =>
      match docsLoop net now rest st1 d1 with
      | ((s, f, errs), st2, d2) => ((s, f + 1, (c, err.getD "") :: errs), st2, d2)

/-- `warmCache({components, includeDocs, onProgress})` (cache-warmup.js lines
81–198).  All items of one run share one model timestamp; `duration` is the
difference of the two `Date.now()` reads, hence 0 here. -/
def warmCache (net : Network) (st : CMState) (d : Disk) (components : List String)
    (includeDocs : Bool) (now : Int) : WarmResult × CMState × Disk × List (Nat × Nat) :=
  match warmLoop net now components.length components 0 st d with
  | ((cs, cf, cerrs), st1, d1, prog) =>
    if includeDocs then
      match docsLoop net now DOCUMENTATION_TOPICS st1 d1 with
      | ((ds, df, derrs), st2, d2) =>
        (⟨st.currentVersion, ⟨components.length, cs, cf, cerrs⟩,
          ⟨DOCUMENTATION_TOPICS.length, ds, df, derrs⟩, 0⟩, st2, d2, prog)
    else
      (⟨st.currentVersion, ⟨components.length, cs, cf, cerrs⟩, ⟨0, 0, 0, []⟩, 0⟩, st1, d1, prog)

/-! ## Lemmas about the disk-cache model -/

theorem olook_objSet {α : Type} (l : List (String × α)) (k k' : String) (v : α) :
    olook (objSet l k' v) k = if k' = k then some v else olook l k := by
  induction l with
  | nil => simp [objSet, olook]
  | cons a t ih =>
    rcases a with ⟨ak, av⟩
    by_cases h1 : ak = k'
    · have hs : objSet ((ak, av) :: t) k' v = objSet t k' v := by
        simp [objSet, List.filter_cons, h1]
      rw [hs, ih]
      by_cases h2 : k' = k
      · simp [h2]
      · have hak : ¬(ak == k) = true := by simp [h1, h2]
        simp [h2, olook, hak]
    · have hs : objSet ((ak, av) :: t) k' v = (ak, av) :: objSet t k' v := by
        simp [objSet, List.filter_cons, h1]
      rw [hs]
      by_cases h2 : ak = k
      · have hk : ¬(k' = k) := fun hc => h1 (h2.trans hc.symm)
        simp [olook, h2, hk]
      · simp [olook, h2, ih]

theorem fsRead_write_self (d : Disk) (p : CPath) (v : JVal) :
    fsRead (fsWrite d p v) p = some v := by
  simp [fsRead, fsWrite]

theorem fsRead_write_ne (d : Disk) (p q : CPath) (v : JVal) (h : ¬(p = q)) :
    fsRead (fsWrite d p v) q = fsRead d q := by
  simp [fsRead, fsWrite, h]

theorem componentEntry_cachedAt (key version : String) (payload : List (String × JVal))
    (now : Int) : olook (componentEntry key version payload now) "cachedAt" = some (.num now) := by
  simp [componentEntry, olook_objSet]

theorem componentEntry_other (key version : String) (payload : List (String × JVal))
    (now : Int) (k : String) (h1 : ¬(k = "componentName")) (h2 : ¬(k = "version"))
    (h3 : ¬(k = "cachedAt")) :
    olook (componentEntry key version payload now) k = olook payload k := by
  have g1 : ¬("componentName" = k) := fun h => h1 h.symm
  have g2 : ¬("version" = k) := fun h => h2 h.symm
  have g3 : ¬("cachedAt" = k) := fun h => h3 h.symm
  simp [componentEntry, olook_objSet, g1, g2, g3]

/-! ## Claims about the disk cache -/

/-- **C3.** For every component key and payload, `setComponent(key, payload)`
followed immediately by `getComponent(key)` with no field argument returns
`cached = true`, `stale = false`, and `data` equal to the written payload's
`full` field — the default projection (the payload schema always carries a
truthy `full` object, which the hypotheses record). -/
theorem claim_C3_set_get_roundtrip (st : CMState) (d : Disk) (key : String)
    (payload : List (String × JVal)) (now ttl : Int) (v : JVal)
    (hfull : olook payload "full" = some v) (htruthy : v.truthy = true) (httl : 0 ≤ ttl) :
    getComponent (setComponent st d key payload now).1 (setComponent st d key payload now).2
      key ttl now =
      ⟨some v, true, false, some (.num now), st.currentVersion⟩ := by
  have hne : ¬(CPath.metadata st.currentVersion = CPath.component st.currentVersion key) := by
    simp
  unfold setComponent getComponent
  simp only []
  rw [fsRead_write_ne _ _ _ _ hne, fsRead_write_self]
  simp only [JVal.get,
    componentEntry_other key st.currentVersion payload now "full"
      (by decide) (by decide) (by decide),
    hfull, htruthy, if_pos rfl]
  have hstale :
      staleOf (.obj (componentEntry key st.currentVersion payload now)) ttl now = false := by
    simp only [staleOf, JVal.get, componentEntry_cachedAt]
    simp
    omega
  rw [hstale]
  simp [JVal.get, componentEntry_cachedAt]

/-- **C4.** Staleness boundary: an entry written `ttlHours` hours + 1 second
in the past reads back `stale = true`; one written `ttlHours` hours − 1 second
in the past reads back `stale = false`; both reads still return the entry's
data with `cached = true` (stale is advisory, not a hard expiry). -/
theorem claim_C4_staleness_boundary (st : CMState) (d : Disk) (key : String)
    (payload : List (String × JVal)) (t0 ttl : Int) :
    ((getComponent (setComponent st d key payload t0).1 (setComponent st d key payload t0).2
        key ttl (t0 + ttl * 3600000 + 1000)).stale = true ∧
     (getComponent (setComponent st d key payload t0).1 (setComponent st d key payload t0).2
        key ttl (t0 + ttl * 3600000 + 1000)).cached = true ∧
     (getComponent (setComponent st d key payload t0).1 (setComponent st d key payload t0).2
        key ttl (t0 + ttl * 3600000 + 1000)).data.isSome = true) ∧
    ((getComponent (setComponent st d key payload t0).1 (setComponent st d key payload t0).2
        key ttl (t0 + ttl * 3600000 - 1000)).stale = false ∧
     (getComponent (setComponent st d key payload t0).1 (setComponent st d key payload t0).2
        key ttl (t0 + ttl * 3600000 - 1000)).cached = true ∧
     (getComponent (setComponent st d key payload t0).1 (setComponent st d key payload t0).2
        key ttl (t0 + ttl * 3600000 - 1000)).data.isSome = true) := by
  have hne : ¬(CPath.metadata st.currentVersion = CPath.component st.currentVersion key) := by
    simp
  unfold setComponent getComponent
  simp only []
  rw [fsRead_write_ne _ _ _ _ hne, fsRead_write_self]
  have hstale1 :
      staleOf (.obj (componentEntry key st.currentVersion payload t0)) ttl
        (t0 + ttl * 3600000 + 1000) = true := by
    simp only [staleOf, JVal.get, componentEntry_cachedAt]
    simp
    omega
  have hstale2 :
      staleOf (.obj (componentEntry key st.currentVersion payload t0)) ttl
        (t0 + ttl * 3600000 - 1000) = false := by
    simp only [staleOf, JVal.get, componentEntry_cachedAt]
    simp
    omega
  refine ⟨⟨?_, ?_, ?_⟩, ⟨?_, ?_, ?_⟩⟩ <;>
    simp only [hstale1, hstale2] <;>
    (rcases hl : (JVal.obj (componentEntry key st.currentVersion payload t0)).get "full" with
        _ | w <;> simp [hl]) <;>
    split <;> simp

/-- The lockstep invariant of the metadata and the entry files (C9): every key
in the in-memory `components`/`docs` maps has an on-disk entry file under the
active version whose `cachedAt` equals the metadata's `cachedAt`, and the
persisted `metadata.json` of the active version equals the in-memory metadata. -/
def cacheInv (st : CMState) (d : Disk) : Prop :=
  (∀ k e, olook st.cacheMetadata.components k = some e →
    ∃ fields, fsRead d (CPath.component st.currentVersion k) = some (.obj fields) ∧
      olook fields "cachedAt" = some (.num e.cachedAt)) ∧
  (∀ k e, olook st.cacheMetadata.docs k = some e →
    ∃ fields, fsRead d (CPath.docTopic st.currentVersion k) = some (.obj fields) ∧
      olook fields "cachedAt" = some (.num e.cachedAt)) ∧
  fsRead d (CPath.metadata st.currentVersion) = some (encodeMeta st.cacheMetadata)

/-- **C9.** Every completed `setComponent` or `setDocs` call preserves the
metadata/entry-file lockstep invariant: afterwards, every key referenced in the
`components`/`docs` maps (in memory, and as persisted in the active version's
`metadata.json`) has an existing on-disk entry file whose `cachedAt` equals the
metadata's `cachedAt` — metadata is updated and persisted immediately after
each entry write. -/
theorem claim_C9_metadata_lockstep (st : CMState) (d : Disk) (h : cacheInv st d)
    (key : String) (payload : List (String × JVal)) (topic content : String) (now : Int) :
    cacheInv (setComponent st d key payload now).1 (setComponent st d key payload now).2 ∧
    cacheInv (setDocs st d topic content now).1 (setDocs st d topic content now).2 := by
  obtain ⟨hc, hd, hm⟩ := h
  constructor
  · unfold setComponent
    simp only []
    refine ⟨?_, ?_, ?_⟩
    · intro k e hk
      simp only [olook_objSet] at hk
      by_cases hkey : key = k
      · subst hkey
        simp at hk
        subst hk
        refine ⟨componentEntry key st.currentVersion payload now, ?_, ?_⟩
        · rw [fsRead_write_ne _ _ _ _ (by simp), fsRead_write_self]
        · exact componentEntry_cachedAt _ _ _ _
      · rw [if_neg hkey] at hk
        obtain ⟨fields, hf, hca⟩ := hc k e hk
        refine ⟨fields, ?_, hca⟩
        rw [fsRead_write_ne _ _ _ _ (by simp),
          fsRead_write_ne _ _ _ _ (by simp [hkey])]
        exact hf
    · intro k e hk
      obtain ⟨fields, hf, hca⟩ := hd k e hk
      refine ⟨fields, ?_, hca⟩
      rw [fsRead_write_ne _ _ _ _ (by simp), fsRead_write_ne _ _ _ _ (by simp)]
      exact hf
    · exact fsRead_write_self _ _ _
  · unfold setDocs
    simp only []
    refine ⟨?_, ?_, ?_⟩
    · intro k e hk
      obtain ⟨fields, hf, hca⟩ := hc k e hk
      refine ⟨fields, ?_, hca⟩
      rw [fsRead_write_ne _ _ _ _ (by simp), fsRead_write_ne _ _ _ _ (by simp)]
      exact hf
    · intro k e hk
      simp only [olook_objSet] at hk
      by_cases hkey : topic = k
      · subst hkey
        simp at hk
        subst hk
        refine ⟨docsEntry topic st.currentVersion content now, ?_, ?_⟩
        · rw [fsRead_write_ne _ _ _ _ (by simp), fsRead_write_self]
        · simp [docsEntry, olook]
      · rw [if_neg hkey] at hk
        obtain ⟨fields, hf, hca⟩ := hd k e hk
        refine ⟨fields, ?_, hca⟩
        rw [fsRead_write_ne _ _ _ _ (by simp),
          fsRead_write_ne _ _ _ _ (by simp [hkey])]
        exact hf
    · exact fsRead_write_self _ _ _

/-! ## Claims about the ephemeral fetch cache and the warmer -/

/-- **C5.** Two successive `fetchContent(url, "html", false)` calls, the second
within the TTL of the entry written by the first (which was a cache miss and a
successful network fetch), perform exactly one network GET in total: the first
performs it, the second returns the cached content with no network call. -/
theorem claim_C5_fetch_cache_single_get (net : Network) (cache0 : FetchCache) (url : String)
    (html : List Char) (t1 t2 ttl : Int)
    (hmiss : fcGet cache0 (url, .html) = none)
    (hnet : net url = .ok html)
    (hfresh : t2 - t1 < ttl) :
    (fetchContent net cache0 url .html false ttl t1).1 = .ok html ∧
    (fetchContent net cache0 url .html false ttl t1).2.2 = 1 ∧
    (fetchContent net (fetchContent net cache0 url .html false ttl t1).2.1
        url .html false ttl t2).1 = .ok html ∧
    (fetchContent net (fetchContent net cache0 url .html false ttl t1).2.1
        url .html false ttl t2).2.2 = 0 ∧
    (fetchContent net cache0 url .html false ttl t1).2.2 +
      (fetchContent net (fetchContent net cache0 url .html false ttl t1).2.1
        url .html false ttl t2).2.2 = 1 := by
  have h1 : fetchContent net cache0 url .html false ttl t1 =
      (.ok html, fcSet cache0 (url, .html) (html, t1), 1) := by
    simp [fetchContent, hmiss, hnet]
  have h2 : fcGet (fcSet cache0 (url, .html) (html, t1)) (url, .html) = some (html, t1) := by
    simp [fcGet, fcSet]
  have h3 : fetchContent net (fcSet cache0 (url, .html) (html, t1)) url .html false ttl t2 =
      (.ok html, fcSet cache0 (url, .html) (html, t1), 0) := by
    simp [fetchContent, h2, hfresh]
  rw [h1]
  simp only []
  rw [h3]
  simp

theorem warmComponent_ok (net : Network) (st : CMState) (d : Disk) (name : String) (now : Int)
    (html : List Char) (h : net (componentUrl name) = .ok html) :
    warmComponent net st d name now =
      ((true, none), (setComponent st d name (warmPayload name html) now).1,
        (setComponent st d name (warmPayload name html) now).2) := by
  simp [warmComponent, fetchContent, h]

theorem warmComponent_err (net : Network) (st : CMState) (d : Disk) (name : String) (now : Int)
    (msg : String) (h : net (componentUrl name) = .error msg) :
    warmComponent net st d name now = ((false, some msg), st, d) := by
  simp [warmComponent, fetchContent, h]

theorem warmLoop_progress (net : Network) (now : Int) (total : Nat) :
    ∀ comps (i : Nat) (st : CMState) (d : Disk),
      (warmLoop net now total comps i st d).2.2.2 =
        (List.range' (i + 1) comps.length).map (fun j => (j, total)) := by
  intro comps
  induction comps with
  | nil => intro i st d; simp [warmLoop]
  | cons c rest ih =>
    intro i st d
    unfold warmLoop
    rcases hw : warmComponent net st d c now with ⟨⟨ok, err⟩, st1, d1⟩
    have hrec := ih (i + 1) st1 d1
    cases ok
    · rcases hl : warmLoop net now total rest (i + 1) st1 d1 with ⟨⟨s, f, errs⟩, st2, d2, prog⟩
      rw [hl] at hrec
      simp at hrec
      simp [hl, hrec, List.range'_succ]
    · rcases hl : warmLoop net now total rest (i + 1) st1 d1 with ⟨⟨s, f, errs⟩, st2, d2, prog⟩
      rw [hl] at hrec
      simp at hrec
      simp [hl, hrec, List.range'_succ]

theorem warmLoop_tally (net : Network) (now : Int) (total : Nat) :
    ∀ comps (i : Nat) (st : CMState) (d : Disk),
      (warmLoop net now total comps i st d).1.1 +
        (warmLoop net now total comps i st d).1.2.1 = comps.length := by
  intro comps
  induction comps with
  | nil => intro i st d; simp [warmLoop]
  | cons c rest ih =>
    intro i st d
    unfold warmLoop
    rcases hw : warmComponent net st d c now with ⟨⟨ok, err⟩, st1, d1⟩
    have hrec := ih (i + 1) st1 d1
    cases ok
    · rcases hl : warmLoop net now total rest (i + 1) st1 d1 with ⟨⟨s, f, errs⟩, st2, d2, prog⟩
      rw [hl] at hrec
      simp at hrec
      simp [hl]
      omega
    · rcases hl : warmLoop net now total rest (i + 1) st1 d1 with ⟨⟨s, f, errs⟩, st2, d2, prog⟩
      rw [hl] at hrec
      simp at hrec
      simp [hl]
      omega

/-- **C6.** `warmCache({components:["a","b"], includeDocs:false})` where "a"
succeeds and "b" throws does not throw: it reports
`components = {total:2, success:1, failed:1}` with `errors = [{component:"b",
error}]`, "a" is still written to the disk cache (entry file timestamped with
this run), and — in general, for every component list — one per-item failure
never aborts the batch (`success + failed = total = length`) and
`onProgress(i+1, total)` is invoked after every item. -/
theorem claim_C6_warm_partial_failure (net : Network) (st : CMState) (d : Disk) (now : Int)
    (htmlA : List Char) (msg : String)
    (ha : net (componentUrl "a") = .ok htmlA)
    (hb : net (componentUrl "b") = .error msg) :
    ((warmCache net st d ["a", "b"] false now).1.components =
        ⟨2, 1, 1, [("b", msg)]⟩ ∧
     (∃ fields, fsRead (warmCache net st d ["a", "b"] false now).2.2.1
        (CPath.component st.currentVersion "a") = some (.obj fields) ∧
        olook fields "cachedAt" = some (.num now)) ∧
     (warmCache net st d ["a", "b"] false now).2.2.2 = [(1, 2), (2, 2)]) ∧
    (∀ comps : List String,
      (warmCache net st d comps false now).2.2.2 =
        (List.range' 1 comps.length).map (fun j => (j, comps.length)) ∧
      (warmCache net st d comps false now).1.components.success +
        (warmCache net st d comps false now).1.components.failed = comps.length ∧
      (warmCache net st d comps false now).1.components.total = comps.length) := by
  constructor
  · have hwb := warmComponent_err net (setComponent st d "a" (warmPayload "a" htmlA) now).1
      (setComponent st d "a" (warmPayload "a" htmlA) now).2 "b" now msg hb
    have hb1 : warmLoop net now 2 ["b"] 1
        (setComponent st d "a" (warmPayload "a" htmlA) now).1
        (setComponent st d "a" (warmPayload "a" htmlA) now).2 =
        ((0, 1, [("b", msg)]), (setComponent st d "a" (warmPayload "a" htmlA) now).1,
          (setComponent st d "a" (warmPayload "a" htmlA) now).2, [(2, 2)]) := by
      unfold warmLoop
      rw [hwb]
      exact rfl
    have hloop : warmLoop net now 2 ["a", "b"] 0 st d =
        ((1, 1, [("b", msg)]), (setComponent st d "a" (warmPayload "a" htmlA) now).1,
          (setComponent st d "a" (warmPayload "a" htmlA) now).2, [(1, 2), (2, 2)]) := by
      unfold warmLoop
      rw [warmComponent_ok net st d "a" now htmlA ha]
      simp only []
      rw [hb1]
    have hread : fsRead (setComponent st d "a" (warmPayload "a" htmlA) now).2
        (CPath.component st.currentVersion "a") =
        some (.obj (componentEntry "a" st.currentVersion (warmPayload "a" htmlA) now)) := by
      unfold setComponent
      simp only []
      rw [fsRead_write_ne _ _ _ _ (by simp), fsRead_write_self]
    have hwc2 : (warmCache net st d ["a", "b"] false now).2.2.1 =
        (setComponent st d "a" (warmPayload "a" htmlA) now).2 := by
      simp [warmCache, hloop]
    refine ⟨?_, ?_, ?_⟩
    · simp [warmCache, hloop]
    · rw [hwc2]
      exact ⟨componentEntry "a" st.currentVersion (warmPayload "a" htmlA) now, hread,
        componentEntry_cachedAt _ _ _ _⟩
    · simp [warmCache, hloop]
  · intro comps
    have hp := warmLoop_progress net now comps.length comps 0 st d
    have ht := warmLoop_tally net now comps.length comps 0 st d
    rcases hl : warmLoop net now comps.length comps 0 st d with ⟨⟨s, f, errs⟩, st2, d2, prog⟩
    rw [hl] at hp ht
    simp at hp ht
    refine ⟨?_, ?_, ?_⟩ <;> simp [warmCache, hl, hp, ht]

/-! ## Lemmas about case-insensitive matching and scanning -/

theorem isPrefixCI_length (pat s : List Char) (h : isPrefixCI pat s = true) :
    pat.length ≤ s.length := by
  induction pat generalizing s with
  | nil => simp
  | cons p ps ih =>
    cases s with
    | nil => simp [isPrefixCI] at h
    | cons c t =>
      simp only [isPrefixCI, Bool.and_eq_true] at h
      have := ih t h.2
      simp; omega

theorem containsCIb_of_prefixCI (pat s : List Char) (h : isPrefixCI pat s = true) :
    containsCIb pat s = true := by
  cases s with
  | nil => simpa [containsCIb] using h
  | cons c t => simp [containsCIb, h]

theorem containsCIb_of_suffix (pat s t : List Char) (hsub : t.IsSuffix s)
    (h : containsCIb pat t = true) : containsCIb pat s = true := by
  obtain ⟨u, rfl⟩ := hsub
  induction u with
  | nil => simpa using h
  | cons c u' ih => simp [containsCIb, ih]

theorem dropThroughGt_suffix (s r : List Char) (h : dropThroughGt s = some r) :
    r.IsSuffix s := by
  induction s with
  | nil => simp [dropThroughGt] at h
  | cons c t ih =>
    by_cases hc : c == '>'
    · simp [dropThroughGt, hc] at h
      subst h
      exact (List.suffix_cons c t)
    · simp [dropThroughGt, hc] at h
      exact (ih h).trans (List.suffix_cons c t)

theorem stripPrefixCI_suffix (pat s r : List Char) (h : stripPrefixCI pat s = some r) :
    r.IsSuffix s := by
  unfold stripPrefixCI at h
  split at h
  · cases h; exact List.drop_suffix _ _
  · cases h

theorem headOpen_suffix (s r : List Char) (h : headOpen s = some r) : r.IsSuffix s := by
  rcases s with _ | ⟨a, _ | ⟨b, _ | ⟨c, t⟩⟩⟩
  · simp [headOpen] at h
  · simp [headOpen] at h
  · simp [headOpen] at h
  · simp only [headOpen] at h
    split at h
    · have h1 := dropThroughGt_suffix _ _ h
      have h2 : (c :: t).IsSuffix (a :: b :: c :: t) :=
        (List.suffix_cons b (c :: t)).trans (List.suffix_cons a (b :: c :: t))
      exact h1.trans h2
    · simp at h

theorem findWith_eq_none {α : Type} (try? : List Char → Option α) (s : List Char)
    (H : ∀ t, t.IsSuffix s → try? t = none) : findWith try? s = none := by
  induction s with
  | nil => rfl
  | cons c t ih =>
    have h0 := H (c :: t) (List.suffix_refl _)
    simp only [findWith, h0]
    exact ih (fun t' ht' => H t' (ht'.trans (List.suffix_cons c t)))

theorem headingTitled_some_prefix (title s r : List Char) (h : headingTitled title s = some r) :
    ∃ u, headOpen s = some u ∧ isPrefixCI title u = true := by
  unfold headingTitled at h
  split at h <;> rename_i ho
  · split at h <;> rename_i hsp
    · refine ⟨_, ho, ?_⟩
      unfold stripPrefixCI at hsp
      split at hsp
      · assumption
      · cases hsp
    · cases h
  · cases h

theorem trySection_none_of_not_contains (title : List Char) (stop : List Char → Bool)
    (s t : List Char) (hsub : t.IsSuffix s) (h : containsCIb title s = false) :
    trySection title stop t = none := by
  unfold trySection
  rcases hh : headingTitled title t with _ | rest
  · rfl
  · exfalso
    obtain ⟨u, ho, hpre⟩ := headingTitled_some_prefix _ _ _ hh
    have hu : containsCIb title u = true := containsCIb_of_prefixCI _ _ hpre
    have hsuf : u.IsSuffix s := (headOpen_suffix _ _ ho).trans hsub
    have hcon := containsCIb_of_suffix title s u hsuf hu
    rw [h] at hcon
    cases hcon

theorem findSection_none (title : List Char) (stop : List Char → Bool) (s : List Char)
    (h : containsCIb title s = false) : findSection title stop s = none :=
  findWith_eq_none _ _ (fun t ht => trySection_none_of_not_contains title stop s t ht h)

/-! ## Claims about extraction -/

/-- **C2.** On HTML with no "Brain API" and no "Helm API" heading (here: no
occurrence of either phrase at all), `extractAPIInfo` returns
`brainAPI = []`, `helmAPI = []`, with `examples` still populated from the
page's code blocks.  (The embedding is total, reflecting that the extractor
never throws: missing or malformed sections only yield empty sequences.) -/
theorem claim_C2_no_sections_empty (html : List Char)
    (hB : containsCIb "Brain API".data html = false)
    (hH : containsCIb "Helm API".data html = false) :
    extractAPIInfo html = ⟨[], [], mkExamples (extractCodeBlocks html)⟩ := by
  unfold extractAPIInfo
  rw [findSection_none _ _ _ hB, findSection_none _ _ _ hH]

theorem pushMatch_eq (m : List Char) :
    pushMatch m = if 2 < countNonBlank (codeOfMatch m) then some (codeOfMatch m) else none := by
  unfold pushMatch
  by_cases h1 : (countNonBlank (codeOfMatch m) == 1 &&
      containsCSb "import".data (codeOfMatch m)) = true
  · have hcount : countNonBlank (codeOfMatch m) = 1 := by
      rcases Bool.and_eq_true_iff.mp h1 with ⟨hl, _⟩
      exact beq_iff_eq.mp hl
    simp [h1, hcount]
  · simp [h1]

/-- **C8.** A code block whose plain-text form has at most 2 non-blank lines is
excluded from `extractCodeBlocks` (in particular, a single import line); a
matched block whose plain-text form has 3 or more non-blank lines is included
verbatim (its text, modulo the tag stripping done by the match processing). -/
theorem claim_C8_code_block_filter (html : List Char) (c : List Char) :
    (c ∈ extractCodeBlocks html → 2 < countNonBlank c) ∧
    (c ∈ rawCodeTexts html → 2 < countNonBlank c → c ∈ extractCodeBlocks html) := by
  constructor
  · intro hc
    unfold extractCodeBlocks at hc
    rw [List.mem_filterMap] at hc
    obtain ⟨m, _, hp⟩ := hc
    rw [pushMatch_eq] at hp
    by_cases h2 : 2 < countNonBlank (codeOfMatch m)
    · rw [if_pos h2] at hp
      exact (Option.some.inj hp) ▸ h2
    · rw [if_neg h2] at hp
      exact Option.noConfusion hp
  · intro hraw h3
    unfold rawCodeTexts at hraw
    rw [List.mem_map] at hraw
    obtain ⟨m, hm, rfl⟩ := hraw
    unfold extractCodeBlocks
    rw [List.mem_filterMap]
    exact ⟨m, hm, by rw [pushMatch_eq]; simp [h3]⟩

/-! ## Lemmas for the script/style removal claim (C7) -/

theorem eqCI_refl (c : Char) : eqCI c c = true := by simp [eqCI]

theorem isPrefixCI_refl_append (pat z : List Char) : isPrefixCI pat (pat ++ z) = true := by
  induction pat with
  | nil => rfl
  | cons p ps ih => simp [isPrefixCI, eqCI_refl, ih]

theorem isPrefixCI_mono_append (pat x y : List Char) (h : isPrefixCI pat x = true) :
    isPrefixCI pat (x ++ y) = true := by
  induction pat generalizing x with
  | nil => rfl
  | cons p ps ih =>
    cases x with
    | nil => simp [isPrefixCI] at h
    | cons c t =>
      simp only [isPrefixCI, Bool.and_eq_true] at h ⊢
      exact ⟨h.1, ih t h.2⟩

theorem isPrefixCI_append_left (pat x z : List Char) (hlen : pat.length ≤ x.length) :
    isPrefixCI pat (x ++ z) = isPrefixCI pat x := by
  induction pat generalizing x with
  | nil => rfl
  | cons p ps ih =>
    cases x with
    | nil => simp at hlen
    | cons c t =>
      have hlen' : ps.length ≤ t.length := by simpa using hlen
      show (eqCI p c && isPrefixCI ps (t ++ z)) = (eqCI p c && isPrefixCI ps t)
      rw [ih t hlen']

theorem isPrefixCI_get (pat : List Char) :
    ∀ s, isPrefixCI pat s = true → ∀ j (hj : j < pat.length),
      ∃ hjs : j < s.length, eqCI (pat.get ⟨j, hj⟩) (s.get ⟨j, hjs⟩) = true := by
  induction pat with
  | nil => intro s h j hj; simp at hj
  | cons p ps ih =>
    intro s h j hj
    cases s with
    | nil => simp [isPrefixCI] at h
    | cons c t =>
      simp only [isPrefixCI, Bool.and_eq_true] at h
      cases j with
      | zero => exact ⟨by simp, h.1⟩
      | succ j' =>
        obtain ⟨hjs, he⟩ := ih t h.2 j' (by simpa using Nat.lt_of_succ_lt_succ hj)
        exact ⟨by simpa using Nat.succ_lt_succ hjs, he⟩

theorem containsCIb_append_left_of (pat x y : List Char) (h : containsCIb pat x = true) :
    containsCIb pat (x ++ y) = true := by
  induction x with
  | nil =>
    simp only [containsCIb] at h
    exact containsCIb_of_prefixCI _ _ (isPrefixCI_mono_append _ _ _ h)
  | cons c t ih =>
    simp only [containsCIb, Bool.or_eq_true] at h
    rcases h with h | h
    · cases y with
      | nil => simpa [containsCIb] using Or.inl h
      | cons d u =>
        simp only [List.cons_append, containsCIb, Bool.or_eq_true]
        exact Or.inl (by simpa using isPrefixCI_mono_append pat (c :: t) (d :: u) h)
    · simp only [List.cons_append, containsCIb, Bool.or_eq_true]
      exact Or.inr (ih h)

theorem containsCIb_append_right_of (pat x y : List Char) (h : containsCIb pat y = true) :
    containsCIb pat (x ++ y) = true :=
  containsCIb_of_suffix pat (x ++ y) y ⟨x, rfl⟩ h

theorem isPrefixCI_false_of_suffix_not_contains (pat x x' : List Char)
    (hx : containsCIb pat x = false) (hsub : x'.IsSuffix x) :
    isPrefixCI pat x' = false := by
  by_contra hcon
  rw [Bool.not_eq_false] at hcon
  have := containsCIb_of_suffix pat x x' hsub (containsCIb_of_prefixCI _ _ hcon)
  rw [hx] at this
  cases this

theorem get_append_length (x : List Char) (c : Char) (z : List Char)
    (h : x.length < (x ++ c :: z).length) :
    (x ++ c :: z).get ⟨x.length, h⟩ = c := by
  induction x with
  | nil => rfl
  | cons a t ih => simp only [List.cons_append] at h ⊢; exact ih (by simp)

/-- The pattern-overlap argument: a pattern of the form `<…` whose tail
contains no character case-equal to `<` cannot match starting strictly inside
a region `x'` that is immediately followed by a fresh copy of the pattern. -/
theorem isPrefixCI_overlap_false (pt x' w : List Char)
    (htail : pt.all (fun c => !(eqCI c '<')) = true)
    (hlong : ('<' :: pt).length ≤ x'.length → isPrefixCI ('<' :: pt) x' = false)
    (hne : x' ≠ []) :
    isPrefixCI ('<' :: pt) (x' ++ '<' :: (pt ++ w)) = false := by
  by_cases hlen : ('<' :: pt).length ≤ x'.length
  · rw [isPrefixCI_append_left _ _ _ hlen]
    exact hlong hlen
  · by_contra hcon
    rw [Bool.not_eq_false] at hcon
    have hx'len : x'.length < ('<' :: pt).length := Nat.lt_of_not_le hlen
    obtain ⟨hjs, he⟩ := isPrefixCI_get ('<' :: pt) _ hcon x'.length hx'len
    have hget : (x' ++ '<' :: (pt ++ w)).get ⟨x'.length, hjs⟩ = '<' :=
      get_append_length x' '<' (pt ++ w) hjs
    rw [hget] at he
    have hx'pos : 0 < x'.length := List.length_pos.mpr hne
    have hmem : ('<' :: pt).get ⟨x'.length, hx'len⟩ ∈ pt := by
      rcases x' with _ | ⟨c, t⟩
      · simp at hx'pos
      · simp only [List.length_cons, List.get_cons_succ]
        exact List.get_mem _ _ _
    have hall := List.all_eq_true.mp htail _ hmem
    rw [he] at hall
    cases hall

theorem replaceWith_nil (try? : List Char → Option (List Char × List Char))
    (hlt : ∀ s a r, try? s = some (a, r) → r.length < s.length) :
    replaceWith try? hlt [] = [] := rfl

theorem replaceWith_head_some (try? : List Char → Option (List Char × List Char))
    (hlt : ∀ s a r, try? s = some (a, r) → r.length < s.length) (c : Char) (t : List Char)
    (rep r : List Char) (h : try? (c :: t) = some (rep, r)) :
    replaceWith try? hlt (c :: t) = rep ++ replaceWith try? hlt r := by
  show replaceWithF try? (t.length + 1) (c :: t) = rep ++ replaceWithF try? r.length r
  simp only [replaceWithF, h]
  have hr := hlt _ _ _ h
  simp only [List.length_cons] at hr
  rw [replaceWithF_eq try? hlt t.length r (by omega)]

theorem replaceWith_head_none (try? : List Char → Option (List Char × List Char))
    (hlt : ∀ s a r, try? s = some (a, r) → r.length < s.length) (c : Char) (t : List Char)
    (h : try? (c :: t) = none) :
    replaceWith try? hlt (c :: t) = c :: replaceWith try? hlt t := by
  show replaceWithF try? (t.length + 1) (c :: t) = c :: replaceWithF try? t.length t
  simp only [replaceWithF, h]

theorem replaceWith_append_of_fail (try? : List Char → Option (List Char × List Char))
    (hlt : ∀ s a r, try? s = some (a, r) → r.length < s.length) (x y : List Char)
    (H : ∀ x', x'.IsSuffix x → x' ≠ [] → try? (x' ++ y) = none) :
    replaceWith try? hlt (x ++ y) = x ++ replaceWith try? hlt y := by
  induction x with
  | nil => rfl
  | cons c t ih =>
    have h0 : try? ((c :: t) ++ y) = none := H (c :: t) (List.suffix_refl _) (by simp)
    rw [List.cons_append, replaceWith_head_none try? hlt c (t ++ y) h0]
    rw [ih (fun x' hx' hne => H x' (hx'.trans (List.suffix_cons c t)) hne)]
    rfl

theorem replaceWith_eq_id (try? : List Char → Option (List Char × List Char))
    (hlt : ∀ s a r, try? s = some (a, r) → r.length < s.length) (s : List Char)
    (H : ∀ t, t.IsSuffix s → t ≠ [] → try? t = none) :
    replaceWith try? hlt s = s := by
  have h := replaceWith_append_of_fail try? hlt s [] (by simpa using H)
  simpa [replaceWith_nil] using h

theorem stripPrefixCI_self_append (pat z : List Char) :
    stripPrefixCI pat (pat ++ z) = some z := by
  unfold stripPrefixCI
  rw [if_pos (isPrefixCI_refl_append pat z)]
  rw [List.drop_left]

theorem splitAfterP_append_hit (p : List Char → Bool) (len : Nat) (x y : List Char)
    (Hx : ∀ x', x'.IsSuffix x → x' ≠ [] → p (x' ++ y) = false)
    (Hy : p y = true) (hyne : y ≠ []) :
    splitAfterP p len (x ++ y) = some (x, y.drop len) := by
  induction x with
  | nil =>
    cases y with
    | nil => cases hyne rfl
    | cons c t => simp [splitAfterP, Hy]
  | cons c t ih =>
    have h0 : p ((c :: t) ++ y) = false := Hx (c :: t) (List.suffix_refl _) (by simp)
    rw [List.cons_append]
    rw [show splitAfterP p len (c :: (t ++ y)) =
      if p (c :: (t ++ y)) then some ([], (c :: (t ++ y)).drop len)
      else match splitAfterP p len (t ++ y) with
           | some (b, r) => some (c :: b, r)
           | none => none from by rw [splitAfterP]]
    rw [show (c :: (t ++ y)) = (c :: t) ++ y from rfl, h0]
    rw [ih (fun x' hx' hne => Hx x' (hx'.trans (List.suffix_cons c t)) hne)]
    simp

theorem stripPrefixCI_none (pat s : List Char) (h : isPrefixCI pat s = false) :
    stripPrefixCI pat s = none := by
  unfold stripPrefixCI
  rw [if_neg (by simp [h])]

theorem tryBlock_none_of_not_prefix (opTail closePat s : List Char)
    (h : isPrefixCI ('<' :: opTail) s = false) :
    tryBlock opTail closePat s = none := by
  unfold tryBlock
  rw [stripPrefixCI_none _ _ h]

theorem tryBlock_none_in_region (opTail closePat : List Char)
    (hop_tail : opTail.all (fun c => !(eqCI c '<')) = true)
    (x w : List Char) (hx : containsCIb ('<' :: opTail) x = false) :
    ∀ x', x'.IsSuffix x → x' ≠ [] →
      tryBlock opTail closePat (x' ++ '<' :: (opTail ++ w)) = none := by
  intro x' hs hne
  apply tryBlock_none_of_not_prefix
  exact isPrefixCI_overlap_false opTail x' w hop_tail
    (fun _ => isPrefixCI_false_of_suffix_not_contains _ _ _ hx hs) hne

theorem tryBlock_seg_hit (opTail closePat cpt mid s : List Char) (hcp : closePat = '<' :: cpt)
    (hclose_tail : cpt.all (fun c => !(eqCI c '<')) = true)
    (hmid : containsCIb closePat mid = false) :
    tryBlock opTail closePat ('<' :: (opTail ++ (mid ++ (closePat ++ s)))) =
      some ([], s) := by
  subst hcp
  unfold tryBlock
  rw [show ('<' :: (opTail ++ (mid ++ (('<' :: cpt) ++ s)))) =
    ('<' :: opTail) ++ (mid ++ (('<' :: cpt) ++ s)) from rfl]
  rw [stripPrefixCI_self_append]
  have hsplit : splitAfterCI ('<' :: cpt) (mid ++ (('<' :: cpt) ++ s)) =
      some (mid, s) := by
    unfold splitAfterCI
    have hx : ∀ x', x'.IsSuffix mid → x' ≠ [] →
        isPrefixCI ('<' :: cpt) (x' ++ (('<' :: cpt) ++ s)) = false := by
      intro x' hs' hne
      exact isPrefixCI_overlap_false cpt x' s hclose_tail
        (fun _ => isPrefixCI_false_of_suffix_not_contains _ _ _ hmid hs') hne
    have h := splitAfterP_append_hit (isPrefixCI ('<' :: cpt)) ('<' :: cpt).length mid
      (('<' :: cpt) ++ s) hx (isPrefixCI_refl_append _ _) (by simp)
    rw [List.drop_left] at h
    exact h
  simp only [hsplit]

/-- Removing one well-delimited block: `replace` on
`p ++ "<OP" ++ mid ++ "<CLOSE" ++ s` removes exactly the block, provided the
opener does not occur in `p` or `s` and the closer does not occur in `mid`. -/
theorem replaceWith_tryBlock_seg (opTail closePat cpt p mid s : List Char)
    (hcp : closePat = '<' :: cpt)
    (hop_tail : opTail.all (fun c => !(eqCI c '<')) = true)
    (hclose_tail : cpt.all (fun c => !(eqCI c '<')) = true)
    (hp : containsCIb ('<' :: opTail) p = false)
    (hmid : containsCIb closePat mid = false)
    (hs : containsCIb ('<' :: opTail) s = false) :
    replaceWith (tryBlock opTail closePat) (tryBlock_length opTail closePat)
      (p ++ ('<' :: (opTail ++ (mid ++ (closePat ++ s))))) = p ++ s := by
  rw [replaceWith_append_of_fail _ _ p _ (by
    intro x' hx' hne
    have h := tryBlock_none_in_region opTail closePat hop_tail p
      (mid ++ (closePat ++ s)) hp x' hx' hne
    exact h)]
  rw [replaceWith_head_some _ _ _ _ _ _
    (tryBlock_seg_hit opTail closePat cpt mid s hcp hclose_tail hmid)]
  rw [replaceWith_eq_id _ _ s (fun t ht hne =>
    tryBlock_none_of_not_prefix _ _ _
      (isPrefixCI_false_of_suffix_not_contains _ _ _ hs ht))]
  rfl

/-- Removing no block: `replace` is the identity when the opener never
occurs. -/
theorem replaceWith_tryBlock_id (opTail closePat s : List Char)
    (hs : containsCIb ('<' :: opTail) s = false) :
    replaceWith (tryBlock opTail closePat) (tryBlock_length opTail closePat) s = s :=
  replaceWith_eq_id _ _ s (fun _ ht _ =>
    tryBlock_none_of_not_prefix _ _ _ (isPrefixCI_false_of_suffix_not_contains _ _ _ hs ht))

/-- **C7.** Content inside `<script>…</script>` and `<style>…</style>` blocks
never leaks into `htmlToText`'s output: the blocks are removed before any
other processing, so the output does not depend on the block body at all —
it equals the output for the page with the whole block deleted. -/
theorem claim_C7_script_style_removed :
    (∀ p b s : List Char,
      containsCIb "<script".data (p ++ s) = false →
      containsCIb "</script>".data b = false →
      htmlToText (p ++ "<script>".data ++ b ++ "</script>".data ++ s) = htmlToText (p ++ s)) ∧
    (∀ p b s : List Char,
      containsCIb "<script".data (p ++ "<style>".data ++ b ++ "</style>".data ++ s) = false →
      containsCIb "<script".data (p ++ s) = false →
      containsCIb "<style".data (p ++ s) = false →
      containsCIb "</style>".data b = false →
      htmlToText (p ++ "<style>".data ++ b ++ "</style>".data ++ s) = htmlToText (p ++ s)) := by
  constructor
  · intro p b s h1 h2
    have hp : containsCIb "<script".data p = false := by
      by_contra hc
      rw [Bool.not_eq_false] at hc
      have hcc := containsCIb_append_left_of "<script".data p s hc
      rw [h1] at hcc; cases hcc
    have hs : containsCIb "<script".data s = false := by
      by_contra hc
      rw [Bool.not_eq_false] at hc
      have hcc := containsCIb_append_right_of "<script".data p s hc
      rw [h1] at hcc; cases hcc
    have hmid : containsCIb "</script>".data ('>' :: b) = false := by
      simp only [containsCIb, Bool.or_eq_true]
      simp only [show isPrefixCI "</script>".data ('>' :: b) =
        (eqCI '<' '>' && isPrefixCI "/script>".data b) from rfl]
      simp [h2, eqCI, lcn]
    have e1 : p ++ "<script>".data ++ b ++ "</script>".data ++ s =
        p ++ ('<' :: ("script".data ++ (('>' :: b) ++ ("</script>".data ++ s)))) := by
      simp
    have hseg := replaceWith_tryBlock_seg "script".data "</script>".data "/script>".data
      p ('>' :: b) s rfl (by decide) (by decide) hp hmid hs
    have hid := replaceWith_tryBlock_id "script".data "</script>".data (p ++ s) h1
    unfold htmlToText stripScripts
    rw [e1, hseg, hid]
  · intro p b s h0 h1 h2 h3
    have hp : containsCIb "<style".data p = false := by
      by_contra hc
      rw [Bool.not_eq_false] at hc
      have hcc := containsCIb_append_left_of "<style".data p s hc
      rw [h2] at hcc; cases hcc
    have hs : containsCIb "<style".data s = false := by
      by_contra hc
      rw [Bool.not_eq_false] at hc
      have hcc := containsCIb_append_right_of "<style".data p s hc
      rw [h2] at hcc; cases hcc
    have hmid : containsCIb "</style>".data ('>' :: b) = false := by
      simp only [containsCIb, Bool.or_eq_true]
      simp only [show isPrefixCI "</style>".data ('>' :: b) =
        (eqCI '<' '>' && isPrefixCI "/style>".data b) from rfl]
      simp [h3, eqCI, lcn]
    have e1 : p ++ "<style>".data ++ b ++ "</style>".data ++ s =
        p ++ ('<' :: ("style".data ++ (('>' :: b) ++ ("</style>".data ++ s)))) := by
      simp
    have hseg := replaceWith_tryBlock_seg "style".data "</style>".data "/style>".data
      p ('>' :: b) s rfl (by decide) (by decide) hp hmid hs
    have hid0 := replaceWith_tryBlock_id "script".data "</script>".data
      (p ++ "<style>".data ++ b ++ "</style>".data ++ s) h0
    have hid1 := replaceWith_tryBlock_id "script".data "</script>".data (p ++ s) h1
    have hid2 := replaceWith_tryBlock_id "style".data "</style>".data (p ++ s) h2
    unfold htmlToText stripScripts stripStyles
    rw [hid0, hid1, e1, hseg, hid2]

/-! ## Generic walking lemmas for the scanners -/

theorem char_eq_of_toNat (c d : Char) (h : c.toNat = d.toNat) : c = d := by
  apply Char.ext
  apply UInt32.ext
  simpa [Char.toNat] using h

/-- For a non-letter anchor character, case-insensitive equality is plain
equality. -/
theorem eqCI_anchor (a : Char) (hfix : lcn a = a.toNat)
    (hrange : ¬(97 ≤ a.toNat ∧ a.toNat ≤ 122)) (c : Char) (h : eqCI a c = true) : c = a := by
  simp only [eqCI, beq_iff_eq] at h
  rw [hfix] at h
  unfold lcn at h
  split at h <;> rename_i hcond
  · simp only [Bool.and_eq_true, decide_eq_true_eq] at hcond
    omega
  · exact char_eq_of_toNat c a h.symm

theorem eqCI_anchor_false (a : Char) (hfix : lcn a = a.toNat)
    (hrange : ¬(97 ≤ a.toNat ∧ a.toNat ≤ 122)) (c : Char) (h : ¬(c = a)) :
    eqCI a c = false := by
  by_contra hc
  rw [Bool.not_eq_false] at hc
  exact h (eqCI_anchor a hfix hrange c hc)

theorem eqCI_lt_false (c : Char) (h : ¬(c = '<')) : eqCI '<' c = false :=
  eqCI_anchor_false '<' (by decide) (by decide) c h

theorem isPrefixCI_cons_false_head (p : Char) (ps : List Char) (c : Char) (t : List Char)
    (h : eqCI p c = false) : isPrefixCI (p :: ps) (c :: t) = false := by
  simp [isPrefixCI, h]

theorem suffix_append_cases (t a b : List Char) (h : t.IsSuffix (a ++ b)) :
    t.IsSuffix b ∨ ∃ a', a'.IsSuffix a ∧ a' ≠ [] ∧ t = a' ++ b := by
  induction a with
  | nil => exact Or.inl (by simpa using h)
  | cons c a' ih =>
    rw [List.cons_append, List.suffix_cons_iff] at h
    rcases h with rfl | h
    · exact Or.inr ⟨c :: a', List.suffix_refl _, by simp, by simp⟩
    · rcases ih h with h | ⟨a'', hs, hne, rfl⟩
      · exact Or.inl h
      · exact Or.inr ⟨a'', hs.trans (List.suffix_cons c a'), hne, rfl⟩

theorem noLt_mem (x : List Char) (hx : noLt x = true) (c : Char) (hc : c ∈ x) : ¬(c = '<') := by
  simp only [noLt, List.all_eq_true] at hx
  have := hx c hc
  simpa using this

/-- Fail on every suffix of a region: it suffices to handle only suffixes that
start with `<`, everything else failing by the matcher's anchor. -/
theorem fails_on_region {β : Type} (f : List Char → Option β)
    (hhead : ∀ c t, ¬(c = '<') → f (c :: t) = none) (x y : List Char)
    (Hlt : ∀ x', x'.IsSuffix x → x' ≠ [] → x'.head? = some '<' → f (x' ++ y) = none) :
    ∀ x', x'.IsSuffix x → x' ≠ [] → f (x' ++ y) = none := by
  intro x' hs hne
  rcases x' with _ | ⟨c, t⟩
  · cases hne rfl
  · by_cases hc : c = '<'
    · subst hc
      exact Hlt _ hs hne rfl
    · exact hhead c (t ++ y) hc

/-- Over a `<`-free region every `<`-anchored matcher fails. -/
theorem fails_on_noLt {β : Type} (f : List Char → Option β)
    (hhead : ∀ c t, ¬(c = '<') → f (c :: t) = none) (x y : List Char) (hx : noLt x = true) :
    ∀ x', x'.IsSuffix x → x' ≠ [] → f (x' ++ y) = none := by
  apply fails_on_region f hhead
  intro x' hs hne hhd
  exfalso
  rcases x' with _ | ⟨c, t⟩
  · cases hne rfl
  · simp only [List.head?] at hhd
    cases hhd
    exact noLt_mem x hx '<' (hs.subset (by simp)) rfl

theorem scanWith_nil {α : Type} (try? : List Char → Option (α × List Char))
    (hlt : ∀ s a r, try? s = some (a, r) → r.length < s.length) :
    scanWith try? hlt [] = [] := rfl

theorem scanWith_head_some {α : Type} (try? : List Char → Option (α × List Char))
    (hlt : ∀ s a r, try? s = some (a, r) → r.length < s.length) (c : Char) (t : List Char)
    (a : α) (r : List Char) (h : try? (c :: t) = some (a, r)) :
    scanWith try? hlt (c :: t) = a :: scanWith try? hlt r := by
  show scanWithF try? (t.length + 1) (c :: t) = a :: scanWithF try? r.length r
  simp only [scanWithF, h]
  have hr := hlt _ _ _ h
  simp only [List.length_cons] at hr
  rw [scanWithF_eq try? hlt t.length r (by omega)]

theorem scanWith_head_none {α : Type} (try? : List Char → Option (α × List Char))
    (hlt : ∀ s a r, try? s = some (a, r) → r.length < s.length) (c : Char) (t : List Char)
    (h : try? (c :: t) = none) :
    scanWith try? hlt (c :: t) = scanWith try? hlt t := by
  show scanWithF try? (t.length + 1) (c :: t) = scanWithF try? t.length t
  simp only [scanWithF, h]

theorem scanWith_append_of_fail {α : Type} (try? : List Char → Option (α × List Char))
    (hlt : ∀ s a r, try? s = some (a, r) → r.length < s.length) (x y : List Char)
    (H : ∀ x', x'.IsSuffix x → x' ≠ [] → try? (x' ++ y) = none) :
    scanWith try? hlt (x ++ y) = scanWith try? hlt y := by
  induction x with
  | nil => rfl
  | cons c t ih =>
    have h0 : try? ((c :: t) ++ y) = none := H (c :: t) (List.suffix_refl _) (by simp)
    rw [List.cons_append, scanWith_head_none try? hlt c (t ++ y) h0]
    exact ih (fun x' hx' hne => H x' (hx'.trans (List.suffix_cons c t)) hne)

theorem scanWith_eq_nil {α : Type} (try? : List Char → Option (α × List Char))
    (hlt : ∀ s a r, try? s = some (a, r) → r.length < s.length) (s : List Char)
    (H : ∀ t, t.IsSuffix s → t ≠ [] → try? t = none) :
    scanWith try? hlt s = [] := by
  have h := scanWith_append_of_fail try? hlt s [] (by simpa using H)
  simpa [scanWith_nil] using h

theorem findWith_head_some {α : Type} (try? : List Char → Option α) (c : Char) (t : List Char)
    (a : α) (h : try? (c :: t) = some a) : findWith try? (c :: t) = some a := by
  simp [findWith, h]

theorem findWith_head_none {α : Type} (try? : List Char → Option α) (c : Char) (t : List Char)
    (h : try? (c :: t) = none) : findWith try? (c :: t) = findWith try? t := by
  simp [findWith, h]

theorem findWith_append_of_fail {α : Type} (try? : List Char → Option α) (x y : List Char)
    (H : ∀ x', x'.IsSuffix x → x' ≠ [] → try? (x' ++ y) = none) :
    findWith try? (x ++ y) = findWith try? y := by
  induction x with
  | nil => rfl
  | cons c t ih =>
    have h0 : try? ((c :: t) ++ y) = none := H (c :: t) (List.suffix_refl _) (by simp)
    rw [List.cons_append, findWith_head_none try? c (t ++ y) h0]
    exact ih (fun x' hx' hne => H x' (hx'.trans (List.suffix_cons c t)) hne)

theorem captureUntil_cons_stop (stop : List Char → Bool) (c : Char) (t : List Char)
    (h : stop (c :: t) = true) : captureUntil stop (c :: t) = [] := by
  simp [captureUntil, h]

theorem captureUntil_cons_go (stop : List Char → Bool) (c : Char) (t : List Char)
    (h : stop (c :: t) = false) : captureUntil stop (c :: t) = c :: captureUntil stop t := by
  simp [captureUntil, h]

theorem dropUntil_cons_stop (stop : List Char → Bool) (c : Char) (t : List Char)
    (h : stop (c :: t) = true) : dropUntil stop (c :: t) = c :: t := by
  simp [dropUntil, h]

theorem dropUntil_cons_go (stop : List Char → Bool) (c : Char) (t : List Char)
    (h : stop (c :: t) = false) : dropUntil stop (c :: t) = dropUntil stop t := by
  simp [dropUntil, h]

theorem captureUntil_append_of_go (stop : List Char → Bool) (x y : List Char)
    (H : ∀ x', x'.IsSuffix x → x' ≠ [] → stop (x' ++ y) = false) :
    captureUntil stop (x ++ y) = x ++ captureUntil stop y := by
  induction x with
  | nil => rfl
  | cons c t ih =>
    have h0 : stop ((c :: t) ++ y) = false := H (c :: t) (List.suffix_refl _) (by simp)
    rw [List.cons_append, captureUntil_cons_go stop c (t ++ y) h0]
    rw [ih (fun x' hx' hne => H x' (hx'.trans (List.suffix_cons c t)) hne)]
    rfl

theorem dropUntil_append_of_go (stop : List Char → Bool) (x y : List Char)
    (H : ∀ x', x'.IsSuffix x → x' ≠ [] → stop (x' ++ y) = false) :
    dropUntil stop (x ++ y) = dropUntil stop y := by
  induction x with
  | nil => rfl
  | cons c t ih =>
    have h0 : stop ((c :: t) ++ y) = false := H (c :: t) (List.suffix_refl _) (by simp)
    rw [List.cons_append, dropUntil_cons_go stop c (t ++ y) h0]
    exact ih (fun x' hx' hne => H x' (hx'.trans (List.suffix_cons c t)) hne)

/-- Like `fails_on_region`, for look-ahead predicates. -/
theorem stop_false_on_region (stop : List Char → Bool)
    (hhead : ∀ c t, ¬(c = '<') → stop (c :: t) = false) (x y : List Char)
    (Hlt : ∀ x', x'.IsSuffix x → x' ≠ [] → x'.head? = some '<' → stop (x' ++ y) = false) :
    ∀ x', x'.IsSuffix x → x' ≠ [] → stop (x' ++ y) = false := by
  intro x' hs hne
  rcases x' with _ | ⟨c, t⟩
  · cases hne rfl
  · by_cases hc : c = '<'
    · subst hc
      exact Hlt _ hs hne rfl
    · exact hhead c (t ++ y) hc

theorem stop_false_on_noLt (stop : List Char → Bool)
    (hhead : ∀ c t, ¬(c = '<') → stop (c :: t) = false) (x y : List Char) (hx : noLt x = true) :
    ∀ x', x'.IsSuffix x → x' ≠ [] → stop (x' ++ y) = false := by
  apply stop_false_on_region stop hhead
  intro x' hs hne hhd
  exfalso
  rcases x' with _ | ⟨c, t⟩
  · cases hne rfl
  · simp only [List.head?] at hhd
    cases hhd
    exact noLt_mem x hx '<' (hs.subset (by simp)) rfl

theorem isPrefixCI_forall_mem (pat : List Char) :
    ∀ s, isPrefixCI pat s = true → ∀ y ∈ pat, ∃ c ∈ s, eqCI y c = true := by
  induction pat with
  | nil => intro s _ y hy; simp at hy
  | cons p ps ih =>
    intro s h y hy
    cases s with
    | nil => simp [isPrefixCI] at h
    | cons c t =>
      simp only [isPrefixCI, Bool.and_eq_true] at h
      rcases List.mem_cons.mp hy with rfl | hy'
      · exact ⟨c, by simp, h.1⟩
      · obtain ⟨c', hc', he⟩ := ih t h.2 y hy'
        exact ⟨c', by simp [hc'], he⟩

/-! ## Anchor (head-character) failure lemmas for each matcher -/

theorem tagOpen_none_head (name : List Char) (c : Char) (t : List Char) (h : ¬(c = '<')) :
    tagOpen name (c :: t) = none := by
  unfold tagOpen
  rw [stripPrefixCI_none _ _ (isPrefixCI_cons_false_head _ _ _ _ (eqCI_lt_false c h))]

theorem tryPre_none_head (c : Char) (t : List Char) (h : ¬(c = '<')) :
    tryPre (c :: t) = none := by
  unfold tryPre
  rw [tagOpen_none_head _ _ _ h]

theorem tryCode_none_head (c : Char) (t : List Char) (h : ¬(c = '<')) :
    tryCode (c :: t) = none := by
  unfold tryCode
  rw [tagOpen_none_head _ _ _ h]

theorem tryRow_none_head (c : Char) (t : List Char) (h : ¬(c = '<')) :
    tryRow (c :: t) = none := by
  unfold tryRow
  rw [tagOpen_none_head _ _ _ h]

theorem tryCell_none_head (c : Char) (t : List Char) (h : ¬(c = '<')) :
    tryCell (c :: t) = none := by
  rcases t with _ | ⟨b, _ | ⟨d, u⟩⟩ <;> simp [tryCell, h]

theorem tryBlock_none_head (opTail closePat : List Char) (c : Char) (t : List Char)
    (h : ¬(c = '<')) : tryBlock opTail closePat (c :: t) = none :=
  tryBlock_none_of_not_prefix _ _ _ (isPrefixCI_cons_false_head _ _ _ _ (eqCI_lt_false c h))

theorem tryCloseTag_none_head (c : Char) (t : List Char) (h : ¬(c = '<')) :
    tryCloseTag (c :: t) = none := by
  rcases t with _ | ⟨b, u⟩ <;> simp [tryCloseTag, h]

theorem tryBrHr_none_head (c : Char) (t : List Char) (h : ¬(c = '<')) :
    tryBrHr (c :: t) = none := by
  rcases t with _ | ⟨b, _ | ⟨d, u⟩⟩ <;> simp [tryBrHr, h]

theorem tryTag_none_head (c : Char) (t : List Char) (h : ¬(c = '<')) :
    tryTag (c :: t) = none := by
  rcases t with _ | ⟨b, u⟩ <;> simp [tryTag, h]

theorem headOpen_none_head (c : Char) (t : List Char) (h : ¬(c = '<')) :
    headOpen (c :: t) = none := by
  rcases t with _ | ⟨b, _ | ⟨d, u⟩⟩ <;> simp [headOpen, h]

theorem headingTitled_none_head (title : List Char) (c : Char) (t : List Char)
    (h : ¬(c = '<')) : headingTitled title (c :: t) = none := by
  unfold headingTitled
  rw [headOpen_none_head _ _ h]

theorem trySection_none_head (title : List Char) (stop : List Char → Bool) (c : Char)
    (t : List Char) (h : ¬(c = '<')) : trySection title stop (c :: t) = none := by
  unfold trySection
  rw [headingTitled_none_head _ _ _ h]

theorem tryTableSection_none_head (tableType : List Char) (c : Char) (t : List Char)
    (h : ¬(c = '<')) : tryTableSection tableType (c :: t) = none := by
  unfold tryTableSection
  rw [headingTitled_none_head _ _ _ h]

theorem compHeadAt_none_head (c : Char) (t : List Char) (h : ¬(c = '<')) :
    compHeadAt (c :: t) = none := by
  unfold compHeadAt
  rw [headOpen_none_head _ _ h]

theorem tryComp_none_head (c : Char) (t : List Char) (h : ¬(c = '<')) :
    tryComp (c :: t) = none := by
  unfold tryComp
  rw [compHeadAt_none_head _ _ h]

theorem stopBrain_cons_false (c : Char) (t : List Char) (h : ¬(c = '<')) :
    stopBrain (c :: t) = false := by
  unfold stopBrain
  rw [headOpen_none_head _ _ h]
  simp

theorem stopHelm_cons_false (c : Char) (t : List Char) (h : ¬(c = '<')) :
    stopHelm (c :: t) = false := by
  unfold stopHelm
  rw [headOpen_none_head _ _ h]
  simp

theorem stopComp_cons_false (c : Char) (t : List Char) (h : ¬(c = '<')) :
    stopComp (c :: t) = false := by
  unfold stopComp
  rw [headOpen_none_head _ _ h]
  simp

theorem stopHead3_cons_false (c : Char) (t : List Char) (h : ¬(c = '<')) :
    stopHead3 (c :: t) = false := by
  rcases t with _ | ⟨b, _ | ⟨d, u⟩⟩ <;> simp [stopHead3, h]

/-! ## Composable region lemmas -/

theorem containsCIb_append_eq_noLt (pat pt : List Char) (hp : pat = '<' :: pt)
    (x y : List Char) (hx : noLt x = true) :
    containsCIb pat (x ++ y) = containsCIb pat y := by
  subst hp
  induction x with
  | nil => rfl
  | cons c t ih =>
    have hc : ¬(c = '<') := noLt_mem _ hx c (by simp)
    have ht : noLt t = true := by
      simp only [noLt, List.all_cons, Bool.and_eq_true] at hx
      exact hx.2
    rw [List.cons_append]
    simp only [containsCIb]
    rw [isPrefixCI_cons_false_head _ _ _ _ (eqCI_lt_false c hc), ih ht]
    simp

theorem fails_suffix_append {β : Type} (f : List Char → Option β) (a b : List Char)
    (Ha : ∀ a', a'.IsSuffix a → a' ≠ [] → f (a' ++ b) = none)
    (Hb : ∀ b', b'.IsSuffix b → b' ≠ [] → f b' = none) :
    ∀ t, t.IsSuffix (a ++ b) → t ≠ [] → f t = none := by
  intro t ht hne
  rcases suffix_append_cases t a b ht with h | ⟨a', hsa, hnea, rfl⟩
  · exact Hb t h hne
  · exact Ha a' hsa hnea

theorem fails_suffix_of_noLt {β : Type} (f : List Char → Option β)
    (hhead : ∀ c t, ¬(c = '<') → f (c :: t) = none) (x : List Char) (hx : noLt x = true) :
    ∀ t, t.IsSuffix x → t ≠ [] → f t = none := by
  intro t ht hne
  have h := fails_on_noLt f hhead x [] hx t ht hne
  simpa using h

theorem replaceWith_id_noLt (try? : List Char → Option (List Char × List Char))
    (hlt : ∀ s a r, try? s = some (a, r) → r.length < s.length)
    (hhead : ∀ c t, ¬(c = '<') → try? (c :: t) = none) (x : List Char) (hx : noLt x = true) :
    replaceWith try? hlt x = x :=
  replaceWith_eq_id try? hlt x (fails_suffix_of_noLt try? hhead x hx)

theorem tagOpen_exact (name Y : List Char) : tagOpen name (('<' :: name) ++ '>' :: Y) = some Y := by
  unfold tagOpen
  rw [stripPrefixCI_self_append]
  simp [dropThroughGt]

theorem sttFind_cons_go (c : Char) (t : List Char)
    (h : (c == '<' && !t.isEmpty && t.all (fun d => !(d == '>'))) = false) :
    sttFind (c :: t) = (sttFind t).map (c :: ·) := by
  simp [sttFind, h]

theorem sttFind_append_noLt (x y : List Char) (hx : noLt x = true) :
    sttFind (x ++ y) = (sttFind y).map (x ++ ·) := by
  induction x with
  | nil => simp
  | cons c t ih =>
    have hc : ¬(c = '<') := noLt_mem _ hx c (by simp)
    have ht : noLt t = true := by
      simp only [noLt, List.all_cons, Bool.and_eq_true] at hx
      exact hx.2
    rw [List.cons_append, sttFind_cons_go c (t ++ y) (by simp [hc])]
    rw [ih ht]
    rcases sttFind y with _ | u <;> simp

/-! ## Lemmas for the double-scan claim (C10) -/

theorem dropThroughGt_append_noGt (x y : List Char)
    (hx : x.all (fun c => !(c == '>')) = true) :
    dropThroughGt (x ++ ('>' :: y)) = some y := by
  induction x with
  | nil => simp [dropThroughGt]
  | cons c t ih =>
    have hc : (c == '>') = false := by
      have := List.all_eq_true.mp hx c (by simp)
      simpa using this
    have ht : t.all (fun c => !(c == '>')) = true := by
      simp only [List.all_cons, Bool.and_eq_true] at hx
      exact hx.2
    rw [List.cons_append]
    simp [dropThroughGt, hc, ih ht]

/-- A matcher failing on every non-empty tail of a concrete region, checked by
evaluation. -/
theorem fails_all_tails {β : Type} (f : List Char → Option β) (L : List Char)
    (h : L.tails.all (fun t => t.isEmpty || (f t).isNone) = true) :
    ∀ t, t.IsSuffix L → t ≠ [] → f t = none := by
  intro t ht hne
  have hm := List.all_eq_true.mp h t ((List.mem_tails _ _).mpr ht)
  rcases t with _ | ⟨c, u⟩
  · cases hne rfl
  · simpa using hm

theorem tryCloseTag_in_code_open (y : List Char) :
    ∀ t, t.IsSuffix "<code>".data → t ≠ [] → tryCloseTag (t ++ y) = none := by
  intro t ht hne
  have hm : t ∈ "<code>".data.tails := (List.mem_tails _ _).mpr ht
  rw [show "<code>".data.tails =
    ["<code>".data, "code>".data, "ode>".data, "de>".data, "e>".data, ">".data, []]
    from by decide] at hm
  simp only [List.mem_cons, List.not_mem_nil, or_false] at hm
  rcases hm with rfl | rfl | rfl | rfl | rfl | rfl | rfl
  · show tryCloseTag ('<' :: 'c' :: ('o' :: 'd' :: 'e' :: '>' :: y)) = none
    simp only [tryCloseTag]
    rw [if_neg (by decide)]
  · show tryCloseTag ('c' :: ('o' :: 'd' :: 'e' :: '>' :: y)) = none
    exact tryCloseTag_none_head _ _ (by decide)
  · show tryCloseTag ('o' :: ('d' :: 'e' :: '>' :: y)) = none
    exact tryCloseTag_none_head _ _ (by decide)
  · show tryCloseTag ('d' :: ('e' :: '>' :: y)) = none
    exact tryCloseTag_none_head _ _ (by decide)
  · show tryCloseTag ('e' :: ('>' :: y)) = none
    exact tryCloseTag_none_head _ _ (by decide)
  · show tryCloseTag ('>' :: y) = none
    exact tryCloseTag_none_head _ _ (by decide)
  · cases hne rfl

theorem tryBrHr_in_code_open (y : List Char) :
    ∀ t, t.IsSuffix "<code>".data → t ≠ [] → tryBrHr (t ++ y) = none := by
  intro t ht hne
  have hm : t ∈ "<code>".data.tails := (List.mem_tails _ _).mpr ht
  rw [show "<code>".data.tails =
    ["<code>".data, "code>".data, "ode>".data, "de>".data, "e>".data, ">".data, []]
    from by decide] at hm
  simp only [List.mem_cons, List.not_mem_nil, or_false] at hm
  rcases hm with rfl | rfl | rfl | rfl | rfl | rfl | rfl
  · show tryBrHr ('<' :: 'c' :: 'o' :: ('d' :: 'e' :: '>' :: y)) = none
    simp only [tryBrHr]
    rw [if_neg (by decide)]
  · show tryBrHr ('c' :: ('o' :: 'd' :: 'e' :: '>' :: y)) = none
    exact tryBrHr_none_head _ _ (by decide)
  · show tryBrHr ('o' :: ('d' :: 'e' :: '>' :: y)) = none
    exact tryBrHr_none_head _ _ (by decide)
  · show tryBrHr ('d' :: ('e' :: '>' :: y)) = none
    exact tryBrHr_none_head _ _ (by decide)
  · show tryBrHr ('e' :: ('>' :: y)) = none
    exact tryBrHr_none_head _ _ (by decide)
  · show tryBrHr ('>' :: y) = none
    exact tryBrHr_none_head _ _ (by decide)
  · cases hne rfl

theorem breaksClose_id_code (X : List Char) (hX : noLt X = true) :
    breaksClose ("<code>".data ++ (X ++ "</code>".data)) =
      "<code>".data ++ (X ++ "</code>".data) := by
  apply replaceWith_eq_id
  apply fails_suffix_append _ "<code>".data (X ++ "</code>".data)
  · exact tryCloseTag_in_code_open (X ++ "</code>".data)
  · apply fails_suffix_append _ X "</code>".data
    · exact fails_on_noLt _ tryCloseTag_none_head X _ hX
    · exact fails_all_tails _ _ (by decide)

theorem breaksBrHr_id_code (X : List Char) (hX : noLt X = true) :
    breaksBrHr ("<code>".data ++ (X ++ "</code>".data)) =
      "<code>".data ++ (X ++ "</code>".data) := by
  apply replaceWith_eq_id
  apply fails_suffix_append _ "<code>".data (X ++ "</code>".data)
  · exact tryBrHr_in_code_open (X ++ "</code>".data)
  · apply fails_suffix_append _ X "</code>".data
    · exact fails_on_noLt _ tryBrHr_none_head X _ hX
    · exact fails_all_tails _ _ (by decide)

theorem stripTags_code_wrap (X : List Char) (hX : noLt X = true) :
    stripTags ("<code>".data ++ (X ++ "</code>".data)) = X := by
  have htag : tryTag ('<' :: ('c' :: ("ode>".data ++ (X ++ "</code>".data)))) =
      some ([], X ++ "</code>".data) := by
    simp only [tryTag]
    rw [if_pos (by decide)]
    rw [show ('c' :: ("ode>".data ++ (X ++ "</code>".data))) =
      "code".data ++ ('>' :: (X ++ "</code>".data)) from rfl]
    rw [dropThroughGt_append_noGt _ _ (by decide)]
  show stripTags ('<' :: ('c' :: ("ode>".data ++ (X ++ "</code>".data)))) = X
  unfold stripTags
  rw [replaceWith_head_some _ _ _ _ _ _ htag]
  rw [replaceWith_append_of_fail _ _ X "</code>".data
    (fails_on_noLt _ tryTag_none_head X _ hX)]
  rw [show replaceWith tryTag tryTag_length "</code>".data = [] from rfl]
  simp

theorem containsCIb_script_code_wrap (X : List Char) (hX : noLt X = true) :
    containsCIb "<script".data ("<code>".data ++ (X ++ "</code>".data)) = false := by
  have h1 : containsCIb "<script".data (X ++ "</code>".data) =
      containsCIb "<script".data "</code>".data :=
    containsCIb_append_eq_noLt _ "script".data rfl X _ hX
  show containsCIb "<script".data
    ('<' :: ('c' :: ('o' :: ('d' :: ('e' :: ('>' :: (X ++ "</code>".data))))))) = false
  simp only [containsCIb]
  rw [h1]
  rw [show containsCIb "<script".data "</code>".data = false from by decide]
  simp [isPrefixCI, eqCI, lcn]

theorem containsCIb_style_code_wrap (X : List Char) (hX : noLt X = true) :
    containsCIb "<style".data ("<code>".data ++ (X ++ "</code>".data)) = false := by
  have h1 : containsCIb "<style".data (X ++ "</code>".data) =
      containsCIb "<style".data "</code>".data :=
    containsCIb_append_eq_noLt _ "style".data rfl X _ hX
  show containsCIb "<style".data
    ('<' :: ('c' :: ('o' :: ('d' :: ('e' :: ('>' :: (X ++ "</code>".data))))))) = false
  simp only [containsCIb]
  rw [h1]
  rw [show containsCIb "<style".data "</code>".data = false from by decide]
  simp [isPrefixCI, eqCI, lcn]

theorem htmlToText_code_wrap (X : List Char) (hX : noLt X = true) :
    htmlToText ("<code>".data ++ (X ++ "</code>".data)) = htmlToText X := by
  have hscrX : containsCIb "<script".data X = false := by
    have h := containsCIb_append_eq_noLt "<script".data "script".data rfl X [] hX
    simpa [containsCIb, isPrefixCI] using h
  have hstyX : containsCIb "<style".data X = false := by
    have h := containsCIb_append_eq_noLt "<style".data "style".data rfl X [] hX
    simpa [containsCIb, isPrefixCI] using h
  unfold htmlToText stripScripts stripStyles
  rw [replaceWith_tryBlock_id _ _ _ (containsCIb_script_code_wrap X hX)]
  rw [replaceWith_tryBlock_id _ _ _ (containsCIb_style_code_wrap X hX)]
  rw [replaceWith_tryBlock_id _ _ _ hscrX]
  rw [replaceWith_tryBlock_id _ _ _ hstyX]
  rw [breaksClose_id_code X hX, breaksBrHr_id_code X hX, stripTags_code_wrap X hX]
  rw [show breaksClose X = X from replaceWith_id_noLt _ _ tryCloseTag_none_head X hX]
  rw [show breaksBrHr X = X from replaceWith_id_noLt _ _ tryBrHr_none_head X hX]
  rw [show stripTags X = X from replaceWith_id_noLt _ _ tryTag_none_head X hX]

theorem isPrefixCI_lt_pat_stop (pt : List Char) :
    ∀ c t, ¬(c = '<') → isPrefixCI ('<' :: pt) (c :: t) = false := fun c _ hc =>
  isPrefixCI_cons_false_head _ _ _ _ (eqCI_lt_false c hc)

theorem splitAfterCI_close_pre (X : List Char) (hX : noLt X = true) :
    splitAfterCI "</code></pre>".data (X ++ "</code></pre>".data) = some (X, []) := by
  unfold splitAfterCI
  have h := splitAfterP_append_hit (isPrefixCI "</code></pre>".data)
    "</code></pre>".data.length X "</code></pre>".data
    (stop_false_on_noLt _ (isPrefixCI_lt_pat_stop "/code></pre>".data) X _ hX)
    (by simpa using isPrefixCI_refl_append "</code></pre>".data []) (by decide)
  simpa using h

theorem tryPre_wrap (X : List Char) (hX : noLt X = true) :
    tryPre ("<pre><code>".data ++ (X ++ "</code></pre>".data)) =
      some ("<pre><code>".data ++ (X ++ "</code></pre>".data), []) := by
  have h1 : tagOpen "pre".data ("<pre><code>".data ++ (X ++ "</code></pre>".data)) =
      some ("<code>".data ++ (X ++ "</code></pre>".data)) := by
    rw [show "<pre><code>".data ++ (X ++ "</code></pre>".data) =
      ('<' :: "pre".data) ++ ('>' :: ("<code>".data ++ (X ++ "</code></pre>".data))) from rfl]
    exact tagOpen_exact _ _
  have h2 : tagOpen "code".data ("<code>".data ++ (X ++ "</code></pre>".data)) =
      some (X ++ "</code></pre>".data) := by
    rw [show "<code>".data ++ (X ++ "</code></pre>".data) =
      ('<' :: "code".data) ++ ('>' :: (X ++ "</code></pre>".data)) from rfl]
    exact tagOpen_exact _ _
  unfold tryPre
  simp only [h1, h2, splitAfterCI_close_pre X hX]
  simp [List.take_length]

theorem scanPreBlocks_wrap (X : List Char) (hX : noLt X = true) :
    scanPreBlocks ("<pre><code>".data ++ (X ++ "</code></pre>".data)) =
      ["<pre><code>".data ++ (X ++ "</code></pre>".data)] := by
  show scanWith tryPre tryPre_length
    ('<' :: ("pre><code>".data ++ (X ++ "</code></pre>".data))) = _
  rw [scanWith_head_some _ _ _ _ _ _
    (show tryPre ('<' :: ("pre><code>".data ++ (X ++ "</code></pre>".data))) =
      some ("<pre><code>".data ++ (X ++ "</code></pre>".data), []) from tryPre_wrap X hX)]
  rfl

theorem tryCode_hit (X : List Char) (hX : noLt X = true) :
    tryCode ("<code>".data ++ (X ++ "</code></pre>".data)) =
      some ("<code>".data ++ (X ++ "</code>".data), "</pre>".data) := by
  have h1 : tagOpen "code".data ("<code>".data ++ (X ++ "</code></pre>".data)) =
      some (X ++ "</code></pre>".data) := by
    rw [show "<code>".data ++ (X ++ "</code></pre>".data) =
      ('<' :: "code".data) ++ ('>' :: (X ++ "</code></pre>".data)) from rfl]
    exact tagOpen_exact _ _
  have h2 : splitAfterCI "</code>".data (X ++ "</code></pre>".data) =
      some (X, "</pre>".data) := by
    unfold splitAfterCI
    rw [show "</code></pre>".data = "</code>".data ++ "</pre>".data from rfl]
    have h := splitAfterP_append_hit (isPrefixCI "</code>".data) "</code>".data.length
      X ("</code>".data ++ "</pre>".data)
      (stop_false_on_noLt _ (isPrefixCI_lt_pat_stop "/code>".data) X _ hX)
      (isPrefixCI_refl_append "</code>".data "</pre>".data) (by decide)
    rw [h]
    rw [show ("</code>".data ++ "</pre>".data).drop "</code>".data.length =
      "</pre>".data from by decide]
  have htake : ("<code>".data ++ (X ++ "</code></pre>".data)).take
      (("<code>".data ++ (X ++ "</code></pre>".data)).length - "</pre>".data.length) =
      "<code>".data ++ (X ++ "</code>".data) := by
    have he : "<code>".data ++ (X ++ "</code></pre>".data) =
        ("<code>".data ++ (X ++ "</code>".data)) ++ "</pre>".data := by
      simp
    rw [he]
    rw [show (("<code>".data ++ (X ++ "</code>".data)) ++ "</pre>".data).length -
      "</pre>".data.length = ("<code>".data ++ (X ++ "</code>".data)).length from by
        simp]
    rw [List.take_left]
  unfold tryCode
  simp only [h1, h2]
  rw [htake]

theorem scanCodeBlocks_wrap (X : List Char) (hX : noLt X = true) :
    scanCodeBlocks ("<pre><code>".data ++ (X ++ "</code></pre>".data)) =
      ["<code>".data ++ (X ++ "</code>".data)] := by
  have h0 : tryCode ('<' :: ("pre><code>".data ++ (X ++ "</code></pre>".data))) = none := by
    have hpre : isPrefixCI "<code".data
        ('<' :: ("pre><code>".data ++ (X ++ "</code></pre>".data))) = false := by
      show isPrefixCI "<code".data
        ('<' :: ('p' :: ("re><code>".data ++ (X ++ "</code></pre>".data)))) = false
      simp [isPrefixCI, eqCI, lcn]
    unfold tryCode tagOpen
    rw [stripPrefixCI_none _ _ hpre]
  show scanWith tryCode tryCode_length
    ('<' :: ("pre><code>".data ++ (X ++ "</code></pre>".data))) = _
  rw [scanWith_head_none _ _ _ _ h0]
  rw [show "pre><code>".data ++ (X ++ "</code></pre>".data) =
    "pre>".data ++ ("<code>".data ++ (X ++ "</code></pre>".data)) from rfl]
  rw [scanWith_append_of_fail _ _ "pre>".data _
    (fails_on_noLt _ tryCode_none_head "pre>".data _ (by decide))]
  rw [show "<code>".data ++ (X ++ "</code></pre>".data) =
    '<' :: ("code>".data ++ (X ++ "</code></pre>".data)) from rfl]
  rw [scanWith_head_some _ _ _ _ _ _
    (show tryCode ('<' :: ("code>".data ++ (X ++ "</code></pre>".data))) =
      some ("<code>".data ++ (X ++ "</code>".data), "</pre>".data) from tryCode_hit X hX)]
  rw [show scanWith tryCode tryCode_length "</pre>".data = [] from rfl]

theorem stripLeadingTag_pre (X : List Char) :
    stripLeadingTag ("<pre><code>".data ++ (X ++ "</code></pre>".data)) =
      "<code>".data ++ (X ++ "</code></pre>".data) := by
  show stripLeadingTag
    ('<' :: ('p' :: ("re><code>".data ++ (X ++ "</code></pre>".data)))) = _
  simp only [stripLeadingTag]
  rw [if_pos (by decide)]
  rw [show ('p' :: ("re><code>".data ++ (X ++ "</code></pre>".data))) =
    "pre".data ++ ('>' :: ("<code>".data ++ (X ++ "</code></pre>".data))) from rfl]
  rw [dropThroughGt_append_noGt _ _ (by decide)]

theorem stripTrailingTag_append_gt (u v : List Char) (h : sttFind u = some v) :
    stripTrailingTag (u ++ ['>']) = v := by
  unfold stripTrailingTag
  rw [show (u ++ ['>']).reverse = '>' :: u.reverse from by simp]
  simp [List.reverse_reverse, h]

theorem stripTrailingTag_pre (X : List Char) (hX : noLt X = true) :
    stripTrailingTag ("<code>".data ++ (X ++ "</code></pre>".data)) =
      "<code>".data ++ (X ++ "</code>".data) := by
  have he : "<code>".data ++ (X ++ "</code></pre>".data) =
      ("<code>".data ++ (X ++ "</code></pre".data)) ++ ['>'] := by simp
  have hstt : sttFind ("<code>".data ++ (X ++ "</code></pre".data)) =
      some ("<code>".data ++ (X ++ "</code>".data)) := by
    show sttFind ('<' :: ("code>".data ++ (X ++ "</code></pre".data))) = _
    have hall : ("code>".data ++ (X ++ "</code></pre".data)).all
        (fun d => !(d == '>')) = false := by
      rw [List.all_append]
      rw [show "code>".data.all (fun d => !(d == '>')) = false from by decide]
      simp
    rw [sttFind_cons_go _ _ (by simp [hall])]
    rw [sttFind_append_noLt "code>".data _ (by decide)]
    rw [sttFind_append_noLt X _ hX]
    rw [show sttFind "</code></pre".data = some "</code>".data from by decide]
    simp
  rw [he, stripTrailingTag_append_gt _ _ hstt]

theorem stripLeadingTag_code (X : List Char) :
    stripLeadingTag ("<code>".data ++ (X ++ "</code>".data)) = X ++ "</code>".data := by
  show stripLeadingTag ('<' :: ('c' :: ("ode>".data ++ (X ++ "</code>".data)))) = _
  simp only [stripLeadingTag]
  rw [if_pos (by decide)]
  rw [show ('c' :: ("ode>".data ++ (X ++ "</code>".data))) =
    "code".data ++ ('>' :: (X ++ "</code>".data)) from rfl]
  rw [dropThroughGt_append_noGt _ _ (by decide)]

theorem stripTrailingTag_code (X : List Char) (hX : noLt X = true) :
    stripTrailingTag (X ++ "</code>".data) = X := by
  have he : X ++ "</code>".data = (X ++ "</code".data) ++ ['>'] := by simp
  have hstt : sttFind (X ++ "</code".data) = some X := by
    rw [sttFind_append_noLt X _ hX]
    rw [show sttFind "</code".data = some [] from by decide]
    simp
  rw [he, stripTrailingTag_append_gt _ _ hstt]

theorem codeOfMatch_pre (X : List Char) (hX : noLt X = true) :
    codeOfMatch ("<pre><code>".data ++ (X ++ "</code></pre>".data)) = htmlToText X := by
  unfold codeOfMatch
  rw [stripLeadingTag_pre X, stripTrailingTag_pre X hX, htmlToText_code_wrap X hX]

theorem codeOfMatch_code (X : List Char) (hX : noLt X = true) :
    codeOfMatch ("<code>".data ++ (X ++ "</code>".data)) = htmlToText X := by
  unfold codeOfMatch
  rw [stripLeadingTag_code X, stripTrailingTag_code X hX]

theorem extractCodeBlocks_wrap (X : List Char) (hX : noLt X = true)
    (h3 : 2 < countNonBlank (htmlToText X)) :
    extractCodeBlocks ("<pre><code>".data ++ (X ++ "</code></pre>".data)) =
      [htmlToText X, htmlToText X] := by
  have hpP : pushMatch ("<pre><code>".data ++ (X ++ "</code></pre>".data)) =
      some (htmlToText X) := by
    rw [pushMatch_eq, codeOfMatch_pre X hX, if_pos h3]
  have hpC : pushMatch ("<code>".data ++ (X ++ "</code>".data)) =
      some (htmlToText X) := by
    rw [pushMatch_eq, codeOfMatch_code X hX, if_pos h3]
  unfold extractCodeBlocks
  rw [scanPreBlocks_wrap X hX, scanCodeBlocks_wrap X hX]
  rw [List.singleton_append, List.filterMap_cons_some hpP,
    List.filterMap_cons_some hpC, List.filterMap_nil]

/-- **C10.** The second scanning pass of `extractCodeBlocks` (matching every
`<code>…</code>` element) re-matches the `<code>` element already captured by
the first `<pre><code>…</code></pre>` pass: a pre-wrapped code block whose
plain text survives the length filter appears twice in the returned list, and
`extractAPIInfo`'s examples list then carries the same code twice under the
titles "Example 1" and "Example 2". -/
theorem claim_C10_pre_code_double_scan (X : List Char) (hX : noLt X = true)
    (h3 : 2 < countNonBlank (htmlToText X)) :
    extractCodeBlocks ("<pre><code>".data ++ (X ++ "</code></pre>".data)) =
      [htmlToText X, htmlToText X] ∧
    (extractAPIInfo ("<pre><code>".data ++ (X ++ "</code></pre>".data))).examples =
      [⟨"Example 1".data, htmlToText X, detectLanguage (htmlToText X)⟩,
       ⟨"Example 2".data, htmlToText X, detectLanguage (htmlToText X)⟩] := by
  have he := extractCodeBlocks_wrap X hX h3
  refine ⟨he, ?_⟩
  show mkExamples (extractCodeBlocks _) = _
  rw [he]
  unfold mkExamples
  simp [List.enum, List.enumFrom]
  exact ⟨by decide, by decide⟩

theorem claim_C10_witness :
    extractCodeBlocks ("<pre><code>".data ++ ("a\nb\nc".data ++ "</code></pre>".data)) =
      [htmlToText "a\nb\nc".data, htmlToText "a\nb\nc".data] ∧
    (extractAPIInfo ("<pre><code>".data ++ ("a\nb\nc".data ++ "</code></pre>".data))).examples =
      [⟨"Example 1".data, htmlToText "a\nb\nc".data, detectLanguage (htmlToText "a\nb\nc".data)⟩,
       ⟨"Example 2".data, htmlToText "a\nb\nc".data, detectLanguage (htmlToText "a\nb\nc".data)⟩] :=
  claim_C10_pre_code_double_scan "a\nb\nc".data (by decide) (by decide)

/-! ## Lemmas for the Brain-API table claim (C1) -/

/-- A case-insensitive mismatch of `pat` against `t` strictly inside `t`:
certifies that `pat` is not a CI-prefix of `t ++ y` for any `y`. -/
def prefMismatch : List Char → List Char → Bool
  | _, [] => false
  | [], _ :: _ => false
  | p :: ps, c :: cs => !(eqCI p c) || prefMismatch ps cs

theorem isPrefixCI_false_of_prefMismatch (pat t y : List Char)
    (h : prefMismatch pat t = true) : isPrefixCI pat (t ++ y) = false := by
  induction pat generalizing t with
  | nil =>
    rcases t with _ | ⟨c, cs⟩ <;> simp [prefMismatch] at h
  | cons p ps ih =>
    rcases t with _ | ⟨c, cs⟩
    · simp [prefMismatch] at h
    · simp only [prefMismatch, Bool.or_eq_true] at h
      rw [List.cons_append]
      simp only [isPrefixCI]
      rcases h with h | h
      · rw [show eqCI p c = false from by simpa using h]
        simp
      · rw [ih cs h]
        simp

/-- Certifies that the heading opener `<h[1-6][^>]*>` cannot match at the
start of `t ++ y` for any `y`: a mismatch of `<h[1-6]` within `t`. -/
def headOpenSafe : List Char → Bool
  | [] => false
  | [c] => !(c == '<')
  | [c, b] => !(c == '<') || !(eqCI 'h' b)
  | c :: b :: d :: _ => !(c == '<') || !(eqCI 'h' b) || !('1' ≤ d && d ≤ '6')

theorem headOpen_none_of_safe (t y : List Char) (h : headOpenSafe t = true) :
    headOpen (t ++ y) = none := by
  rcases t with _ | ⟨c, _ | ⟨b, _ | ⟨d, u⟩⟩⟩
  · simp [headOpenSafe] at h
  · have hc : (c == '<') = false := by simpa [headOpenSafe] using h
    rcases y with _ | ⟨y1, _ | ⟨y2, ys⟩⟩ <;> simp [headOpen, hc]
  · have hcb : (c == '<' && eqCI 'h' b) = false := by
      simp only [headOpenSafe] at h
      cases hcc : (c == '<') <;> cases hbb : eqCI 'h' b <;> simp_all
    rcases y with _ | ⟨y1, ys⟩
    · simp [headOpen]
    · simp [headOpen, hcb]
  · have hcbd : ((c == '<' && eqCI 'h' b) && ('1' ≤ d && d ≤ '6')) = false := by
      simp only [headOpenSafe] at h
      cases hcc : (c == '<') <;> cases hbb : eqCI 'h' b <;>
        cases hdd : ('1' ≤ d && d ≤ '6') <;> simp_all
    simp [headOpen, hcbd]

theorem stopBrain_false_of_safe (t y : List Char) (hne : t ≠ [])
    (h : headOpenSafe t = true) : stopBrain (t ++ y) = false := by
  unfold stopBrain
  rw [headOpen_none_of_safe t y h]
  rcases t with _ | ⟨c, u⟩
  · cases hne rfl
  · simp

theorem stopComp_false_of_safe (t y : List Char) (hne : t ≠ [])
    (h : headOpenSafe t = true) : stopComp (t ++ y) = false := by
  unfold stopComp
  rw [headOpen_none_of_safe t y h]
  rcases t with _ | ⟨c, u⟩
  · cases hne rfl
  · simp

theorem stopHead3_false_of_safe (t y : List Char) (hne : t ≠ [])
    (h : headOpenSafe t = true) : stopHead3 (t ++ y) = false := by
  rcases t with _ | ⟨c, _ | ⟨b, _ | ⟨d, u⟩⟩⟩
  · cases hne rfl
  · have hc : (c == '<') = false := by simpa [headOpenSafe] using h
    rcases y with _ | ⟨y1, _ | ⟨y2, ys⟩⟩ <;> simp [stopHead3, hc]
  · have hcb : (c == '<' && eqCI 'h' b) = false := by
      simp only [headOpenSafe] at h
      cases hcc : (c == '<') <;> cases hbb : eqCI 'h' b <;> simp_all
    rcases y with _ | ⟨y1, ys⟩
    · simp [stopHead3]
    · simp [stopHead3, hcb]
  · have hcbd : ((c == '<' && eqCI 'h' b) && ('1' ≤ d && d ≤ '6')) = false := by
      simp only [headOpenSafe] at h
      cases hcc : (c == '<') <;> cases hbb : eqCI 'h' b <;>
        cases hdd : ('1' ≤ d && d ≤ '6') <;> simp_all
    simp [stopHead3, hcbd]

theorem trySection_none_of_safe (title : List Char) (stop : List Char → Bool)
    (t y : List Char) (h : headOpenSafe t = true) :
    trySection title stop (t ++ y) = none := by
  unfold trySection headingTitled
  rw [headOpen_none_of_safe t y h]

theorem tryTableSection_none_of_safe (tableType t y : List Char)
    (h : headOpenSafe t = true) : tryTableSection tableType (t ++ y) = none := by
  unfold tryTableSection headingTitled
  rw [headOpen_none_of_safe t y h]

theorem tagOpen_none_of_prefMismatch (nameTail t y : List Char)
    (h : prefMismatch ('<' :: nameTail) t = true) : tagOpen nameTail (t ++ y) = none := by
  unfold tagOpen
  rw [stripPrefixCI_none _ _ (isPrefixCI_false_of_prefMismatch _ _ _ h)]

theorem tryRow_none_of_prefMismatch (t y : List Char)
    (h : prefMismatch ('<' :: "tr".data) t = true) : tryRow (t ++ y) = none := by
  unfold tryRow
  rw [tagOpen_none_of_prefMismatch _ _ _ h]

theorem tryPre_none_of_prefMismatch (t y : List Char)
    (h : prefMismatch ('<' :: "pre".data) t = true) : tryPre (t ++ y) = none := by
  unfold tryPre
  rw [tagOpen_none_of_prefMismatch _ _ _ h]

theorem tryCode_none_of_prefMismatch (t y : List Char)
    (h : prefMismatch ('<' :: "code".data) t = true) : tryCode (t ++ y) = none := by
  unfold tryCode
  rw [tagOpen_none_of_prefMismatch _ _ _ h]

theorem isTdThClose_false_head (c : Char) (t : List Char) (h : ¬(c = '<')) :
    isTdThClose (c :: t) = false := by
  rcases t with _ | ⟨b, _ | ⟨d, _ | ⟨e, _ | ⟨f, u⟩⟩⟩⟩ <;> simp [isTdThClose, h]

theorem bool_false_suffix_append (stop : List Char → Bool) (a b y : List Char)
    (Ha : ∀ t, t.IsSuffix a → t ≠ [] → stop (t ++ (b ++ y)) = false)
    (Hb : ∀ t, t.IsSuffix b → t ≠ [] → stop (t ++ y) = false) :
    ∀ t, t.IsSuffix (a ++ b) → t ≠ [] → stop (t ++ y) = false := by
  intro t ht hne
  rcases suffix_append_cases t a b ht with h | ⟨a', hsa, hnea, rfl⟩
  · exact Hb t h hne
  · rw [List.append_assoc]
    exact Ha a' hsa hnea

theorem opt_none_suffix_append {β : Type} (f : List Char → Option β) (a b y : List Char)
    (Ha : ∀ t, t.IsSuffix a → t ≠ [] → f (t ++ (b ++ y)) = none)
    (Hb : ∀ t, t.IsSuffix b → t ≠ [] → f (t ++ y) = none) :
    ∀ t, t.IsSuffix (a ++ b) → t ≠ [] → f (t ++ y) = none := by
  intro t ht hne
  rcases suffix_append_cases t a b ht with h | ⟨a', hsa, hnea, rfl⟩
  · exact Hb t h hne
  · rw [List.append_assoc]
    exact Ha a' hsa hnea

theorem bool_false_tails_cert (stop : List Char → Bool) (safe : List Char → Bool)
    (hsafe : ∀ t y, t ≠ [] → safe t = true → stop (t ++ y) = false) (L y : List Char)
    (hL : L.tails.all (fun t => t.isEmpty || safe t) = true) :
    ∀ t, t.IsSuffix L → t ≠ [] → stop (t ++ y) = false := by
  intro t ht hne
  have hm := List.all_eq_true.mp hL t ((List.mem_tails _ _).mpr ht)
  rcases t with _ | ⟨c, u⟩
  · cases hne rfl
  · simp only [List.isEmpty_cons, Bool.false_or] at hm
    exact hsafe _ y (by simp) hm

theorem bool_false_tails_cert_or (stop : List Char → Bool) (safe : List Char → Bool)
    (hsafe : ∀ t y, t ≠ [] → safe t = true → stop (t ++ y) = false) (L D y : List Char)
    (hD : stop (D ++ y) = false)
    (hL : L.tails.all (fun t => t.isEmpty || safe t || t == D) = true) :
    ∀ t, t.IsSuffix L → t ≠ [] → stop (t ++ y) = false := by
  intro t ht hne
  have hm := List.all_eq_true.mp hL t ((List.mem_tails _ _).mpr ht)
  rcases t with _ | ⟨c, u⟩
  · cases hne rfl
  · simp only [List.isEmpty_cons, Bool.false_or, Bool.or_eq_true] at hm
    rcases hm with hm | hm
    · exact hsafe _ y (by simp) hm
    · rw [show (c :: u) = D from by simpa using hm]
      exact hD

theorem opt_none_tails_cert {β : Type} (f : List Char → Option β) (safe : List Char → Bool)
    (hsafe : ∀ t y, t ≠ [] → safe t = true → f (t ++ y) = none) (L y : List Char)
    (hL : L.tails.all (fun t => t.isEmpty || safe t) = true) :
    ∀ t, t.IsSuffix L → t ≠ [] → f (t ++ y) = none := by
  intro t ht hne
  have hm := List.all_eq_true.mp hL t ((List.mem_tails _ _).mpr ht)
  rcases t with _ | ⟨c, u⟩
  · cases hne rfl
  · simp only [List.isEmpty_cons, Bool.false_or] at hm
    exact hsafe _ y (by simp) hm

theorem opt_none_tails_cert_or {β : Type} (f : List Char → Option β) (safe : List Char → Bool)
    (hsafe : ∀ t y, t ≠ [] → safe t = true → f (t ++ y) = none) (L D y : List Char)
    (hD : f (D ++ y) = none)
    (hL : L.tails.all (fun t => t.isEmpty || safe t || t == D) = true) :
    ∀ t, t.IsSuffix L → t ≠ [] → f (t ++ y) = none := by
  intro t ht hne
  have hm := List.all_eq_true.mp hL t ((List.mem_tails _ _).mpr ht)
  rcases t with _ | ⟨c, u⟩
  · cases hne rfl
  · simp only [List.isEmpty_cons, Bool.false_or, Bool.or_eq_true] at hm
    rcases hm with hm | hm
    · exact hsafe _ y (by simp) hm
    · rw [show (c :: u) = D from by simpa using hm]
      exact hD

theorem captureUntil_eq_self (stop : List Char → Bool) (s : List Char)
    (H : ∀ t, t.IsSuffix s → t ≠ [] → stop t = false) : captureUntil stop s = s := by
  have h := captureUntil_append_of_go stop s []
    (fun t ht hne => by simpa using H t ht hne)
  simpa [captureUntil] using h

theorem dropUntil_eq_nil (stop : List Char → Bool) (s : List Char)
    (H : ∀ t, t.IsSuffix s → t ≠ [] → stop t = false) : dropUntil stop s = [] := by
  have h := dropUntil_append_of_go stop s []
    (fun t ht hne => by simpa using H t ht hne)
  simpa [dropUntil] using h

theorem splitAfterCI_refl (p0 : Char) (pt z : List Char) :
    splitAfterCI (p0 :: pt) ((p0 :: pt) ++ z) = some ([], z) := by
  unfold splitAfterCI
  rw [show ((p0 :: pt) ++ z) = p0 :: (pt ++ z) from rfl]
  simp only [splitAfterP]
  rw [if_pos (by
    rw [show (p0 :: (pt ++ z)) = (p0 :: pt) ++ z from rfl]
    exact isPrefixCI_refl_append _ _)]
  rw [show (p0 :: (pt ++ z)) = (p0 :: pt) ++ z from rfl]
  rw [show (p0 :: pt).length = (p0 :: pt).length from rfl, List.drop_left]

theorem takeWhile_append_stop (p : Char → Bool) (x y : List Char) (hx : x.all p = true)
    (hy : ∀ c, y.head? = some c → p c = false) : (x ++ y).takeWhile p = x := by
  induction x with
  | nil =>
    cases y with
    | nil => rfl
    | cons c t => simp [List.takeWhile_cons, hy c rfl]
  | cons c t ih =>
    have hc : p c = true := List.all_eq_true.mp hx c (by simp)
    have ht : t.all p = true := by
      simp only [List.all_cons, Bool.and_eq_true] at hx
      exact hx.2
    simp [List.takeWhile_cons, hc, ih ht]

theorem dropWhile_append_stop (p : Char → Bool) (x y : List Char) (hx : x.all p = true)
    (hy : ∀ c, y.head? = some c → p c = false) : (x ++ y).dropWhile p = y := by
  induction x with
  | nil =>
    cases y with
    | nil => rfl
    | cons c t => simp [List.dropWhile_cons, hy c rfl]
  | cons c t ih =>
    have hc : p c = true := List.all_eq_true.mp hx c (by simp)
    have ht : t.all p = true := by
      simp only [List.all_cons, Bool.and_eq_true] at hx
      exact hx.2
    simp [List.dropWhile_cons, hc, ih ht]

theorem noLt_of_wordChars (w : List Char) (h : w.all isWordChar = true) : noLt w = true := by
  simp only [noLt, List.all_eq_true]
  intro c hc
  have h2 := List.all_eq_true.mp h c hc
  simp only [Bool.not_eq_true']
  by_contra hne
  rw [Bool.not_eq_false, beq_iff_eq] at hne
  subst hne
  simp [isWordChar, Char.isAlpha, Char.isUpper, Char.isLower, Char.isDigit] at h2

theorem trySel_none_of_no_colon (s : List Char) (h : ∀ c ∈ s, ¬(c = ':')) :
    ∀ t, t.IsSuffix s → trySel t = none := by
  intro t ht
  unfold trySel
  rcases hp : stripPrefixCI "Selector:".data t with _ | r
  · rfl
  · exfalso
    have hpre : isPrefixCI "Selector:".data t = true := by
      unfold stripPrefixCI at hp
      split at hp
      · assumption
      · cases hp
    obtain ⟨c, hcm, hce⟩ := isPrefixCI_forall_mem "Selector:".data t hpre ':' (by decide)
    have hc : c = ':' := eqCI_anchor ':' (by decide) (by decide) c hce
    exact h c (ht.subset hcm) hc

/-- The table-cell region of the C1 page: the four data cells and closers. -/
def c1chain (a b c d : List Char) : List Char :=
  a ++ ("</td><td>".data ++ (b ++ ("</td><td>".data ++
    (c ++ ("</td><td>".data ++ (d ++ "</td></tr></table>".data))))))

/-- The table of the C1 page: one empty header row, one 4-cell data row. -/
def c1tbl (a b c d : List Char) : List Char :=
  "<table><tr></tr><tr><td>".data ++ c1chain a b c d

/-- The component content of the C1 page: an Inputs heading plus the table. -/
def c1rest2 (a b c d : List Char) : List Char :=
  "<h4>Inputs</h4><table><tr></tr><tr><td>".data ++ c1chain a b c d

/-- The Brain-API section of the C1 page: one `Brn`-component heading plus its
content. -/
def c1sec (w a b c d : List Char) : List Char :=
  "<h3>Brn".data ++ (w ++ ("</h3>".data ++ c1rest2 a b c d))

/-- The C1 page: a "Brain API" section with exactly one component heading
`Brn‹w›` followed by an Inputs table with one header row and one data row of
four cells `a`, `b`, `c`, `d`. -/
def c1page (w a b c d : List Char) : List Char :=
  "<h2>Brain API</h2>".data ++ c1sec w a b c d

/-- The content of the data row of the C1 page. -/
def c1row (a b c d : List Char) : List Char :=
  "<td>".data ++ (a ++ ("</td><td>".data ++ (b ++ ("</td><td>".data ++
    (c ++ ("</td><td>".data ++ (d ++ "</td>".data)))))))

theorem headOpen_at (N : Char) (T z : List Char) (hN : (N == '>') = false)
    (hd : ('1' ≤ N && N ≤ '6') = true) :
    headOpen (('<' :: 'h' :: N :: '>' :: T) ++ z) = some (T ++ z) := by
  rw [show (('<' :: 'h' :: N :: '>' :: T) ++ z) = '<' :: 'h' :: N :: '>' :: (T ++ z) from rfl]
  simp only [headOpen]
  rw [if_pos (by simp [eqCI, lcn, hd])]
  simp [dropThroughGt, hN]

theorem stopBrain_false_at_heading (N : Char) (T z : List Char)
    (hN : (N == '>') = false) (hd : ('1' ≤ N && N ≤ '6') = true)
    (h1 : prefMismatch "Helm API".data T = true)
    (h2 : prefMismatch "On this page".data T = true) (hT : T ≠ []) :
    stopBrain (('<' :: 'h' :: N :: '>' :: T) ++ z) = false := by
  unfold stopBrain
  simp only [headOpen_at N T z hN hd]
  rw [isPrefixCI_false_of_prefMismatch _ _ _ h1, isPrefixCI_false_of_prefMismatch _ _ _ h2]
  rcases T with _ | ⟨c, u⟩
  · cases hT rfl
  · simp

theorem stopComp_false_at_heading (N : Char) (T z : List Char)
    (hN : (N == '>') = false) (hd : ('1' ≤ N && N ≤ '6') = true)
    (h1 : prefMismatch "Brn".data T = true)
    (h2 : prefMismatch "Hlm".data T = true) :
    stopComp (('<' :: 'h' :: N :: '>' :: T) ++ z) = false := by
  unfold stopComp
  simp only [headOpen_at N T z hN hd]
  unfold compNameCloseAt
  rw [isPrefixCI_false_of_prefMismatch _ _ _ h1, isPrefixCI_false_of_prefMismatch _ _ _ h2]
  simp

theorem trySection_none_at_heading (title : List Char) (stop : List Char → Bool)
    (N : Char) (T z : List Char) (hN : (N == '>') = false)
    (hd : ('1' ≤ N && N ≤ '6') = true) (hmis : prefMismatch title T = true) :
    trySection title stop (('<' :: 'h' :: N :: '>' :: T) ++ z) = none := by
  unfold trySection headingTitled
  simp only [headOpen_at N T z hN hd]
  rw [stripPrefixCI_none _ _ (isPrefixCI_false_of_prefMismatch title T z hmis)]

theorem tryTableSection_none_at_heading (tableType : List Char)
    (N : Char) (T z : List Char) (hN : (N == '>') = false)
    (hd : ('1' ≤ N && N ≤ '6') = true) (hmis : prefMismatch tableType T = true) :
    tryTableSection tableType (('<' :: 'h' :: N :: '>' :: T) ++ z) = none := by
  unfold tryTableSection headingTitled
  simp only [headOpen_at N T z hN hd]
  rw [stripPrefixCI_none _ _ (isPrefixCI_false_of_prefMismatch tableType T z hmis)]

theorem c1_chain_walk_bool (stop : List Char → Bool)
    (hanchor : ∀ c t, ¬(c = '<') → stop (c :: t) = false)
    (safe : List Char → Bool)
    (hsafe : ∀ t y, t ≠ [] → safe t = true → stop (t ++ y) = false)
    (hseg1 : "</td><td>".data.tails.all (fun t => t.isEmpty || safe t) = true)
    (hseg2 : "</td></tr></table>".data.tails.all (fun t => t.isEmpty || safe t) = true)
    (a b c d : List Char) (hna : noLt a = true) (hnb : noLt b = true)
    (hnc : noLt c = true) (hnd : noLt d = true) (y : List Char) :
    ∀ t, t.IsSuffix (c1chain a b c d) → t ≠ [] → stop (t ++ y) = false := by
  intro t ht hne
  rw [show c1chain a b c d = a ++ ("</td><td>".data ++ (b ++ ("</td><td>".data ++
    (c ++ ("</td><td>".data ++ (d ++ "</td></tr></table>".data)))))) from rfl] at ht
  refine bool_false_suffix_append stop a _ y ?_ ?_ t ht hne
  · exact stop_false_on_noLt stop hanchor a _ hna
  · refine bool_false_suffix_append stop _ _ y ?_ ?_
    · exact bool_false_tails_cert stop safe hsafe _ _ hseg1
    · refine bool_false_suffix_append stop b _ y ?_ ?_
      · exact stop_false_on_noLt stop hanchor b _ hnb
      · refine bool_false_suffix_append stop _ _ y ?_ ?_
        · exact bool_false_tails_cert stop safe hsafe _ _ hseg1
        · refine bool_false_suffix_append stop c _ y ?_ ?_
          · exact stop_false_on_noLt stop hanchor c _ hnc
          · refine bool_false_suffix_append stop _ _ y ?_ ?_
            · exact bool_false_tails_cert stop safe hsafe _ _ hseg1
            · refine bool_false_suffix_append stop d _ y ?_ ?_
              · exact stop_false_on_noLt stop hanchor d _ hnd
              · exact bool_false_tails_cert stop safe hsafe _ _ hseg2

theorem c1_chain_walk_opt {β : Type} (f : List Char → Option β)
    (hanchor : ∀ c t, ¬(c = '<') → f (c :: t) = none)
    (safe : List Char → Bool)
    (hsafe : ∀ t y, t ≠ [] → safe t = true → f (t ++ y) = none)
    (hseg1 : "</td><td>".data.tails.all (fun t => t.isEmpty || safe t) = true)
    (hseg2 : "</td></tr></table>".data.tails.all (fun t => t.isEmpty || safe t) = true)
    (a b c d : List Char) (hna : noLt a = true) (hnb : noLt b = true)
    (hnc : noLt c = true) (hnd : noLt d = true) (y : List Char) :
    ∀ t, t.IsSuffix (c1chain a b c d) → t ≠ [] → f (t ++ y) = none := by
  intro t ht hne
  rw [show c1chain a b c d = a ++ ("</td><td>".data ++ (b ++ ("</td><td>".data ++
    (c ++ ("</td><td>".data ++ (d ++ "</td></tr></table>".data)))))) from rfl] at ht
  refine opt_none_suffix_append f a _ y ?_ ?_ t ht hne
  · exact fails_on_noLt f hanchor a _ hna
  · refine opt_none_suffix_append f _ _ y ?_ ?_
    · exact opt_none_tails_cert f safe hsafe _ _ hseg1
    · refine opt_none_suffix_append f b _ y ?_ ?_
      · exact fails_on_noLt f hanchor b _ hnb
      · refine opt_none_suffix_append f _ _ y ?_ ?_
        · exact opt_none_tails_cert f safe hsafe _ _ hseg1
        · refine opt_none_suffix_append f c _ y ?_ ?_
          · exact fails_on_noLt f hanchor c _ hnc
          · refine opt_none_suffix_append f _ _ y ?_ ?_
            · exact opt_none_tails_cert f safe hsafe _ _ hseg1
            · refine opt_none_suffix_append f d _ y ?_ ?_
              · exact fails_on_noLt f hanchor d _ hnd
              · exact opt_none_tails_cert f safe hsafe _ _ hseg2

theorem c1_stopBrain_sec (w a b c d : List Char) (hw : w.all isWordChar = true)
    (hna : noLt a = true) (hnb : noLt b = true) (hnc : noLt c = true)
    (hnd : noLt d = true) (y : List Char) :
    ∀ t, t.IsSuffix (c1sec w a b c d) → t ≠ [] → stopBrain (t ++ y) = false := by
  intro t ht hne
  rw [show c1sec w a b c d = "<h3>Brn".data ++ (w ++ ("</h3>".data ++
    ("<h4>Inputs</h4><table><tr></tr><tr><td>".data ++ c1chain a b c d))) from rfl] at ht
  refine bool_false_suffix_append stopBrain _ _ y ?_ ?_ t ht hne
  · refine bool_false_tails_cert_or stopBrain headOpenSafe stopBrain_false_of_safe
      _ "<h3>Brn".data _ ?_ (by decide)
    exact stopBrain_false_at_heading '3' "Brn".data _ (by decide) (by decide)
      (by decide) (by decide) (by decide)
  · refine bool_false_suffix_append stopBrain w _ y ?_ ?_
    · exact stop_false_on_noLt stopBrain stopBrain_cons_false w _ (noLt_of_wordChars w hw)
    · refine bool_false_suffix_append stopBrain "</h3>".data _ y ?_ ?_
      · exact bool_false_tails_cert stopBrain headOpenSafe stopBrain_false_of_safe
          _ _ (by decide)
      · refine bool_false_suffix_append stopBrain
          "<h4>Inputs</h4><table><tr></tr><tr><td>".data _ y ?_ ?_
        · refine bool_false_tails_cert_or stopBrain headOpenSafe stopBrain_false_of_safe
            _ "<h4>Inputs</h4><table><tr></tr><tr><td>".data _ ?_ (by decide)
          exact stopBrain_false_at_heading '4' "Inputs</h4><table><tr></tr><tr><td>".data _
            (by decide) (by decide) (by decide) (by decide) (by decide)
        · exact c1_chain_walk_bool stopBrain stopBrain_cons_false headOpenSafe
            stopBrain_false_of_safe (by decide) (by decide) a b c d hna hnb hnc hnd _

theorem c1_stopComp_rest2 (a b c d : List Char)
    (hna : noLt a = true) (hnb : noLt b = true) (hnc : noLt c = true)
    (hnd : noLt d = true) (y : List Char) :
    ∀ t, t.IsSuffix (c1rest2 a b c d) → t ≠ [] → stopComp (t ++ y) = false := by
  intro t ht hne
  rw [show c1rest2 a b c d = "<h4>Inputs</h4><table><tr></tr><tr><td>".data ++
    c1chain a b c d from rfl] at ht
  refine bool_false_suffix_append stopComp _ _ y ?_ ?_ t ht hne
  · refine bool_false_tails_cert_or stopComp headOpenSafe stopComp_false_of_safe
      _ "<h4>Inputs</h4><table><tr></tr><tr><td>".data _ ?_ (by decide)
    exact stopComp_false_at_heading '4' "Inputs</h4><table><tr></tr><tr><td>".data _
      (by decide) (by decide) (by decide) (by decide)
  · exact c1_chain_walk_bool stopComp stopComp_cons_false headOpenSafe
      stopComp_false_of_safe (by decide) (by decide) a b c d hna hnb hnc hnd _

theorem c1_stopHead3_tbl (a b c d : List Char)
    (hna : noLt a = true) (hnb : noLt b = true) (hnc : noLt c = true)
    (hnd : noLt d = true) (y : List Char) :
    ∀ t, t.IsSuffix (c1tbl a b c d) → t ≠ [] → stopHead3 (t ++ y) = false := by
  intro t ht hne
  rw [show c1tbl a b c d = "<table><tr></tr><tr><td>".data ++ c1chain a b c d from rfl] at ht
  refine bool_false_suffix_append stopHead3 _ _ y ?_ ?_ t ht hne
  · exact bool_false_tails_cert stopHead3 headOpenSafe stopHead3_false_of_safe _ _ (by decide)
  · exact c1_chain_walk_bool stopHead3 stopHead3_cons_false headOpenSafe
      stopHead3_false_of_safe (by decide) (by decide) a b c d hna hnb hnc hnd _

theorem c1_row_no_tr (a b c d : List Char)
    (hna : noLt a = true) (hnb : noLt b = true) (hnc : noLt c = true)
    (hnd : noLt d = true) (y : List Char) :
    ∀ t, t.IsSuffix (c1row a b c d) → t ≠ [] →
      isPrefixCI "</tr>".data (t ++ y) = false := by
  intro t ht hne
  rw [show c1row a b c d = "<td>".data ++ (a ++ ("</td><td>".data ++ (b ++
    ("</td><td>".data ++ (c ++ ("</td><td>".data ++ (d ++ "</td>".data))))))) from rfl] at ht
  have hsafe : ∀ t y, t ≠ [] → prefMismatch "</tr>".data t = true →
      isPrefixCI "</tr>".data (t ++ y) = false :=
    fun t y _ h => isPrefixCI_false_of_prefMismatch _ t y h
  have hanchor : ∀ c t, ¬(c = '<') → isPrefixCI "</tr>".data (c :: t) = false :=
    isPrefixCI_lt_pat_stop "/tr>".data
  refine bool_false_suffix_append _ _ _ y ?_ ?_ t ht hne
  · exact bool_false_tails_cert _ (prefMismatch "</tr>".data) hsafe _ _ (by decide)
  · refine bool_false_suffix_append _ a _ y ?_ ?_
    · exact stop_false_on_noLt _ hanchor a _ hna
    · refine bool_false_suffix_append _ _ _ y ?_ ?_
      · exact bool_false_tails_cert _ (prefMismatch "</tr>".data) hsafe _ _ (by decide)
      · refine bool_false_suffix_append _ b _ y ?_ ?_
        · exact stop_false_on_noLt _ hanchor b _ hnb
        · refine bool_false_suffix_append _ _ _ y ?_ ?_
          · exact bool_false_tails_cert _ (prefMismatch "</tr>".data) hsafe _ _ (by decide)
          · refine bool_false_suffix_append _ c _ y ?_ ?_
            · exact stop_false_on_noLt _ hanchor c _ hnc
            · refine bool_false_suffix_append _ _ _ y ?_ ?_
              · exact bool_false_tails_cert _ (prefMismatch "</tr>".data) hsafe _ _ (by decide)
              · refine bool_false_suffix_append _ d _ y ?_ ?_
                · exact stop_false_on_noLt _ hanchor d _ hnd
                · exact bool_false_tails_cert _ (prefMismatch "</tr>".data) hsafe _ _ (by decide)

theorem c1_outputs_walk (a b c d : List Char)
    (hna : noLt a = true) (hnb : noLt b = true) (hnc : noLt c = true)
    (hnd : noLt d = true) (y : List Char) :
    ∀ t, t.IsSuffix (c1rest2 a b c d) → t ≠ [] →
      tryTableSection "Outputs".data (t ++ y) = none := by
  intro t ht hne
  rw [show c1rest2 a b c d = "<h4>Inputs</h4><table><tr></tr><tr><td>".data ++
    c1chain a b c d from rfl] at ht
  have hsafe : ∀ t y, t ≠ [] → headOpenSafe t = true →
      tryTableSection "Outputs".data (t ++ y) = none :=
    fun t y _ h => tryTableSection_none_of_safe _ t y h
  refine opt_none_suffix_append _ _ _ y ?_ ?_ t ht hne
  · refine opt_none_tails_cert_or _ headOpenSafe hsafe
      _ "<h4>Inputs</h4><table><tr></tr><tr><td>".data _ ?_ (by decide)
    exact tryTableSection_none_at_heading "Outputs".data '4'
      "Inputs</h4><table><tr></tr><tr><td>".data _ (by decide) (by decide) (by decide)
  · exact c1_chain_walk_opt _ (tryTableSection_none_head "Outputs".data) headOpenSafe
      hsafe (by decide) (by decide) a b c d hna hnb hnc hnd _

theorem c1_helm_walk (w a b c d : List Char) (hw : w.all isWordChar = true)
    (hna : noLt a = true) (hnb : noLt b = true) (hnc : noLt c = true)
    (hnd : noLt d = true) (y : List Char) :
    ∀ t, t.IsSuffix (c1page w a b c d) → t ≠ [] →
      trySection "Helm API".data stopHelm (t ++ y) = none := by
  intro t ht hne
  rw [show c1page w a b c d = "<h2>Brain API</h2>".data ++ ("<h3>Brn".data ++ (w ++
    ("</h3>".data ++ ("<h4>Inputs</h4><table><tr></tr><tr><td>".data ++
      c1chain a b c d)))) from rfl] at ht
  have hsafe : ∀ t y, t ≠ [] → headOpenSafe t = true →
      trySection "Helm API".data stopHelm (t ++ y) = none :=
    fun t y _ h => trySection_none_of_safe _ _ t y h
  refine opt_none_suffix_append _ _ _ y ?_ ?_ t ht hne
  · refine opt_none_tails_cert_or _ headOpenSafe hsafe
      _ "<h2>Brain API</h2>".data _ ?_ (by decide)
    exact trySection_none_at_heading "Helm API".data stopHelm '2'
      "Brain API</h2>".data _ (by decide) (by decide) (by decide)
  · refine opt_none_suffix_append _ _ _ y ?_ ?_
    · refine opt_none_tails_cert_or _ headOpenSafe hsafe _ "<h3>Brn".data _ ?_ (by decide)
      exact trySection_none_at_heading "Helm API".data stopHelm '3'
        "Brn".data _ (by decide) (by decide) (by decide)
    · refine opt_none_suffix_append _ w _ y ?_ ?_
      · exact fails_on_noLt _ (trySection_none_head _ _) w _ (noLt_of_wordChars w hw)
      · refine opt_none_suffix_append _ "</h3>".data _ y ?_ ?_
        · exact opt_none_tails_cert _ headOpenSafe hsafe _ _ (by decide)
        · refine opt_none_suffix_append _
            "<h4>Inputs</h4><table><tr></tr><tr><td>".data _ y ?_ ?_
          · refine opt_none_tails_cert_or _ headOpenSafe hsafe
              _ "<h4>Inputs</h4><table><tr></tr><tr><td>".data _ ?_ (by decide)
            exact trySection_none_at_heading "Helm API".data stopHelm '4'
              "Inputs</h4><table><tr></tr><tr><td>".data _ (by decide) (by decide) (by decide)
          · exact c1_chain_walk_opt _ (trySection_none_head _ _) headOpenSafe hsafe
              (by decide) (by decide) a b c d hna hnb hnc hnd _

theorem c1_pre_walk (w a b c d : List Char) (hw : w.all isWordChar = true)
    (hna : noLt a = true) (hnb : noLt b = true) (hnc : noLt c = true)
    (hnd : noLt d = true) (y : List Char) :
    ∀ t, t.IsSuffix (c1page w a b c d) → t ≠ [] → tryPre (t ++ y) = none := by
  intro t ht hne
  rw [show c1page w a b c d = "<h2>Brain API</h2>".data ++ ("<h3>Brn".data ++ (w ++
    ("</h3>".data ++ ("<h4>Inputs</h4><table><tr></tr><tr><td>".data ++
      c1chain a b c d)))) from rfl] at ht
  have hsafe : ∀ t y, t ≠ [] → prefMismatch ('<' :: "pre".data) t = true →
      tryPre (t ++ y) = none :=
    fun t y _ h => tryPre_none_of_prefMismatch t y h
  refine opt_none_suffix_append _ _ _ y ?_ ?_ t ht hne
  · exact opt_none_tails_cert _ (prefMismatch ('<' :: "pre".data)) hsafe _ _ (by decide)
  · refine opt_none_suffix_append _ _ _ y ?_ ?_
    · exact opt_none_tails_cert _ (prefMismatch ('<' :: "pre".data)) hsafe _ _ (by decide)
    · refine opt_none_suffix_append _ w _ y ?_ ?_
      · exact fails_on_noLt _ tryPre_none_head w _ (noLt_of_wordChars w hw)
      · refine opt_none_suffix_append _ "</h3>".data _ y ?_ ?_
        · exact opt_none_tails_cert _ (prefMismatch ('<' :: "pre".data)) hsafe _ _ (by decide)
        · refine opt_none_suffix_append _
            "<h4>Inputs</h4><table><tr></tr><tr><td>".data _ y ?_ ?_
          · exact opt_none_tails_cert _ (prefMismatch ('<' :: "pre".data)) hsafe _ _
              (by decide)
          · exact c1_chain_walk_opt _ tryPre_none_head
              (prefMismatch ('<' :: "pre".data)) hsafe (by decide) (by decide)
              a b c d hna hnb hnc hnd _

theorem c1_code_walk (w a b c d : List Char) (hw : w.all isWordChar = true)
    (hna : noLt a = true) (hnb : noLt b = true) (hnc : noLt c = true)
    (hnd : noLt d = true) (y : List Char) :
    ∀ t, t.IsSuffix (c1page w a b c d) → t ≠ [] → tryCode (t ++ y) = none := by
  intro t ht hne
  rw [show c1page w a b c d = "<h2>Brain API</h2>".data ++ ("<h3>Brn".data ++ (w ++
    ("</h3>".data ++ ("<h4>Inputs</h4><table><tr></tr><tr><td>".data ++
      c1chain a b c d)))) from rfl] at ht
  have hsafe : ∀ t y, t ≠ [] → prefMismatch ('<' :: "code".data) t = true →
      tryCode (t ++ y) = none :=
    fun t y _ h => tryCode_none_of_prefMismatch t y h
  refine opt_none_suffix_append _ _ _ y ?_ ?_ t ht hne
  · exact opt_none_tails_cert _ (prefMismatch ('<' :: "code".data)) hsafe _ _ (by decide)
  · refine opt_none_suffix_append _ _ _ y ?_ ?_
    · exact opt_none_tails_cert _ (prefMismatch ('<' :: "code".data)) hsafe _ _ (by decide)
    · refine opt_none_suffix_append _ w _ y ?_ ?_
      · exact fails_on_noLt _ tryCode_none_head w _ (noLt_of_wordChars w hw)
      · refine opt_none_suffix_append _ "</h3>".data _ y ?_ ?_
        · exact opt_none_tails_cert _ (prefMismatch ('<' :: "code".data)) hsafe _ _
            (by decide)
        · refine opt_none_suffix_append _
            "<h4>Inputs</h4><table><tr></tr><tr><td>".data _ y ?_ ?_
          · exact opt_none_tails_cert _ (prefMismatch ('<' :: "code".data)) hsafe _ _
              (by decide)
          · exact c1_chain_walk_opt _ tryCode_none_head
              (prefMismatch ('<' :: "code".data)) hsafe (by decide) (by decide)
              a b c d hna hnb hnc hnd _

theorem no_colon_mem (s : List Char) (h : noColon s = true) : ∀ c ∈ s, ¬(c = ':') := by
  intro c hc
  have h2 := List.all_eq_true.mp h c hc
  simpa using h2

theorem no_colon_append (x y : List Char) (hx : ∀ c ∈ x, ¬(c = ':'))
    (hy : ∀ c ∈ y, ¬(c = ':')) : ∀ c ∈ x ++ y, ¬(c = ':') := by
  intro c hc
  rcases List.mem_append.mp hc with h | h
  · exact hx c h
  · exact hy c h

theorem c1_no_colon_rest2 (a b c d : List Char)
    (hca : noColon a = true) (hcb : noColon b = true) (hcc : noColon c = true)
    (hcd : noColon d = true) : ∀ ch ∈ c1rest2 a b c d, ¬(ch = ':') := by
  rw [show c1rest2 a b c d = "<h4>Inputs</h4><table><tr></tr><tr><td>".data ++
    (a ++ ("</td><td>".data ++ (b ++ ("</td><td>".data ++ (c ++ ("</td><td>".data ++
      (d ++ "</td></tr></table>".data))))))) from rfl]
  refine no_colon_append _ _ (no_colon_mem _ (by decide)) ?_
  refine no_colon_append _ _ (no_colon_mem _ hca) ?_
  refine no_colon_append _ _ (no_colon_mem _ (by decide)) ?_
  refine no_colon_append _ _ (no_colon_mem _ hcb) ?_
  refine no_colon_append _ _ (no_colon_mem _ (by decide)) ?_
  refine no_colon_append _ _ (no_colon_mem _ hcc) ?_
  refine no_colon_append _ _ (no_colon_mem _ (by decide)) ?_
  exact no_colon_append _ _ (no_colon_mem _ hcd) (no_colon_mem _ (by decide))

theorem tryCell_td (x Z : List Char) (hx : noLt x = true) :
    tryCell ("<td>".data ++ (x ++ ("</td>".data ++ Z))) = some (x, Z) := by
  show tryCell ('<' :: 't' :: 'd' :: ('>' :: (x ++ ("</td>".data ++ Z)))) = _
  simp only [tryCell]
  rw [if_pos (by decide)]
  rw [show dropThroughGt ('>' :: (x ++ ("</td>".data ++ Z))) =
    some (x ++ ("</td>".data ++ Z)) from by simp [dropThroughGt]]
  have hTd : isTdThClose ("</td>".data ++ Z) = true := by
    show isTdThClose ('<' :: '/' :: 't' :: 'd' :: '>' :: Z) = true
    simp [isTdThClose, eqCI, lcn]
  have hsp : splitAfterP isTdThClose 5 (x ++ ("</td>".data ++ Z)) = some (x, Z) := by
    have h := splitAfterP_append_hit isTdThClose 5 x ("</td>".data ++ Z)
      (stop_false_on_noLt isTdThClose isTdThClose_false_head x _ hx) hTd (by simp)
    rw [h]
    rw [show ("</td>".data ++ Z).drop 5 = Z from by
      rw [show (5 : Nat) = "</td>".data.length from rfl, List.drop_left]]
  simp only [hsp]

theorem scanCell_step (x Z : List Char) (hx : noLt x = true) :
    scanWith tryCell tryCell_length ("<td>".data ++ (x ++ ("</td>".data ++ Z))) =
      x :: scanWith tryCell tryCell_length Z := by
  rw [show ("<td>".data ++ (x ++ ("</td>".data ++ Z))) =
    '<' :: ("td>".data ++ (x ++ ("</td>".data ++ Z))) from rfl]
  exact scanWith_head_some _ _ _ _ _ _ (tryCell_td x Z hx)

theorem c1_rowCells (a b c d : List Char)
    (hna : noLt a = true) (hnb : noLt b = true) (hnc : noLt c = true)
    (hnd : noLt d = true) :
    rowCells (c1row a b c d) = [cellText a, cellText b, cellText c, cellText d] := by
  unfold rowCells
  rw [show c1row a b c d = "<td>".data ++ (a ++ ("</td>".data ++ ("<td>".data ++ (b ++
    ("</td>".data ++ ("<td>".data ++ (c ++ ("</td>".data ++ ("<td>".data ++ (d ++
      ("</td>".data ++ ([] : List Char)))))))))))) from by simp [c1row]]
  rw [scanCell_step a _ hna, scanCell_step b _ hnb, scanCell_step c _ hnc,
    scanCell_step d _ hnd]
  rfl

theorem tryRow_hit (x Z : List Char)
    (Hx : ∀ t, t.IsSuffix x → t ≠ [] →
      isPrefixCI "</tr>".data (t ++ ("</tr>".data ++ Z)) = false) :
    tryRow ("<tr>".data ++ (x ++ ("</tr>".data ++ Z))) = some (x, Z) := by
  unfold tryRow
  rw [show "<tr>".data ++ (x ++ ("</tr>".data ++ Z)) =
    ('<' :: "tr".data) ++ ('>' :: (x ++ ("</tr>".data ++ Z))) from rfl]
  rw [tagOpen_exact]
  have hsp : splitAfterCI "</tr>".data (x ++ ("</tr>".data ++ Z)) = some (x, Z) := by
    unfold splitAfterCI
    have h := splitAfterP_append_hit (isPrefixCI "</tr>".data) "</tr>".data.length
      x ("</tr>".data ++ Z) Hx (isPrefixCI_refl_append "</tr>".data Z) (by simp)
    rw [h]
    rw [show ("</tr>".data ++ Z).drop "</tr>".data.length = Z from List.drop_left _ _]
  simp only [hsp]

theorem c1_rows (a b c d : List Char)
    (hna : noLt a = true) (hnb : noLt b = true) (hnc : noLt c = true)
    (hnd : noLt d = true) :
    scanWith tryRow tryRow_length (c1tbl a b c d) = [[], c1row a b c d] := by
  have he : c1tbl a b c d = "<table>".data ++ ("<tr>".data ++ (([] : List Char) ++
      ("</tr>".data ++ ("<tr>".data ++ (c1row a b c d ++
        ("</tr>".data ++ "</table>".data)))))) := by
    simp [c1tbl, c1chain, c1row]
  rw [he]
  have Htable := opt_none_tails_cert tryRow (prefMismatch ('<' :: "tr".data))
    (fun t y _ h => tryRow_none_of_prefMismatch t y h) "<table>".data
    ("<tr>".data ++ (([] : List Char) ++ ("</tr>".data ++ ("<tr>".data ++
      (c1row a b c d ++ ("</tr>".data ++ "</table>".data)))))) (by decide)
  rw [scanWith_append_of_fail _ _ "<table>".data _ Htable]
  have hhit1 : tryRow ('<' :: ("tr>".data ++ (([] : List Char) ++ ("</tr>".data ++
      ("<tr>".data ++ (c1row a b c d ++ ("</tr>".data ++ "</table>".data))))))) =
      some ([], "<tr>".data ++ (c1row a b c d ++ ("</tr>".data ++ "</table>".data))) :=
    tryRow_hit [] _ (fun t ht hne => absurd (List.suffix_nil.mp ht) hne)
  rw [show ("<tr>".data ++ (([] : List Char) ++ ("</tr>".data ++ ("<tr>".data ++
    (c1row a b c d ++ ("</tr>".data ++ "</table>".data)))))) =
    '<' :: ("tr>".data ++ (([] : List Char) ++ ("</tr>".data ++ ("<tr>".data ++
      (c1row a b c d ++ ("</tr>".data ++ "</table>".data)))))) from rfl]
  rw [scanWith_head_some _ _ _ _ _ _ hhit1]
  have hhit2 : tryRow ('<' :: ("tr>".data ++ (c1row a b c d ++
      ("</tr>".data ++ "</table>".data)))) = some (c1row a b c d, "</table>".data) :=
    tryRow_hit (c1row a b c d) "</table>".data
      (fun t ht hne => c1_row_no_tr a b c d hna hnb hnc hnd _ t ht hne)
  rw [show ("<tr>".data ++ (c1row a b c d ++ ("</tr>".data ++ "</table>".data))) =
    '<' :: ("tr>".data ++ (c1row a b c d ++ ("</tr>".data ++ "</table>".data))) from rfl]
  rw [scanWith_head_some _ _ _ _ _ _ hhit2]
  rw [show scanWith tryRow tryRow_length "</table>".data = [] from rfl]

theorem c1_compHeadAt (w a b c d : List Char) (hw : w.all isWordChar = true)
    (hwne : w ≠ []) :
    compHeadAt (c1sec w a b c d) = some ("Brn".data ++ w, c1rest2 a b c d) := by
  unfold compHeadAt
  have hOpen : headOpen (c1sec w a b c d) =
      some ("Brn".data ++ (w ++ ("</h3>".data ++ c1rest2 a b c d))) :=
    headOpen_at '3' "Brn".data (w ++ ("</h3>".data ++ c1rest2 a b c d))
      (by decide) (by decide)
  simp only [hOpen]
  rw [if_pos (by
    rw [Bool.or_eq_true]
    exact Or.inl (isPrefixCI_refl_append "Brn".data _))]
  rw [show ("Brn".data ++ (w ++ ("</h3>".data ++ c1rest2 a b c d))).drop 3 =
    w ++ ("</h3>".data ++ c1rest2 a b c d) from by
      rw [show (3 : Nat) = "Brn".data.length from rfl, List.drop_left]]
  have hy : ∀ ch, ("</h3>".data ++ c1rest2 a b c d).head? = some ch →
      isWordChar ch = false := by
    intro ch hc
    have h2 : '<' = ch := Option.some.inj (show some '<' = some ch from hc)
    subst h2
    decide
  rw [takeWhile_append_stop isWordChar w _ hw hy]
  rw [dropWhile_append_stop isWordChar w _ hw hy]
  rw [if_neg (by
    rcases w with _ | ⟨cw, tw⟩
    · cases hwne rfl
    · simp)]
  have hClose : headClose ("</h3>".data ++ c1rest2 a b c d) = some (c1rest2 a b c d) := by
    show headClose ('<' :: '/' :: 'h' :: '3' :: '>' :: c1rest2 a b c d) = _
    simp only [headClose]
    rw [if_pos (by decide)]
  simp only [hClose]
  rw [show ("Brn".data ++ (w ++ ("</h3>".data ++ c1rest2 a b c d))).take 3 =
    "Brn".data from by
      rw [show (3 : Nat) = "Brn".data.length from rfl, List.take_left]]

theorem c1_tryComp (w a b c d : List Char) (hw : w.all isWordChar = true) (hwne : w ≠ [])
    (hna : noLt a = true) (hnb : noLt b = true) (hnc : noLt c = true)
    (hnd : noLt d = true) :
    tryComp (c1sec w a b c d) = some (("Brn".data ++ w, c1rest2 a b c d), []) := by
  unfold tryComp
  simp only [c1_compHeadAt w a b c d hw hwne]
  rw [captureUntil_eq_self stopComp _ (fun t ht hne => by
    simpa using c1_stopComp_rest2 a b c d hna hnb hnc hnd [] t ht hne)]
  rw [dropUntil_eq_nil stopComp _ (fun t ht hne => by
    simpa using c1_stopComp_rest2 a b c d hna hnb hnc hnd [] t ht hne)]

theorem c1_brain_hit (w a b c d : List Char) (hw : w.all isWordChar = true)
    (hna : noLt a = true) (hnb : noLt b = true) (hnc : noLt c = true)
    (hnd : noLt d = true) :
    trySection "Brain API".data stopBrain (c1page w a b c d) =
      some (c1sec w a b c d) := by
  unfold trySection headingTitled
  have hOpen : headOpen (c1page w a b c d) =
      some ("Brain API".data ++ ("</h2>".data ++ c1sec w a b c d)) :=
    headOpen_at '2' "Brain API</h2>".data (c1sec w a b c d) (by decide) (by decide)
  simp only [hOpen, stripPrefixCI_self_append]
  have hClose : headClose ("</h2>".data ++ c1sec w a b c d) = some (c1sec w a b c d) := by
    show headClose ('<' :: '/' :: 'h' :: '2' :: '>' :: c1sec w a b c d) = _
    simp only [headClose]
    rw [if_pos (by decide)]
  simp only [hClose]
  rw [captureUntil_eq_self stopBrain _ (fun t ht hne => by
    simpa using c1_stopBrain_sec w a b c d hw hna hnb hnc hnd [] t ht hne)]

theorem c1_tableSection_inputs (a b c d : List Char)
    (hna : noLt a = true) (hnb : noLt b = true) (hnc : noLt c = true)
    (hnd : noLt d = true) :
    tryTableSection "Inputs".data (c1rest2 a b c d) = some (c1tbl a b c d) := by
  unfold tryTableSection headingTitled
  have hOpen : headOpen (c1rest2 a b c d) =
      some ("Inputs".data ++ ("</h4>".data ++ c1tbl a b c d)) :=
    headOpen_at '4' "Inputs</h4><table><tr></tr><tr><td>".data (c1chain a b c d)
      (by decide) (by decide)
  simp only [hOpen, stripPrefixCI_self_append]
  have hClose : headClose ("</h4>".data ++ c1tbl a b c d) = some (c1tbl a b c d) := by
    show headClose ('<' :: '/' :: 'h' :: '4' :: '>' :: c1tbl a b c d) = _
    simp only [headClose]
    rw [if_pos (by decide)]
  simp only [hClose]
  rw [captureUntil_eq_self stopHead3 _ (fun t ht hne => by
    simpa using c1_stopHead3_tbl a b c d hna hnb hnc hnd [] t ht hne)]

theorem c1_selector (a b c d : List Char)
    (hca : noColon a = true) (hcb : noColon b = true) (hcc : noColon c = true)
    (hcd : noColon d = true) : selectorOf (c1rest2 a b c d) = [] := by
  unfold selectorOf
  rw [findWith_eq_none _ _
    (trySel_none_of_no_colon _ (c1_no_colon_rest2 a b c d hca hcb hcc hcd))]

theorem c1_extractOutputProps (a b c d : List Char)
    (hna : noLt a = true) (hnb : noLt b = true) (hnc : noLt c = true)
    (hnd : noLt d = true) : extractOutputProps (c1rest2 a b c d) = [] := by
  unfold extractOutputProps
  rw [findWith_eq_none _ _ (fun t ht => by
    rcases t with _ | ⟨ch, tt⟩
    · rfl
    · simpa using c1_outputs_walk a b c d hna hnb hnc hnd [] (ch :: tt) ht (by simp))]

theorem c1_extractInputProps (a b c d : List Char)
    (hna : noLt a = true) (hnb : noLt b = true) (hnc : noLt c = true)
    (hnd : noLt d = true) :
    extractInputProps (c1rest2 a b c d) =
      [⟨cellText a, cellText b, cellText c, cellText d⟩] := by
  unfold extractInputProps
  have hFind : findWith (tryTableSection "Inputs".data) (c1rest2 a b c d) =
      some (c1tbl a b c d) := by
    rw [show c1rest2 a b c d =
      '<' :: ("h4>Inputs</h4><table><tr></tr><tr><td>".data ++ c1chain a b c d) from rfl]
    exact findWith_head_some _ _ _ _ (c1_tableSection_inputs a b c d hna hnb hnc hnd)
  simp only [hFind]
  rw [c1_rows a b c d hna hnb hnc hnd]
  unfold inputRowsOf
  simp only [List.drop_succ_cons, List.drop_zero, List.filterMap_cons, List.filterMap_nil]
  rw [c1_rowCells a b c d hna hnb hnc hnd]
  simp [List.getD]

theorem c1_helm_none (w a b c d : List Char) (hw : w.all isWordChar = true)
    (hna : noLt a = true) (hnb : noLt b = true) (hnc : noLt c = true)
    (hnd : noLt d = true) :
    findSection "Helm API".data stopHelm (c1page w a b c d) = none := by
  unfold findSection
  rw [findWith_eq_none _ _ (fun t ht => by
    rcases t with _ | ⟨ch, tt⟩
    · rfl
    · simpa using c1_helm_walk w a b c d hw hna hnb hnc hnd [] (ch :: tt) ht (by simp))]

theorem c1_codeblocks (w a b c d : List Char) (hw : w.all isWordChar = true)
    (hna : noLt a = true) (hnb : noLt b = true) (hnc : noLt c = true)
    (hnd : noLt d = true) : extractCodeBlocks (c1page w a b c d) = [] := by
  unfold extractCodeBlocks scanPreBlocks scanCodeBlocks
  rw [scanWith_eq_nil _ _ _ (fun t ht hne => by
    simpa using c1_pre_walk w a b c d hw hna hnb hnc hnd [] t ht hne)]
  rw [scanWith_eq_nil _ _ _ (fun t ht hne => by
    simpa using c1_code_walk w a b c d hw hna hnb hnc hnd [] t ht hne)]
  rfl

theorem c1_brain_section (w a b c d : List Char) (hw : w.all isWordChar = true)
    (hna : noLt a = true) (hnb : noLt b = true) (hnc : noLt c = true)
    (hnd : noLt d = true) :
    findSection "Brain API".data stopBrain (c1page w a b c d) =
      some (c1sec w a b c d) := by
  unfold findSection
  rw [show c1page w a b c d =
    '<' :: ("h2>Brain API</h2>".data ++ c1sec w a b c d) from rfl]
  exact findWith_head_some _ _ _ _ (c1_brain_hit w a b c d hw hna hnb hnc hnd)

theorem c1_brainAPI (w a b c d : List Char) (hw : w.all isWordChar = true)
    (hwne : w ≠ [])
    (hna : noLt a = true) (hnb : noLt b = true) (hnc : noLt c = true)
    (hnd : noLt d = true)
    (hca : noColon a = true) (hcb : noColon b = true) (hcc : noColon c = true)
    (hcd : noColon d = true) :
    extractAPIComponents (c1sec w a b c d) =
      [⟨"Brn".data ++ w, [],
        [⟨cellText a, cellText b, cellText c, cellText d⟩], []⟩] := by
  unfold extractAPIComponents
  have hscan : scanWith tryComp tryComp_length (c1sec w a b c d) =
      [("Brn".data ++ w, c1rest2 a b c d)] := by
    rw [show c1sec w a b c d =
      '<' :: ("h3>Brn".data ++ (w ++ ("</h3>".data ++ c1rest2 a b c d))) from rfl]
    have hh : tryComp ('<' :: ("h3>Brn".data ++ (w ++ ("</h3>".data ++
        c1rest2 a b c d)))) = some (("Brn".data ++ w, c1rest2 a b c d), []) :=
      c1_tryComp w a b c d hw hwne hna hnb hnc hnd
    rw [scanWith_head_some _ _ _ _ _ _ hh]
    rfl
  rw [hscan]
  unfold mkComp
  simp only [List.map_cons, List.map_nil]
  rw [c1_selector a b c d hca hcb hcc hcd,
    c1_extractInputProps a b c d hna hnb hnc hnd,
    c1_extractOutputProps a b c d hna hnb hnc hnd]

/-- **C1.** On a page whose "Brain API" section holds exactly one component
heading `Brn‹w›` followed by an Inputs table with one header row and one
4-cell data row, `extractAPIInfo` returns exactly one `brainAPI` record with
exactly one input whose prop/type/default/description are the plain-text
contents of the four cells; in general the row loop skips the first row as
the header whatever it contains, skips rows with fewer than 3 cell texts, and
a missing 4th cell yields an empty description. -/
theorem claim_C1_brain_inputs_table (w a b c d : List Char)
    (hw : w.all isWordChar = true) (hwne : w ≠ [])
    (hna : noLt a = true) (hnb : noLt b = true) (hnc : noLt c = true)
    (hnd : noLt d = true)
    (hca : noColon a = true) (hcb : noColon b = true) (hcc : noColon c = true)
    (hcd : noColon d = true)
    (hdr hdr2 row row2 : List Char) (rows : List (List Char))
    (hrow3 : (rowCells row).length = 3) (hlt2 : (rowCells row2).length < 3) :
    extractAPIInfo (c1page w a b c d) =
      ⟨[⟨"Brn".data ++ w, [],
        [⟨cellText a, cellText b, cellText c, cellText d⟩], []⟩], [], []⟩ ∧
    inputRowsOf (hdr :: rows) = inputRowsOf (hdr2 :: rows) ∧
    inputRowsOf (hdr :: row2 :: rows) = inputRowsOf (hdr :: rows) ∧
    inputRowsOf [hdr, row] =
      [⟨(rowCells row).getD 0 [], (rowCells row).getD 1 [],
        (rowCells row).getD 2 [], []⟩] := by
  refine ⟨?_, ?_, ?_, ?_⟩
  · unfold extractAPIInfo
    simp only [c1_brain_section w a b c d hw hna hnb hnc hnd,
      c1_helm_none w a b c d hw hna hnb hnc hnd,
      c1_codeblocks w a b c d hw hna hnb hnc hnd,
      c1_brainAPI w a b c d hw hwne hna hnb hnc hnd hca hcb hcc hcd]
    rfl
  · unfold inputRowsOf
    rfl
  · unfold inputRowsOf
    simp only [List.drop_succ_cons, List.drop_zero]
    exact List.filterMap_cons_none (by
      show (if 3 ≤ (rowCells row2).length then
        some (⟨(rowCells row2).getD 0 [], (rowCells row2).getD 1 [],
          (rowCells row2).getD 2 [], (rowCells row2).getD 3 []⟩ : InputRow)
        else none) = none
      rw [if_neg (by omega)])
  · unfold inputRowsOf
    simp only [List.drop_succ_cons, List.drop_zero, List.filterMap_cons,
      List.filterMap_nil]
    have hd4 : (rowCells row).getD 3 [] = [] := List.getD_eq_default _ _ (by omega)
    rw [if_pos (by omega), hd4]

theorem claim_C1_witness :
    extractAPIInfo (c1page "Alert".data "pa".data "pb".data "pc".data "pd".data) =
      ⟨[⟨"Brn".data ++ "Alert".data, [],
        [⟨cellText "pa".data, cellText "pb".data, cellText "pc".data,
          cellText "pd".data⟩], []⟩], [], []⟩ ∧
    inputRowsOf ("h".data :: []) = inputRowsOf ("<td>x</td>".data :: []) ∧
    inputRowsOf ("h".data :: "<td>1</td>".data :: []) = inputRowsOf ("h".data :: []) ∧
    inputRowsOf ["h".data, "<td>1</td><td>2</td><td>3</td>".data] =
      [⟨(rowCells "<td>1</td><td>2</td><td>3</td>".data).getD 0 [],
        (rowCells "<td>1</td><td>2</td><td>3</td>".data).getD 1 [],
        (rowCells "<td>1</td><td>2</td><td>3</td>".data).getD 2 [], []⟩] :=
  claim_C1_brain_inputs_table "Alert".data "pa".data "pb".data "pc".data "pd".data
    (by decide) (by decide) (by decide) (by decide) (by decide) (by decide)
    (by decide) (by decide) (by decide) (by decide)
    "h".data "<td>x</td>".data "<td>1</td><td>2</td><td>3</td>".data
    "<td>1</td>".data [] (by decide) (by decide)

/-! ## Concrete instances of the hypothesis-bearing claims -/

theorem claim_C2_witness :
    extractAPIInfo "<p>hello</p>".data =
      ⟨[], [], mkExamples (extractCodeBlocks "<p>hello</p>".data)⟩ :=
  claim_C2_no_sections_empty "<p>hello</p>".data (by decide) (by decide)

theorem claim_C3_witness :
    getComponent
      (setComponent ⟨"1.0", ⟨"1.0", 0, 0, [], []⟩⟩ ([] : Disk) "btn"
        [("full", .str "X")] 5).1
      (setComponent ⟨"1.0", ⟨"1.0", 0, 0, [], []⟩⟩ ([] : Disk) "btn"
        [("full", .str "X")] 5).2
      "btn" 24 5 =
      ⟨some (.str "X"), true, false, some (.num 5), "1.0"⟩ :=
  claim_C3_set_get_roundtrip ⟨"1.0", ⟨"1.0", 0, 0, [], []⟩⟩ ([] : Disk) "btn"
    [("full", .str "X")] 5 24 (.str "X") rfl rfl (by decide)

theorem claim_C5_witness :
    (fetchContent (fun _ => .ok "B".data) ([] : FetchCache) "u" .html false 300000 0).1 =
      .ok "B".data ∧
    (fetchContent (fun _ => .ok "B".data) ([] : FetchCache) "u" .html false 300000 0).2.2 =
      1 ∧
    (fetchContent (fun _ => .ok "B".data)
        (fetchContent (fun _ => .ok "B".data) ([] : FetchCache) "u" .html false 300000 0).2.1
        "u" .html false 300000 1).1 = .ok "B".data ∧
    (fetchContent (fun _ => .ok "B".data)
        (fetchContent (fun _ => .ok "B".data) ([] : FetchCache) "u" .html false 300000 0).2.1
        "u" .html false 300000 1).2.2 = 0 ∧
    (fetchContent (fun _ => .ok "B".data) ([] : FetchCache) "u" .html false 300000 0).2.2 +
      (fetchContent (fun _ => .ok "B".data)
        (fetchContent (fun _ => .ok "B".data) ([] : FetchCache) "u" .html false 300000 0).2.1
        "u" .html false 300000 1).2.2 = 1 :=
  claim_C5_fetch_cache_single_get (fun _ => .ok "B".data) ([] : FetchCache) "u"
    "B".data 0 1 300000 rfl rfl (by decide)

theorem claim_C6_witness :
    ((warmCache
        (fun u => if u = componentUrl "a" then .ok "H".data else .error "boom")
        ⟨"1.0", ⟨"1.0", 0, 0, [], []⟩⟩ ([] : Disk) ["a", "b"] false 7).1.components =
        ⟨2, 1, 1, [("b", "boom")]⟩ ∧
     (∃ fields, fsRead (warmCache
        (fun u => if u = componentUrl "a" then .ok "H".data else .error "boom")
        ⟨"1.0", ⟨"1.0", 0, 0, [], []⟩⟩ ([] : Disk) ["a", "b"] false 7).2.2.1
        (CPath.component "1.0" "a") = some (.obj fields) ∧
        olook fields "cachedAt" = some (.num 7)) ∧
     (warmCache
        (fun u => if u = componentUrl "a" then .ok "H".data else .error "boom")
        ⟨"1.0", ⟨"1.0", 0, 0, [], []⟩⟩ ([] : Disk) ["a", "b"] false 7).2.2.2 =
        [(1, 2), (2, 2)]) ∧
    (∀ comps : List String,
      (warmCache
        (fun u => if u = componentUrl "a" then .ok "H".data else .error "boom")
        ⟨"1.0", ⟨"1.0", 0, 0, [], []⟩⟩ ([] : Disk) comps false 7).2.2.2 =
        (List.range' 1 comps.length).map (fun j => (j, comps.length)) ∧
      (warmCache
        (fun u => if u = componentUrl "a" then .ok "H".data else .error "boom")
        ⟨"1.0", ⟨"1.0", 0, 0, [], []⟩⟩ ([] : Disk) comps false 7).1.components.success +
        (warmCache
          (fun u => if u = componentUrl "a" then .ok "H".data else .error "boom")
          ⟨"1.0", ⟨"1.0", 0, 0, [], []⟩⟩ ([] : Disk) comps false 7).1.components.failed =
        comps.length ∧
      (warmCache
        (fun u => if u = componentUrl "a" then .ok "H".data else .error "boom")
        ⟨"1.0", ⟨"1.0", 0, 0, [], []⟩⟩ ([] : Disk) comps false 7).1.components.total =
        comps.length) :=
  claim_C6_warm_partial_failure
    (fun u => if u = componentUrl "a" then .ok "H".data else .error "boom")
    ⟨"1.0", ⟨"1.0", 0, 0, [], []⟩⟩ ([] : Disk) 7 "H".data "boom" rfl rfl

theorem claim_C9_witness :
    cacheInv
      (setComponent ⟨"1.0", ⟨"1.0", 0, 0, [], []⟩⟩
        ([(CPath.metadata "1.0", encodeMeta ⟨"1.0", 0, 0, [], []⟩)] : Disk)
        "k" [("full", .str "F")] 3).1
      (setComponent ⟨"1.0", ⟨"1.0", 0, 0, [], []⟩⟩
        ([(CPath.metadata "1.0", encodeMeta ⟨"1.0", 0, 0, [], []⟩)] : Disk)
        "k" [("full", .str "F")] 3).2 ∧
    cacheInv
      (setDocs ⟨"1.0", ⟨"1.0", 0, 0, [], []⟩⟩
        ([(CPath.metadata "1.0", encodeMeta ⟨"1.0", 0, 0, [], []⟩)] : Disk)
        "installation" "body" 3).1
      (setDocs ⟨"1.0", ⟨"1.0", 0, 0, [], []⟩⟩
        ([(CPath.metadata "1.0", encodeMeta ⟨"1.0", 0, 0, [], []⟩)] : Disk)
        "installation" "body" 3).2 :=
  claim_C9_metadata_lockstep ⟨"1.0", ⟨"1.0", 0, 0, [], []⟩⟩
    ([(CPath.metadata "1.0", encodeMeta ⟨"1.0", 0, 0, [], []⟩)] : Disk)
    (by
      refine ⟨?_, ?_, rfl⟩ <;> intro k e hk <;> simp [olook] at hk)
    "k" [("full", .str "F")] "installation" "body" 3

theorem claim_C7_witness :
    htmlToText ("<p>A</p>".data ++ "<script>".data ++ "var x = 1;".data ++
      "</script>".data ++ "<p>B</p>".data) =
      htmlToText ("<p>A</p>".data ++ "<p>B</p>".data) :=
  claim_C7_script_style_removed.1 "<p>A</p>".data "var x = 1;".data "<p>B</p>".data
    (by decide) (by decide)

theorem claim_C8_witness :
    ("a\nb\nc\nd".data ∈ extractCodeBlocks "<pre><code>a\nb\nc\nd</code></pre>".data →
      2 < countNonBlank "a\nb\nc\nd".data) ∧
    ("a\nb\nc\nd".data ∈ rawCodeTexts "<pre><code>a\nb\nc\nd</code></pre>".data →
      2 < countNonBlank "a\nb\nc\nd".data →
      "a\nb\nc\nd".data ∈ extractCodeBlocks "<pre><code>a\nb\nc\nd</code></pre>".data) :=
  claim_C8_code_block_filter "<pre><code>a\nb\nc\nd</code></pre>".data "a\nb\nc\nd".data

end Spartan
